import Mathlib

/-!
# Browse: destination naming, filename search, metadata staleness, copy, move,
delete, sorting and views

A shallow embedding of parts of `src/main.cpp` (the Win32 file browser):
`EnsureSlash`, `ToLower`, `IsVideoFile`, `UniqueName`, the destination-name
computation of `RunClipboardOperationWithUI`, `NameContainsAllTerms`,
`SearchRecurseFolder`, `RunSearchFromOrigin`, the narrowing branch of the
Ctrl+F handler in `ListSubclass`, the `WM_APP_META` case of `WndProc`, and the
copy/move/delete engine: `ClearReadonlyAndSystem`, `SameVolume`,
`DeleteDirectoryTree`, `CopyDirectoryTree`, the batch loop of
`RunClipboardOperationWithUI`, `SetClipboardFileDrop`, `GetClipboardFileDrop`,
`Browser_PasteClipboardIntoCurrent` and `Browser_DeleteSelected`; the comparator
and the sort of `SortRows`; the view functions `ShowDrives`, `ShowFolder` and
`ShowSearchResults` with `CancelMetaWorkAndClearTodo` and
`QueueMissingPropsAndKickWorker`; and the worker loop `MetaThreadProc`.

Conventions of the embedding.
* `std::wstring` is `List Char`; a `const wchar_t*` obtained through
  `c_str()` is the part of the string before the first NUL (`c_str`).
* Win32 queries (`PathFileExistsW`, `FindFirstFileExW`/`FindNextFileW`,
  `GetFileAttributesExW`, the shell property store) are read from an explicit
  value describing the filesystem.
* `int` is `Int`, `ULONGLONG`/`DWORD` are `Nat`.
* The engine's Win32 calls are recorded in a trace (`Call`); what a call
  returns, and whether Cancel is pressed while messages are pumped, is read from
  an `Env` that sees the calls made before.
* `std::sort` is an argument `sort` of the functions that sort; `StdSort` states
  what the C++ standard guarantees about it.
* `std::atomic<uint32_t>` is a `Nat` taken modulo `2 ^ 32`.
-/

set_option autoImplicit false

namespace Browse

/-! ## Strings -/

/-- A `std::wstring`: a sequence of wide characters. -/
abbrev WString := List Char

/-- The terminator of C strings. -/
def NUL : Char := Char.ofNat 0

/-- The backslash, `L'\\'`. -/
def BSL : Char := Char.ofNat 92

/-- The forward slash, `L'/'`. -/
def FSL : Char := Char.ofNat 47

/-- What a C-string consumer sees of `s.c_str()`: the characters before the
first NUL. -/
def c_str (s : WString) : WString := s.takeWhile (fun c => c != NUL)

/-- Model of `::towlower` in the "C" locale (the program never calls `setlocale`):
only `A`..`Z` are mapped. -/
def towlower (c : Char) : Char := c.toLower

/-- Model of `EnsureSlash` (main.cpp 355-358): append a backslash unless the string is
empty or already ends in `\` or `/`. -/
def EnsureSlash (p : WString) : WString :=
  match p.getLast? with
  | none => p
  | some c => if c != BSL && c != FSL then p ++ [BSL] else p

/-- Model of `ToLower` (main.cpp 408-412): `std::transform` with `::towlower`. -/
def ToLower (s : WString) : WString := s.map towlower

/-! ## UniqueName -/

/-- Model of `PathFileExistsW(p.c_str())` against a destination state `fs`, the
predicate telling which paths name an existing entry. -/
def PathFileExistsW (fs : WString → Bool) (p : WString) : Bool := fs (c_str p)

/-- The text produced by `swprintf_s(buf, L" (%d)", i)` for `0 ≤ i`. -/
def swprintf_paren (i : Nat) : WString :=
  [' ', '('] ++ Nat.toDigits 10 i ++ [')']

/-- The `for (int i = 1; i < 10000; ++i)` loop of `UniqueName` (main.cpp
1430-1436); the first argument counts the iterations that remain, the second
is `i`. Falling out of the loop returns `target`. -/
def UniqueName.loop (fs : WString → Bool) (f base ext target : WString) :
    Nat → Nat → WString
  | 0, _ => target
  | n + 1, i =>
    let t := f ++ base ++ swprintf_paren i ++ ext
    if !PathFileExistsW fs t then t else UniqueName.loop fs f base ext target n (i + 1)

/-- Model of `UniqueName` (main.cpp 1424-1437). -/
def UniqueName (fs : WString → Bool) (folder base ext : WString) : WString :=
  let f := EnsureSlash folder
  let target := f ++ base ++ ext
  if !PathFileExistsW fs target then target
  else UniqueName.loop fs f base ext target 9999 1

/-! ## C-string and `std::wstring` primitives -/

/-- Offset of the last occurrence of `ch` in `s`, if any
(`std::wstring::find_last_of` with a single character). -/
def find_last_of.go (ch : Char) : WString → Nat → Option Nat → Option Nat
  | [], _, last => last
  | c :: cs, i, last => find_last_of.go ch cs (i + 1) (if c == ch then some i else last)

/-- Model of `s.find_last_of(ch)`; `none` is `npos`. -/
def find_last_of (s : WString) (ch : Char) : Option Nat := find_last_of.go ch s 0 none

/-- Model of `wcsrchr(s.c_str(), ch)` as an offset into the C string; `none` is the null
pointer. -/
def wcsrchr (s : WString) (ch : Char) : Option Nat := find_last_of (c_str s) ch

/-- Scan of `std::wstring::find`: the first offset at which `t` starts. -/
def wfind.go (t : WString) : WString → Nat → Option Nat
  | [], i => if t.isEmpty then some i else none
  | c :: cs, i => if t.isPrefixOf (c :: cs) then some i else wfind.go t cs (i + 1)

/-- Model of `s.find(t)`; `none` is `npos`. -/
def wfind (s t : WString) : Option Nat := wfind.go t s 0

/-- Model of `_wcsicmp` on two C strings: the difference of the first pair of
lower-cased code units that differ (the terminator counts as 0). -/
def _wcsicmp : WString → WString → Int
  | [], [] => 0
  | [], b :: _ => 0 - ((towlower b).toNat : Int)
  | a :: _, [] => ((towlower a).toNat : Int)
  | a :: as, b :: bs =>
    if towlower a = towlower b then _wcsicmp as bs
    else ((towlower a).toNat : Int) - ((towlower b).toNat : Int)

/-- Model of `PathFindExtensionW` (shlwapi) as an offset into the C string: the offset
of the last `.` that is followed by no backslash and no space, or the offset of
the terminator when there is none. Platform function, modelled on its documented
behaviour. -/
def PathFindExtensionW.go : WString → Nat → Option Nat → Option Nat
  | [], _, last => last
  | c :: cs, i, last =>
    PathFindExtensionW.go cs (i + 1)
      (if c == BSL || c == ' ' then none else if c == '.' then some i else last)

/-- Model of `PathFindExtensionW(s)`: always a valid offset, at most the length. -/
def PathFindExtensionW (s : WString) : Nat :=
  (PathFindExtensionW.go s 0 none).getD s.length

/-! ## Video files -/

/-- Model of `ExtLower` (main.cpp 507-513). -/
def ExtLower (p : WString) : WString :=
  match find_last_of p '.' with
  | none => []
  | some dot => (p.drop dot).map towlower

/-- The table `exts` of `IsVideoFile`. -/
def IsVideoFile.exts : List WString :=
  [".mp4".toList, ".mkv".toList, ".mov".toList, ".avi".toList, ".wmv".toList,
   ".m4v".toList, ".ts".toList, ".m2ts".toList, ".webm".toList, ".flv".toList,
   ".rm".toList]

/-- Model of `IsVideoFile` (main.cpp 515-524). -/
def IsVideoFile (path : WString) : Bool :=
  let e := ExtLower path
  IsVideoFile.exts.any (fun x => e == x)

/-! ## Destination name of a pasted item -/

/-- The lambda `StripTrailingSlashes` (main.cpp 1787-1792); the argument counts
the characters that may still be popped. -/
def StripTrailingSlashes.go : Nat → WString → WString
  | 0, p => p
  | n + 1, p =>
    if p.length > 3 && (p.getLast? == some BSL || p.getLast? == some FSL)
    then StripTrailingSlashes.go n p.dropLast else p

/-- Model of `StripTrailingSlashes(p)`. -/
def StripTrailingSlashes (p : WString) : WString := StripTrailingSlashes.go p.length p

/-- The base name computed at main.cpp 1815-1820 ("handles both `\` and `/`"). -/
def RunClipboardOperationWithUI.baseName (src : WString) : WString :=
  let base := wcsrchr src BSL
  let base2 := wcsrchr src FSL
  let base :=
    match base, base2 with
    | none, b2 => b2
    | some b, some b2 => if b2 > b then some b2 else some b
    | some b, none => some b
  match base with
  | some b => (c_str src).drop (b + 1)
  | none => c_str src

/-- The pair `(nameBase, nameExt)` built at main.cpp 1822-1838. -/
def RunClipboardOperationWithUI.splitName (isDir : Bool) (baseName : WString) :
    WString × WString :=
  if isDir then (baseName, [])
  else
    let extPtr := PathFindExtensionW (c_str baseName)
    if extPtr < (c_str baseName).length then
      ((c_str baseName).take extPtr, (c_str baseName).drop extPtr)
    else (baseName, [])

/-- The destination path `dst` of one item (main.cpp 1805-1840), for a source
path whose attributes were read successfully; `isDir` is the directory bit of
those attributes. -/
def RunClipboardOperationWithUI.dst (fs : WString → Bool) (dstFolder : WString)
    (clipFile : WString) (isDir : Bool) : WString :=
  let src := StripTrailingSlashes clipFile
  let baseName := RunClipboardOperationWithUI.baseName src
  let ne := RunClipboardOperationWithUI.splitName isDir baseName
  UniqueName fs dstFolder ne.1 ne.2

/-! ## Filename search -/

/-- The `for` loop of `NameContainsAllTerms` over the terms. -/
def NameContainsAllTerms.loop (bl : WString) : List WString → Bool
  | [] => true
  | t :: ts => if (wfind bl t).isNone then false else NameContainsAllTerms.loop bl ts

/-- Model of `NameContainsAllTerms` (main.cpp 1294-1301). -/
def NameContainsAllTerms (full : WString) (termsLower : List WString) : Bool :=
  let base : Nat :=
    match wcsrchr full BSL with
    | some b => b + 1
    | none => 0
  let bl := ToLower ((c_str full).drop base)
  NameContainsAllTerms.loop bl termsLower

/-- Model of `FILETIME`. -/
structure FILETIME where
  dwLowDateTime : Nat
  dwHighDateTime : Nat
deriving DecidableEq, Repr

/-- Model of `Row` (main.cpp 110-128). -/
structure Row where
  name : WString := []
  full : WString := []
  isDir : Bool := false
  size : Nat := 0
  modified : FILETIME := ⟨0, 0⟩
  vW : Int := 0
  vH : Int := 0
  vDur100ns : Nat := 0
  isBrokenNetDrive : Bool := false
  netRemote : WString := []
deriving DecidableEq, Repr

/-- The fields of `WIN32_FIND_DATAW` that the program reads. -/
structure FindData where
  cFileName : WString
  dwFileAttributes : Nat
  ftLastWriteTime : FILETIME
  nFileSizeHigh : Nat
  nFileSizeLow : Nat
deriving DecidableEq, Repr

/-- Model of `FILE_ATTRIBUTE_DIRECTORY`. -/
def FILE_ATTRIBUTE_DIRECTORY : Nat := 0x10

/-- Model of `FILE_ATTRIBUTE_REPARSE_POINT`. -/
def FILE_ATTRIBUTE_REPARSE_POINT : Nat := 0x400

/-- An entry yielded by `FindFirstFileExW`/`FindNextFileW` together with what
enumerating it (when it is a directory) yields in turn. A directory that cannot
be opened yields nothing. For a reparse-point directory the children are what
lies at the link target. -/
inductive Entry where
  | mk (fd : FindData) (children : List Entry)

/-- The find data of an entry. -/
def Entry.fd : Entry → FindData
  | .mk fd _ => fd

/-- What enumerating the entry yields. -/
def Entry.children : Entry → List Entry
  | .mk _ ch => ch

/-- Model of `ULARGE_INTEGER::QuadPart` from its two `DWORD` halves. -/
def QuadPart (high low : Nat) : Nat := (high % 2 ^ 32) * 2 ^ 32 + low % 2 ^ 32

/-- What a search has produced: the rows pushed to `out`, and the folders
handed to `FindFirstFileExW`, both in order. -/
structure SearchOut where
  rows : List Row := []
  enumerated : List WString := []
deriving DecidableEq, Repr

/-- The row pushed for a matching file (main.cpp 1326-1337 and 1357-1369). -/
def searchRow (vp : WString → Int × Int × Nat) (full : WString) (modified : FILETIME)
    (sizeHigh sizeLow : Nat) : Row :=
  { name := full, full := full, isDir := false, modified := modified,
    size := QuadPart sizeHigh sizeLow,
    vW := (vp full).1, vH := (vp full).2.1, vDur100ns := (vp full).2.2 }

mutual
/-- The `do ... while (FindNextFileW)` loop of `SearchRecurseFolder` over the
entries of `folder` (main.cpp 1314-1340). `vp` is `GetVideoPropsFastCached`. -/
def SearchRecurseFolder.loop (vp : WString → Int × Int × Nat) (folder : WString)
    (terms : List WString) : List Entry → SearchOut → SearchOut
  | [], out => out
  | e :: rest, out =>
    SearchRecurseFolder.loop vp folder terms rest (SearchRecurseFolder.body vp folder terms e out)
/-- One iteration of that loop. The recursive call
`SearchRecurseFolder(full, terms, out)` enumerates `full` and loops over what
it yields. -/
def SearchRecurseFolder.body (vp : WString → Int × Int × Nat) (folder : WString)
    (terms : List WString) : Entry → SearchOut → SearchOut
  | .mk fd children, out =>
    if fd.cFileName = ['.'] || fd.cFileName = ['.', '.'] then out
    else
      let isDir := fd.dwFileAttributes &&& FILE_ATTRIBUTE_DIRECTORY != 0
      let full := EnsureSlash folder ++ fd.cFileName
      if isDir then
        if fd.dwFileAttributes &&& FILE_ATTRIBUTE_REPARSE_POINT != 0 then out
        else
          SearchRecurseFolder.loop vp full terms children
            { out with enumerated := out.enumerated ++ [full] }
      else if IsVideoFile full then
        if NameContainsAllTerms full terms then
          { out with rows := out.rows ++
              [searchRow vp full fd.ftLastWriteTime fd.nFileSizeHigh fd.nFileSizeLow] }
        else out
      else out
end

/-- Model of `WIN32_FILE_ATTRIBUTE_DATA`, the fields read. -/
structure FileAttributeData where
  dwFileAttributes : Nat
  ftLastWriteTime : FILETIME
  nFileSizeHigh : Nat
  nFileSizeLow : Nat
deriving DecidableEq, Repr

/-- The filesystem as the search sees it. -/
structure FileSystem where
  /-- Model of `FindFirstFileExW(pattern)` and the `FindNextFileW` calls after it: the
  entries matching the pattern (none when the handle is invalid). -/
  FindFiles : WString → List Entry
  /-- Model of `GetFileAttributesExW`; `none` when the call fails. -/
  GetFileAttributesExW : WString → Option FileAttributeData
  /-- Model of `GetVideoPropsFastCached`: width, height, duration. -/
  GetVideoPropsFastCached : WString → Int × Int × Nat
  /-- Model of `GetLogicalDrives`. -/
  GetLogicalDrives : Nat

/-- Model of `SearchRecurseFolder` (main.cpp 1303-1343). -/
def SearchRecurseFolder (fs : FileSystem) (folder : WString) (terms : List WString)
    (out : SearchOut) : SearchOut :=
  let pat := EnsureSlash folder ++ ['*']
  SearchRecurseFolder.loop fs.GetVideoPropsFastCached folder terms (fs.FindFiles (c_str pat))
    { out with enumerated := out.enumerated ++ [folder] }

/-- Model of `ViewKind` (main.cpp 105). -/
inductive ViewKind where
  | Drives | Folder | Search
deriving DecidableEq, Repr

/-- Model of `SearchState` (main.cpp 298-313). -/
structure SearchState where
  active : Bool := false
  originView : ViewKind := ViewKind.Drives
  originFolder : WString := []
  termsLower : List WString := []
  useExplicitScope : Bool := false
  explicitFolders : List WString := []
  explicitFiles : List WString := []
deriving DecidableEq, Repr

/-- The loop over `g_search.explicitFiles` (main.cpp 1349-1371). -/
def RunSearchFromOrigin.files (fs : FileSystem) (terms : List WString) :
    List WString → SearchOut → SearchOut
  | [], out => out
  | file :: rest, out =>
    if !IsVideoFile file then RunSearchFromOrigin.files fs terms rest out
    else if !NameContainsAllTerms file terms then RunSearchFromOrigin.files fs terms rest out
    else
      match fs.GetFileAttributesExW (c_str file) with
      | some fad =>
        if fad.dwFileAttributes &&& FILE_ATTRIBUTE_DIRECTORY == 0 then
          RunSearchFromOrigin.files fs terms rest
            { out with rows := out.rows ++
                [searchRow fs.GetVideoPropsFastCached file fad.ftLastWriteTime
                  fad.nFileSizeHigh fad.nFileSizeLow] }
        else RunSearchFromOrigin.files fs terms rest out
      | none => RunSearchFromOrigin.files fs terms rest out

/-- The loop over `g_search.explicitFolders` (main.cpp 1373-1376). -/
def RunSearchFromOrigin.folders (fs : FileSystem) (terms : List WString) :
    List WString → SearchOut → SearchOut
  | [], out => out
  | folder :: rest, out =>
    RunSearchFromOrigin.folders fs terms rest (SearchRecurseFolder fs folder terms out)

/-- The loop over the 26 drive letters (main.cpp 1382-1387); the first argument
counts the letters that remain, the second is `i`. -/
def RunSearchFromOrigin.drives (fs : FileSystem) (terms : List WString) (mask : Nat) :
    Nat → Nat → SearchOut → SearchOut
  | 0, _, out => out
  | n + 1, i, out =>
    if mask &&& (1 <<< i) == 0 then RunSearchFromOrigin.drives fs terms mask n (i + 1) out
    else
      let root : WString := [Char.ofNat (65 + i), ':', BSL]
      RunSearchFromOrigin.drives fs terms mask n (i + 1) (SearchRecurseFolder fs root terms out)

/-- Model of `RunSearchFromOrigin` (main.cpp 1345-1393), started on cleared results. -/
def RunSearchFromOrigin (fs : FileSystem) (g_search : SearchState) : SearchOut :=
  let out : SearchOut := {}
  if g_search.useExplicitScope then
    let out := RunSearchFromOrigin.files fs g_search.termsLower g_search.explicitFiles out
    RunSearchFromOrigin.folders fs g_search.termsLower g_search.explicitFolders out
  else if g_search.originView = ViewKind.Drives then
    RunSearchFromOrigin.drives fs g_search.termsLower fs.GetLogicalDrives 26 0 out
  else
    SearchRecurseFolder fs g_search.originFolder g_search.termsLower out

/-- The Search-view branch of the Ctrl+F handler in `ListSubclass` (main.cpp
2701-2711): the keyword is appended to the terms and `g_rows` is filtered; the
pair is the new `g_search` and the vector handed to `ShowSearchResults`. -/
def ListSubclass.narrow (g_search : SearchState) (g_rows : List Row) (kw : WString) :
    SearchState × List Row :=
  let g_search := { g_search with termsLower := g_search.termsLower ++ [kw] }
  (g_search, g_rows.filter (fun r => NameContainsAllTerms r.full g_search.termsLower))

/-! ## Metadata results -/

/-- Model of `MetaResult` (main.cpp 319-324). -/
structure MetaResult where
  path : WString
  w : Int
  h : Int
  dur : Nat
  gen : Nat
deriving DecidableEq, Repr

/-- The `for` loop of the `WM_APP_META` case (main.cpp 3539-3559): the first
row whose path equals the result's path, compared with `_wcsicmp`, receives the
three media values, and the loop stops. The `ListView_SetItemText` calls act on
the list-view control only and are not part of the rows. -/
def WM_APP_META.loop (r : MetaResult) : List Row → List Row
  | [] => []
  | it :: rest =>
    if _wcsicmp (c_str it.full) (c_str r.path) == 0 then
      { it with vW := r.w, vH := r.h, vDur100ns := r.dur } :: rest
    else it :: WM_APP_META.loop r rest

/-- The `WM_APP_META` case of `WndProc` (main.cpp 3535-3564) as a function of
`g_rows`, the live `g_metaGen` and the message payload (`none` is the null
pointer); the result is the new `g_rows`. -/
def WndProc.WM_APP_META (g_rows : List Row) (g_metaGen : Nat) (l : Option MetaResult) :
    List Row :=
  match l with
  | none => g_rows
  | some r => if r.gen == g_metaGen then WM_APP_META.loop r g_rows else g_rows

/-! ## Positions in a tree (specification side) -/

/-- The directory bit of the find data. -/
def FindData.isDir (fd : FindData) : Bool := fd.dwFileAttributes &&& FILE_ATTRIBUTE_DIRECTORY != 0

/-- The reparse-point bit of the find data. -/
def FindData.isReparse (fd : FindData) : Bool :=
  fd.dwFileAttributes &&& FILE_ATTRIBUTE_REPARSE_POINT != 0

/-- The names `.` and `..`. -/
def FindData.isDots (fd : FindData) : Bool :=
  fd.cFileName = ['.'] || fd.cFileName = ['.', '.']

/-- Position in a tree: `At folder es chain p e` says that entry `e` lies at path
`p` in the tree `es` enumerated from `folder`, and `chain` lists, outermost
first, the find data of the entries between `folder` and `e`. -/
inductive At (folder : WString) (es : List Entry) : List FindData → WString → Entry → Prop
  | top (e : Entry) : e ∈ es → At folder es [] (EnsureSlash folder ++ e.fd.cFileName) e
  | child (chain : List FindData) (p : WString) (d e : Entry) :
      At folder es chain p d → e ∈ d.children →
      At folder es (chain ++ [d.fd]) (EnsureSlash p ++ e.fd.cFileName) e

mutual
/-- Entries of the tree in depth-first pre-order with their paths, descending
only into directories that are neither reparse points nor `.`/`..`. -/
def walk (folder : WString) : List Entry → List (WString × Entry)
  | [] => []
  | e :: rest => walkEntry folder e ++ walk folder rest
/-- The part of `walk` contributed by one entry. -/
def walkEntry (folder : WString) : Entry → List (WString × Entry)
  | .mk fd ch =>
    if fd.isDots then []
    else (EnsureSlash folder ++ fd.cFileName, Entry.mk fd ch) ::
      (if fd.isDir && !fd.isReparse then walk (EnsureSlash folder ++ fd.cFileName) ch else [])
end

/-- The row a located entry contributes to a search for `terms`, if any. -/
def walkRow (vp : WString → Int × Int × Nat) (terms : List WString)
    (x : WString × Entry) : Option Row :=
  if !x.2.fd.isDir && IsVideoFile x.1 && NameContainsAllTerms x.1 terms then
    some (searchRow vp x.1 x.2.fd.ftLastWriteTime x.2.fd.nFileSizeHigh x.2.fd.nFileSizeLow)
  else none

/-- The folder a located entry makes the search enumerate, if any. -/
def walkDir (x : WString × Entry) : Option WString :=
  if x.2.fd.isDir && !x.2.fd.isReparse then some x.1 else none

/-! ## Well-formed names -/

/-- A file name as `FindNextFileW` reports it: no separator and no NUL inside. -/
def validName (n : WString) : Bool := !n.contains BSL && !n.contains FSL && !n.contains NUL

mutual
/-- Every name in the tree is a `validName`. -/
def validTree : List Entry → Bool
  | [] => true
  | e :: rest => validEntry e && validTree rest
/-- The entry and everything below it carry a `validName`. -/
def validEntry : Entry → Bool
  | .mk fd ch => validName fd.cFileName && validTree ch
end

/-! ## Copy, move and delete engine

The engine talks to the filesystem and to the user through Win32 calls. Each
call is recorded as a `Call`, and what a call returns is read from an `Env`
that may depend on all the calls recorded before it. The functions below
take that history and return, besides their C++ result, the calls they make.
The content of the directory a function is called on is asked from the
environment; the content of a directory below it is the `children` of its
entry, as in the search. The read-only probes of `UniqueName` and the window
calls are not recorded. -/

/-- A recorded Win32 call with the arguments the engine passes. -/
inductive Call where
  | GetFileAttributesW (path : WString)
  | SetFileAttributesW (path : WString) (attrs : Nat)
  | GetVolumePathNameW (path : WString)
  | FindFirstFileW (pattern : WString)
  | CreateDirectoryW (path : WString)
  | CopyFileExW (src dst : WString)
  | MoveFileExW (src : WString) (dst : Option WString) (flags : Nat)
  | DeleteFileW (path : WString)
  | RemoveDirectoryW (path : WString)
  | PumpMessages
deriving DecidableEq, Repr

/-- What the platform and the user answer to each call, given the calls made so
far. -/
structure Env where
  /-- Attributes of a path; `none` is `INVALID_FILE_ATTRIBUTES`. -/
  GetFileAttributesW : List Call → WString → Option Nat
  /-- Whether a path exists. -/
  PathFileExistsW : List Call → WString → Bool
  /-- Volume path of a path; `none` when the call fails. -/
  GetVolumePathNameW : List Call → WString → Option WString
  /-- What `FindFirstFileW(pattern)` and the `FindNextFileW` calls after it yield
  (nothing when the handle is invalid). -/
  FindFiles : List Call → WString → List Entry
  /-- Success of `CreateDirectoryW`. -/
  CreateDirectoryW : List Call → WString → Bool
  /-- Outcome of `CopyFileExW(src, dst, CopyProgressThunk, ...)`: its result, and
  whether the user pressed Cancel while the progress callback pumped messages. -/
  CopyFileExW : List Call → WString → WString → Bool × Bool
  /-- Success of `MoveFileExW(src, dst, flags)`. -/
  MoveFileExW : List Call → WString → Option WString → Nat → Bool
  /-- Success of `DeleteFileW`. -/
  DeleteFileW : List Call → WString → Bool
  /-- Success of `RemoveDirectoryW`. -/
  RemoveDirectoryW : List Call → WString → Bool
  /-- Value of `GetLastError()` after the calls made so far. -/
  GetLastError : List Call → Nat
  /-- Whether the user presses Cancel during this `PumpMessagesThrottled`. -/
  PumpMessages : List Call → Bool
  /-- Whether `CreateOpWindow` returns a window. -/
  CreateOpWindow : List Call → Bool

/-- Model of `FILE_ATTRIBUTE_READONLY`. -/
def FILE_ATTRIBUTE_READONLY : Nat := 0x1

/-- Model of `FILE_ATTRIBUTE_SYSTEM`. -/
def FILE_ATTRIBUTE_SYSTEM : Nat := 0x4

/-- Model of `MOVEFILE_REPLACE_EXISTING`. -/
def MOVEFILE_REPLACE_EXISTING : Nat := 0x1

/-- Model of `MOVEFILE_DELAY_UNTIL_REBOOT`. -/
def MOVEFILE_DELAY_UNTIL_REBOOT : Nat := 0x4

/-- Model of `ERROR_ALREADY_EXISTS`. -/
def ERROR_ALREADY_EXISTS : Nat := 183

/-- Model of `ERROR_CANCELLED`. -/
def ERROR_CANCELLED : Nat := 1223

/-- Model of `ERROR_REQUEST_ABORTED`. -/
def ERROR_REQUEST_ABORTED : Nat := 1235

/-- Model of `IsDriveRoot` (main.cpp 349-353). -/
def IsDriveRoot (p : WString) : Bool :=
  match p with
  | [a, b, c] =>
    ((decide ('A' ≤ a) && decide (a ≤ 'Z')) || (decide ('a' ≤ a) && decide (a ≤ 'z'))) &&
      b == ':' && (c == BSL || c == FSL)
  | _ => false

/-- Model of `ClearReadonlyAndSystem` (main.cpp 182-191): the calls it makes. The mask
`~(READONLY | SYSTEM)` is taken on a 32-bit `DWORD`. -/
def ClearReadonlyAndSystem (env : Env) (path : WString) (hist : List Call) : List Call :=
  match env.GetFileAttributesW hist (c_str path) with
  | none => [Call.GetFileAttributesW (c_str path)]
  | some attrs =>
    let newAttrs := attrs &&& (0xFFFFFFFF ^^^ (FILE_ATTRIBUTE_READONLY ||| FILE_ATTRIBUTE_SYSTEM))
    if newAttrs != attrs then
      [Call.GetFileAttributesW (c_str path), Call.SetFileAttributesW (c_str path) newAttrs]
    else [Call.GetFileAttributesW (c_str path)]

/-- The `while` loop that strips trailing slashes in `DeleteDirectoryTree`
(main.cpp 1659-1663); the first argument counts the characters that may still
be popped. -/
def DeleteDirectoryTree.strip : Nat → WString → WString
  | 0, p => p
  | n + 1, p =>
    if !p.isEmpty && (p.getLast? == some BSL || p.getLast? == some FSL) && !IsDriveRoot p
    then DeleteDirectoryTree.strip n p.dropLast else p

/-- The end of `DeleteDirectoryTree` (main.cpp 1655-1671): remove the directory
itself. Returns the function's result and the calls made. -/
def DeleteDirectoryTree.finish (env : Env) (path : WString) (hist : List Call) :
    Bool × List Call :=
  let dirNoSlash := DeleteDirectoryTree.strip path.length path
  let c1 := ClearReadonlyAndSystem env dirNoSlash hist
  let c2 := c1 ++ [Call.RemoveDirectoryW (c_str dirNoSlash)]
  if !env.RemoveDirectoryW (hist ++ c1) (c_str dirNoSlash) then
    (false, c2 ++ [Call.MoveFileExW (c_str dirNoSlash) none MOVEFILE_DELAY_UNTIL_REBOOT])
  else (true, c2)

/-- A delete of one file or link `child` with the fallback to a delayed delete
(main.cpp 1634-1637 with `RemoveDirectoryW`, 1646-1649 with `DeleteFileW`). -/
def DeleteDirectoryTree.leaf (env : Env) (isLink : Bool) (child : WString)
    (hist : List Call) : List Call :=
  let c1 := ClearReadonlyAndSystem env child hist
  let call := if isLink then Call.RemoveDirectoryW (c_str child) else Call.DeleteFileW (c_str child)
  let ok :=
    if isLink then env.RemoveDirectoryW (hist ++ c1) (c_str child)
    else env.DeleteFileW (hist ++ c1) (c_str child)
  if !ok then c1 ++ [call, Call.MoveFileExW (c_str child) none MOVEFILE_DELAY_UNTIL_REBOOT]
  else c1 ++ [call]

mutual
/-- The `do ... while (FindNextFileW)` loop of `DeleteDirectoryTree` over the
entries of `dir` (main.cpp 1622-1651): the calls it makes. -/
def DeleteDirectoryTree.loop (env : Env) (dir : WString) : List Entry → List Call → List Call
  | [], _ => []
  | e :: rest, hist =>
    let c1 := DeleteDirectoryTree.body env dir e hist
    c1 ++ DeleteDirectoryTree.loop env dir rest (hist ++ c1)
/-- One iteration of that loop. The recursive call `DeleteDirectoryTree(child)`
enumerates `child`, loops over what it yields and removes `child`; its result
is ignored. -/
def DeleteDirectoryTree.body (env : Env) (dir : WString) : Entry → List Call → List Call
  | .mk fd children, hist =>
    if fd.cFileName = ['.'] || fd.cFileName = ['.', '.'] then []
    else
      let child := dir ++ fd.cFileName
      let isDir := fd.dwFileAttributes &&& FILE_ATTRIBUTE_DIRECTORY != 0
      let isReparse := fd.dwFileAttributes &&& FILE_ATTRIBUTE_REPARSE_POINT != 0
      if isDir then
        if isReparse then DeleteDirectoryTree.leaf env true child hist
        else
          let c0 := [Call.FindFirstFileW (c_str (EnsureSlash child ++ ['*']))]
          let c1 := c0 ++ DeleteDirectoryTree.loop env (EnsureSlash child) children (hist ++ c0)
          c1 ++ (DeleteDirectoryTree.finish env child (hist ++ c1)).2
      else DeleteDirectoryTree.leaf env false child hist
end

/-- Model of `DeleteDirectoryTree` (main.cpp 1613-1672): its result and the calls it
makes. -/
def DeleteDirectoryTree (env : Env) (path : WString) (hist : List Call) : Bool × List Call :=
  let dir := EnsureSlash path
  let c0 := [Call.FindFirstFileW (c_str (dir ++ ['*']))]
  let c1 := c0 ++ DeleteDirectoryTree.loop env dir (env.FindFiles hist (c_str (dir ++ ['*'])))
    (hist ++ c0)
  let r := DeleteDirectoryTree.finish env path (hist ++ c1)
  (r.1, c1 ++ r.2)

/-- The two cancellation flags: `g_op.cancel` and the local `BOOL uiCancel` that
`g_op.pCancelFlag` points to. -/
structure OpFlags where
  cancel : Bool := false
  uiCancel : Bool := false
deriving DecidableEq, Repr

/-- The effect of `OpProc` handling a Cancel press (main.cpp 1534-1546): both
flags are raised. -/
def OpFlags.click (fl : OpFlags) (pressed : Bool) : OpFlags :=
  if pressed then { cancel := true, uiCancel := true } else fl

/-- The start of `CopyDirectoryTree` (main.cpp 1681-1686): create the destination
directory; `false` makes the function return `false`. -/
def CopyDirectoryTree.enter (env : Env) (dstDir : WString) (hist : List Call) : Bool :=
  if !env.CreateDirectoryW hist (c_str dstDir) then
    if env.GetLastError (hist ++ [Call.CreateDirectoryW (c_str dstDir)]) != ERROR_ALREADY_EXISTS
    then false else true
  else true

mutual
/-- The `do ... while (FindNextFileW)` loop of `CopyDirectoryTree` (main.cpp
1694-1731): `false` when the function returns `false` inside the loop, the flags
afterwards, and the calls made. -/
def CopyDirectoryTree.loop (env : Env) (srcDir dstDir : WString) :
    List Entry → List Call → OpFlags → Bool × OpFlags × List Call
  | [], _, fl => (true, fl, [])
  | e :: rest, hist, fl =>
    match CopyDirectoryTree.body env srcDir dstDir e hist fl with
    | (false, fl1, c1) => (false, fl1, c1)
    | (true, fl1, c1) =>
      match CopyDirectoryTree.loop env srcDir dstDir rest (hist ++ c1) fl1 with
      | (ok, fl2, c2) => (ok, fl2, c1 ++ c2)
/-- One iteration of that loop. The recursive call
`CopyDirectoryTree(srcPath, dstPath, op, uiCancel)` creates `dstPath`,
enumerates `srcPath` and loops over what it yields. -/
def CopyDirectoryTree.body (env : Env) (srcDir dstDir : WString) :
    Entry → List Call → OpFlags → Bool × OpFlags × List Call
  | .mk fd children, hist, fl =>
    if fd.cFileName = ['.'] || fd.cFileName = ['.', '.'] then (true, fl, [])
    else if fl.cancel then (false, fl, [])
    else if fl.uiCancel then (false, fl, [])
    else
      let srcPath := srcDir ++ fd.cFileName
      let dstPath := dstDir ++ fd.cFileName
      let isDir := fd.dwFileAttributes &&& FILE_ATTRIBUTE_DIRECTORY != 0
      let isReparse := fd.dwFileAttributes &&& FILE_ATTRIBUTE_REPARSE_POINT != 0
      if isDir && !isReparse then
        let c0 := [Call.CreateDirectoryW (c_str (EnsureSlash dstPath))]
        if !CopyDirectoryTree.enter env (EnsureSlash dstPath) hist then (false, fl, c0)
        else
          let c1 := c0 ++ [Call.FindFirstFileW (c_str (EnsureSlash srcPath ++ ['*']))]
          match CopyDirectoryTree.loop env (EnsureSlash srcPath) (EnsureSlash dstPath)
              children (hist ++ c1) fl with
          | (ok, fl2, c2) => (ok, fl2, c1 ++ c2)
      else
        let r := env.CopyFileExW hist (c_str srcPath) (c_str dstPath)
        (r.1, fl.click r.2, [Call.CopyFileExW (c_str srcPath) (c_str dstPath)])
end

/-- Model of `CopyDirectoryTree` (main.cpp 1674-1732): its result, the flags afterwards,
and the calls it makes. -/
def CopyDirectoryTree (env : Env) (srcDirIn dstDirIn : WString) (hist : List Call)
    (fl : OpFlags) : Bool × OpFlags × List Call :=
  let srcDir := EnsureSlash srcDirIn
  let dstDir := EnsureSlash dstDirIn
  let c0 := [Call.CreateDirectoryW (c_str dstDir)]
  if !CopyDirectoryTree.enter env dstDir hist then (false, fl, c0)
  else
    let c1 := c0 ++ [Call.FindFirstFileW (c_str (srcDir ++ ['*']))]
    match CopyDirectoryTree.loop env srcDir dstDir
        (env.FindFiles (hist ++ c0) (c_str (srcDir ++ ['*']))) (hist ++ c1) fl with
    | (ok, fl2, c2) => (ok, fl2, c1 ++ c2)

/-- Model of `SameVolume` (main.cpp 1600-1605): its result and the calls it makes. -/
def SameVolume (env : Env) (a b : WString) (hist : List Call) : Bool × List Call :=
  match env.GetVolumePathNameW hist (c_str a) with
  | none => (false, [Call.GetVolumePathNameW (c_str a)])
  | some va =>
    let c1 := [Call.GetVolumePathNameW (c_str a)]
    match env.GetVolumePathNameW (hist ++ c1) (c_str b) with
    | none => (false, c1 ++ [Call.GetVolumePathNameW (c_str b)])
    | some vb => (_wcsicmp (c_str va) (c_str vb) == 0, c1 ++ [Call.GetVolumePathNameW (c_str b)])

/-- Model of `_wcsnicmp(a, b, n)` on two C strings: `_wcsicmp` on their first `n` code
units. -/
def _wcsnicmp (a b : WString) (n : Nat) : Int := _wcsicmp ((c_str a).take n) ((c_str b).take n)

/-- The lambda `IsPrefixPathNoCase` (main.cpp 1794-1800). -/
def IsPrefixPathNoCase (parentIn childIn : WString) : Bool :=
  let parent := EnsureSlash parentIn
  let child := EnsureSlash childIn
  if parent.length > child.length then false
  else _wcsnicmp parent child parent.length == 0

/-- Model of `ClipMode` (main.cpp 176). -/
inductive ClipMode where
  | None | Copy | Move
deriving DecidableEq, Repr

/-- Model of `OpResult` (main.cpp 173). -/
inductive OpResult where
  | Success | Cancelled | Failed
deriving DecidableEq, Repr

/-- What the copy/move of one item reports back to the loop: the value of `ok`,
the new `allOk`, the flags, and the calls made. -/
structure TransferOut where
  ok : Bool
  allOk : Bool
  flags : OpFlags
  calls : List Call
deriving DecidableEq, Repr

/-- The copy or move of one item (main.cpp 1858-1909), after `uiCancel = FALSE`. -/
def RunClipboardOperationWithUI.transfer (env : Env) (isCopy isDir : Bool)
    (src dst : WString) (hist : List Call) (fl : OpFlags) (allOk : Bool) : TransferOut :=
  if isCopy then
    if isDir then
      match CopyDirectoryTree env src dst hist fl with
      | (ok, fl1, c) => { ok := ok, allOk := allOk, flags := fl1, calls := c }
    else
      let r := env.CopyFileExW hist (c_str src) (c_str dst)
      { ok := r.1, allOk := allOk, flags := fl.click r.2,
        calls := [Call.CopyFileExW (c_str src) (c_str dst)] }
  else
    match SameVolume env src dst hist with
    | (true, cv) =>
      { ok := env.MoveFileExW (hist ++ cv) (c_str src) (some (c_str dst)) MOVEFILE_REPLACE_EXISTING,
        allOk := allOk, flags := fl,
        calls := cv ++ [Call.MoveFileExW (c_str src) (some (c_str dst)) MOVEFILE_REPLACE_EXISTING] }
    | (false, cv) =>
      if isDir then
        match CopyDirectoryTree env src dst (hist ++ cv) fl with
        | (true, fl1, c) =>
          let d := DeleteDirectoryTree env src (hist ++ cv ++ c)
          { ok := true, allOk := if !d.1 then false else allOk, flags := fl1,
            calls := cv ++ c ++ d.2 }
        | (false, fl1, c) =>
          let d := DeleteDirectoryTree env dst (hist ++ cv ++ c)
          { ok := false, allOk := allOk, flags := fl1, calls := cv ++ c ++ d.2 }
      else
        let r := env.CopyFileExW (hist ++ cv) (c_str src) (c_str dst)
        let c := cv ++ [Call.CopyFileExW (c_str src) (c_str dst)]
        if r.1 then
          let c1 := c ++ ClearReadonlyAndSystem env src (hist ++ c)
          if !env.DeleteFileW (hist ++ c1) (c_str src) then
            { ok := true, allOk := false, flags := fl.click r.2,
              calls := c1 ++ [Call.DeleteFileW (c_str src),
                Call.MoveFileExW (c_str src) none MOVEFILE_DELAY_UNTIL_REBOOT] }
          else
            { ok := true, allOk := allOk, flags := fl.click r.2,
              calls := c1 ++ [Call.DeleteFileW (c_str src)] }
        else
          { ok := false, allOk := allOk, flags := fl.click r.2,
            calls := c ++ [Call.DeleteFileW (c_str dst)] }

/-- What one pass through the body of the batch loop leaves behind: the calls
made, the flags, `allOk`, and whether the pass ended in
`cancelled = true; break`. -/
structure ItemOut where
  calls : List Call
  flags : OpFlags
  allOk : Bool
  stop : Bool
deriving DecidableEq, Repr

/-- The end of the loop body (main.cpp 1911-1929): `c` are the calls the pass has
made before, `t` is what the copy or move reported. -/
def RunClipboardOperationWithUI.epilogue (env : Env) (hist : List Call) (c : List Call)
    (t : TransferOut) : ItemOut :=
  let c2 := c ++ t.calls
  let err := env.GetLastError (hist ++ c2)
  if !t.ok && (t.flags.uiCancel || t.flags.cancel || err == ERROR_REQUEST_ABORTED ||
      err == ERROR_CANCELLED) then
    { calls := c2, flags := t.flags, allOk := false, stop := true }
  else if t.flags.cancel || t.flags.uiCancel then
    { calls := c2, flags := t.flags, allOk := if !t.ok then false else t.allOk, stop := true }
  else
    { calls := c2 ++ [Call.PumpMessages],
      flags := t.flags.click (env.PumpMessages (hist ++ c2)),
      allOk := if !t.ok then false else t.allOk, stop := false }

/-- The body of the batch loop for one item, after the cancellation check at
its top (main.cpp 1805-1929). The progress captions and status texts are window
calls and are left out. -/
def RunClipboardOperationWithUI.item (env : Env) (dstFolder : WString) (isCopy : Bool)
    (clipFile : WString) (hist : List Call) (fl : OpFlags) (allOk : Bool) : ItemOut :=
  let src := StripTrailingSlashes clipFile
  let c0 := [Call.GetFileAttributesW (c_str src)]
  match env.GetFileAttributesW hist (c_str src) with
  | none => { calls := c0, flags := fl, allOk := false, stop := false }
  | some attrs =>
    let isDir := attrs &&& FILE_ATTRIBUTE_DIRECTORY != 0
    let dst := RunClipboardOperationWithUI.dst (env.PathFileExistsW (hist ++ c0)) dstFolder
      clipFile isDir
    if isDir && (IsPrefixPathNoCase src dstFolder || IsPrefixPathNoCase src dst) then
      { calls := c0, flags := fl, allOk := false, stop := false }
    else
      let fl1 := fl.click (env.PumpMessages (hist ++ c0))
      let c1 := c0 ++ [Call.PumpMessages]
      let fl2 : OpFlags := { fl1 with uiCancel := false }
      RunClipboardOperationWithUI.epilogue env hist c1
        (RunClipboardOperationWithUI.transfer env isCopy isDir src dst (hist ++ c1) fl2 allOk)

/-- What the batch loop leaves behind: the calls made, the flags, `allOk` and
`cancelled`. -/
structure LoopOut where
  calls : List Call
  flags : OpFlags
  allOk : Bool
  cancelled : Bool
deriving DecidableEq, Repr

/-- The batch loop `for (size_t i = 0; i < total; ++i)` (main.cpp 1802-1930) over
the items that remain. -/
def RunClipboardOperationWithUI.loop (env : Env) (dstFolder : WString) (isCopy : Bool) :
    List WString → List Call → OpFlags → Bool → LoopOut
  | [], _, fl, allOk => { calls := [], flags := fl, allOk := allOk, cancelled := false }
  | f :: rest, hist, fl, allOk =>
    if fl.cancel then { calls := [], flags := fl, allOk := allOk, cancelled := true }
    else
      let r := RunClipboardOperationWithUI.item env dstFolder isCopy f hist fl allOk
      if r.stop then
        { calls := r.calls, flags := r.flags, allOk := r.allOk, cancelled := true }
      else
        let r2 := RunClipboardOperationWithUI.loop env dstFolder isCopy rest (hist ++ r.calls)
          r.flags r.allOk
        { calls := r.calls ++ r2.calls, flags := r2.flags, allOk := r2.allOk,
          cancelled := r2.cancelled }

/-- The internal clipboard: `g_clipMode` and `g_clipFiles` (main.cpp 176-178). -/
structure ClipState where
  g_clipMode : ClipMode := ClipMode.None
  g_clipFiles : List WString := []
deriving DecidableEq, Repr

/-- Model of `RunClipboardOperationWithUI` (main.cpp 1737-1947): its result, the internal
clipboard on return, and the calls it makes. The refresh of the view at the end
is not part of the model. -/
def RunClipboardOperationWithUI (env : Env) (g : ClipState) (dstFolder : WString)
    (hist : List Call) : OpResult × ClipState × List Call :=
  if g.g_clipMode = ClipMode.None || g.g_clipFiles.isEmpty then (OpResult.Failed, g, [])
  else
    let isCopy := decide (g.g_clipMode = ClipMode.Copy)
    if !env.CreateOpWindow hist then (OpResult.Failed, g, [])
    else
      let r := RunClipboardOperationWithUI.loop env dstFolder isCopy g.g_clipFiles hist
        { cancel := false, uiCancel := false } true
      let g2 : ClipState := { g_clipMode := ClipMode.None, g_clipFiles := [] }
      if r.cancelled then (OpResult.Cancelled, g2, r.calls)
      else (if r.allOk then OpResult.Success else OpResult.Failed, g2, r.calls)

/-! ## Clipboard bridge -/

/-- The external medium: the wide characters that follow the `DROPFILES` header
of the `CF_HDROP` data, and the `DWORD` of the "Preferred DropEffect" format. -/
structure Clipboard where
  hdrop : Option WString := none
  dropEffect : Option Nat := none
deriving DecidableEq, Repr

/-- Outcomes of the platform calls around the clipboard, and the content of
freshly allocated memory (`GlobalAlloc` without `GMEM_ZEROINIT`) by offset. -/
structure ClipboardApi where
  OpenClipboard : Bool := true
  GlobalAllocDrop : Bool := true
  GlobalLockDrop : Bool := true
  SetClipboardDataDrop : Bool := true
  GlobalAllocEffect : Bool := true
  GlobalLockEffect : Bool := true
  SetClipboardDataEffect : Bool := true
  uninit : Nat → Char := fun _ => Char.ofNat 0xFEFE

/-- Model of `DROPEFFECT_COPY`. -/
def DROPEFFECT_COPY : Nat := 1

/-- Model of `DROPEFFECT_MOVE`. -/
def DROPEFFECT_MOVE : Nat := 2

/-- The copy loop of `SetClipboardFileDrop` (main.cpp 227-230): `wcscpy_s` writes
the C string of `f` and its terminator into a slot of `f.size() + 1` characters;
the rest of the slot keeps the content of the allocation. The second argument is
the offset of `dst`. -/
def SetClipboardFileDrop.copy (uninit : Nat → Char) : List WString → Nat → WString
  | [], _ => []
  | f :: rest, off =>
    let s := c_str f
    s ++ [NUL] ++ (List.range (f.length - s.length)).map (fun k => uninit (off + s.length + 1 + k))
      ++ SetClipboardFileDrop.copy uninit rest (off + f.length + 1)

/-- Model of `SetClipboardFileDrop` (main.cpp 193-252): the medium afterwards. -/
def SetClipboardFileDrop (api : ClipboardApi) (files : List WString) (mode : ClipMode)
    (cb : Clipboard) : Clipboard :=
  if files.isEmpty then cb
  else if !api.OpenClipboard then cb
  else
    let cb0 : Clipboard := { hdrop := none, dropEffect := none }
    if !api.GlobalAllocDrop then cb0
    else if !api.GlobalLockDrop then cb0
    else
      let cb1 : Clipboard :=
        if api.SetClipboardDataDrop then
          { cb0 with hdrop := some (SetClipboardFileDrop.copy api.uninit files 0 ++ [NUL]) }
        else cb0
      let effect : Nat := if mode = ClipMode.Move then DROPEFFECT_MOVE else DROPEFFECT_COPY
      if api.GlobalAllocEffect then
        if api.GlobalLockEffect then
          if api.SetClipboardDataEffect then { cb1 with dropEffect := some effect } else cb1
        else cb1
      else cb1

/-- The strings `DragQueryFileW` finds in a wide `CF_HDROP` list: NUL-terminated
strings up to the first empty one. Platform function, modelled on its documented
behaviour; the first argument bounds the number of strings. -/
def DragQueryFileW.go : Nat → WString → List WString
  | 0, _ => []
  | n + 1, buf =>
    let s := buf.takeWhile (fun c => c != NUL)
    if s.isEmpty then [] else s :: DragQueryFileW.go n (buf.drop (s.length + 1))

/-- All strings of the list, in order. -/
def DragQueryFileW (buf : WString) : List WString := DragQueryFileW.go buf.length buf

/-- The loop over the dropped files in `GetClipboardFileDrop` (main.cpp 282-290). -/
def GetClipboardFileDrop.loop : List WString → List WString
  | [] => []
  | s :: rest =>
    if s.length = 0 then GetClipboardFileDrop.loop rest
    else
      let path := c_str s
      if !path.isEmpty then path :: GetClipboardFileDrop.loop rest
      else GetClipboardFileDrop.loop rest

/-- Model of `GetClipboardFileDrop` (main.cpp 254-294) with a non-null `outMode`: its
result, `outFiles` and `*outMode`. -/
def GetClipboardFileDrop (api : ClipboardApi) (cb : Clipboard) :
    Bool × List WString × ClipMode :=
  if !api.OpenClipboard then (false, [], ClipMode.Copy)
  else
    match cb.hdrop with
    | none => (false, [], ClipMode.Copy)
    | some buf =>
      let mode :=
        match cb.dropEffect with
        | some eff =>
          if api.GlobalLockEffect then
            (if eff &&& DROPEFFECT_MOVE != 0 then ClipMode.Move else ClipMode.Copy)
          else ClipMode.Copy
        | none => ClipMode.Copy
      let outFiles := GetClipboardFileDrop.loop (DragQueryFileW buf)
      (!outFiles.isEmpty, outFiles, mode)

/-- The state `Browser_PasteClipboardIntoCurrent` reads and writes. -/
structure PasteState where
  g_view : ViewKind
  g_folder : WString
  g_search : SearchState
  clip : ClipState
  clipboard : Clipboard
deriving DecidableEq, Repr

/-- The destination folder `Browser_PasteClipboardIntoCurrent` chooses (main.cpp
1950-1957); `none` is the `else return;`. -/
def Browser_PasteClipboardIntoCurrent.dstFolder (st : PasteState) : Option WString :=
  if st.g_view = ViewKind.Folder then some st.g_folder
  else if st.g_view = ViewKind.Search && st.g_search.originView = ViewKind.Folder then
    some st.g_search.originFolder
  else none

/-- Model of `Browser_PasteClipboardIntoCurrent` (main.cpp 1949-1985): the state
afterwards and the calls made. `api` answers the clipboard calls of
`GetClipboardFileDrop`, `reopen` the `OpenClipboard` before `EmptyClipboard`. -/
def Browser_PasteClipboardIntoCurrent (env : Env) (api : ClipboardApi) (reopen : Bool)
    (st : PasteState) (hist : List Call) : PasteState × List Call :=
  match Browser_PasteClipboardIntoCurrent.dstFolder st with
  | none => (st, [])
  | some dstFolder =>
    match GetClipboardFileDrop api st.clipboard with
    | (true, sysFiles, sysMode) =>
      let r := RunClipboardOperationWithUI env
        { g_clipMode := sysMode, g_clipFiles := sysFiles } dstFolder hist
      let clipboard :=
        if sysMode = ClipMode.Move && r.1 = OpResult.Success then
          (if reopen then { hdrop := none, dropEffect := none } else st.clipboard)
        else st.clipboard
      ({ st with clip := r.2.1, clipboard := clipboard }, r.2.2)
    | (false, _, _) =>
      if st.clip.g_clipMode = ClipMode.None || st.clip.g_clipFiles.isEmpty then (st, [])
      else
        let r := RunClipboardOperationWithUI env st.clip dstFolder hist
        ({ st with clip := r.2.1 }, r.2.2)

/-! ## Notions used to state the engine's properties -/

/-- The path a delete-type call acts on: `DeleteFileW`, `RemoveDirectoryW`, and
`MoveFileExW` without a destination (the delayed delete). -/
def Call.deleteTarget : Call → Option WString
  | .DeleteFileW p => some p
  | .RemoveDirectoryW p => some p
  | .MoveFileExW p none _ => some p
  | _ => none

/-- The calls `CopyDirectoryTree` and the file copy consist of. -/
def Call.isByteCopy : Call → Bool
  | .CopyFileExW _ _ => true
  | .CreateDirectoryW _ => true
  | _ => false

/-- A path argument `t` lies within `X`: it is the C string of `X`, of `X`
without its trailing slashes, or of a path that continues `X` and a separator. -/
def Within (X t : WString) : Prop :=
  t = c_str X ∨ t = c_str (DeleteDirectoryTree.strip X.length X) ∨
    ∃ s, t = c_str (EnsureSlash X ++ s)

/-- A name as `FindNextFileW` reports it: not empty, no separator, no NUL. -/
def properName (n : WString) : Bool := !n.isEmpty && validName n

mutual
/-- Every name in the tree is a `properName`. -/
def properTree : List Entry → Bool
  | [] => true
  | e :: rest => properEntry e && properTree rest
/-- The entry and everything below it carry a `properName`. -/
def properEntry : Entry → Bool
  | .mk fd ch => properName fd.cFileName && properTree ch
end

mutual
/-- No two entries of one directory carry the same name, at every level. -/
def distinctNames : List Entry → Bool
  | [] => true
  | e :: rest =>
    !rest.any (fun r => r.fd.cFileName == e.fd.cFileName) && distinctEntry e &&
      distinctNames rest
/-- The same below one entry. -/
def distinctEntry : Entry → Bool
  | .mk _ ch => distinctNames ch
end

/-- Whether a call reads or changes the attributes of `q` or deletes `q`. -/
def Call.actsOn (q : WString) : Call → Bool
  | .GetFileAttributesW p => p == q
  | .SetFileAttributesW p _ => p == q
  | .DeleteFileW p => p == q
  | .RemoveDirectoryW p => p == q
  | .MoveFileExW p none _ => p == q
  | _ => false

/-! ## Example states -/

/-- A destination holding `a.txt` only. -/
def destOnlyA : WString → Bool :=
  fun p => p == "D:\\x\\a.txt".toList

/-- The same destination after `a (1).txt` was created. -/
def destA : WString → Bool :=
  fun p => p == "D:\\x\\a.txt".toList || p == "D:\\x\\a (1).txt".toList

/-- As `destA`, with one more entry on another volume. -/
def destA2 : WString → Bool :=
  fun p => destA p || p == "E:\\y\\a (2).txt".toList

/-- A destination holding a directory `my.dir`. -/
def destDir : WString → Bool :=
  fun p => p == "D:\\x\\my.dir".toList

/-- The 10000 names `a.txt`, `a (1).txt`, ..., `a (9999).txt` in `D:\x`. -/
def destFullList : List WString :=
  "D:\\x\\a.txt".toList ::
    (List.range 9999).map
      (fun k => "D:\\x\\a".toList ++ (" (" ++ Nat.repr (k + 1) ++ ")").toList ++ ".txt".toList)

/-- A destination in which exactly the names of `destFullList` exist. -/
def destFull : WString → Bool := fun p => decide (p ∈ destFullList)

/-- The entry of the text file `trip_2023.txt`. -/
def exTxtEntry : Entry :=
  .mk ⟨"trip_2023.txt".toList, 0x20, ⟨7, 1⟩, 0, 30⟩ []

/-- The entry of the video `Trip_2023_Summer.mp4`. -/
def exSummerEntry : Entry :=
  .mk ⟨"Trip_2023_Summer.mp4".toList, 0x20, ⟨5, 1⟩, 0, 1000⟩ []

/-- What enumerating `C:\v` yields: two videos, a text file, a subdirectory and
a reparse-point directory, each of the two holding one video. -/
def exTree : List Entry :=
  [ .mk ⟨".".toList, 0x10, ⟨0, 0⟩, 0, 0⟩ [],
    .mk ⟨"..".toList, 0x10, ⟨0, 0⟩, 0, 0⟩ [],
    exSummerEntry,
    .mk ⟨"trip_2022.mp4".toList, 0x20, ⟨6, 1⟩, 0, 2000⟩ [],
    exTxtEntry,
    .mk ⟨"sub".toList, 0x10, ⟨8, 1⟩, 0, 0⟩
      [.mk ⟨"2023 TRIP b.MKV".toList, 0x20, ⟨9, 1⟩, 1, 5⟩ []],
    .mk ⟨"link".toList, 0x410, ⟨8, 1⟩, 0, 0⟩
      [.mk ⟨"trip_2023_linked.mp4".toList, 0x20, ⟨9, 1⟩, 0, 7⟩ []] ]

/-- A filesystem whose folder `C:\v` holds `exTree`. -/
def exFS : FileSystem where
  FindFiles := fun pat =>
    if pat = "C:\\v\\*".toList then exTree
    else if pat = "C:\\v\\sub\\*".toList then
      [.mk ⟨"2023 TRIP b.MKV".toList, 0x20, ⟨9, 1⟩, 1, 5⟩ []]
    else []
  GetFileAttributesExW := fun p =>
    if p = "C:\\v\\Trip_2023_Summer.mp4".toList then some ⟨0x20, ⟨5, 1⟩, 0, 1000⟩
    else if p = "C:\\v\\trip_2023.txt".toList then some ⟨0x20, ⟨7, 1⟩, 0, 30⟩
    else if p = "C:\\v\\sub".toList then some ⟨0x10, ⟨8, 1⟩, 0, 0⟩
    else none
  GetVideoPropsFastCached := fun _ => (0, 0, 0)
  GetLogicalDrives := 4

/-- A search for `trip` started in folder view of `C:\v`. -/
def exSearch : SearchState :=
  { active := true, originView := ViewKind.Folder, originFolder := "C:\\v\\".toList,
    termsLower := ["trip".toList] }

/-- A search for `trip` over a selection: two files and the folder `C:\v\sub\`. -/
def exScoped : SearchState :=
  { active := true, originView := ViewKind.Folder, originFolder := "C:\\v\\".toList,
    termsLower := ["trip".toList], useExplicitScope := true,
    explicitFolders := ["C:\\v\\sub\\".toList],
    explicitFiles := ["C:\\v\\trip_2023.txt".toList, "C:\\v\\Trip_2023_Summer.mp4".toList] }

/-- One listed video whose media fields are still unknown. -/
def exRows : List Row :=
  [{ name := "a.mp4".toList, full := "C:\\v\\a.mp4".toList, size := 10 }]

/-- A metadata result for that video, tagged with generation 4. -/
def exStale : MetaResult :=
  { path := "c:\\V\\A.MP4".toList, w := 1920, h := 1080, dur := 600000000, gen := 4 }

/-- A filesystem whose folder `C:/videos/` holds the single video `clip.mp4`. -/
def slashFS : FileSystem where
  FindFiles := fun pat =>
    if pat = "C:/videos/*".toList then [.mk ⟨"clip.mp4".toList, 0x20, ⟨1, 1⟩, 0, 9⟩ []]
    else []
  GetFileAttributesExW := fun _ => none
  GetVideoPropsFastCached := fun _ => (0, 0, 0)
  GetLogicalDrives := 4

/-! ## Example environments -/

/-- A reparse-point directory `link` holding `y.bin`. -/
def exLinkEntry : Entry :=
  .mk ⟨"link".toList, 0x410, ⟨1, 1⟩, 0, 0⟩ [.mk ⟨"y.bin".toList, 0x20, ⟨1, 1⟩, 0, 5⟩ []]

/-- A directory `sub` holding the read-only file `z.bin` and `link`. -/
def exSubEntry : Entry :=
  .mk ⟨"sub".toList, 0x10, ⟨1, 1⟩, 0, 0⟩
    [.mk ⟨"z.bin".toList, 0x21, ⟨1, 1⟩, 0, 5⟩ [], exLinkEntry]

/-- The content of `C:\s\d`: `.`, the file `x.bin` and `sub`. -/
def exDirTree : List Entry :=
  [.mk ⟨".".toList, 0x10, ⟨0, 0⟩, 0, 0⟩ [], .mk ⟨"x.bin".toList, 0x20, ⟨1, 1⟩, 0, 5⟩ [],
    exSubEntry]

/-- An environment in which every call succeeds and Cancel is never pressed:
three files and the directory `d` in `C:\s`, an empty directory `C:\a`, nothing
at the destinations, and the volume of a path given by its first three
characters. -/
def exEnv : Env where
  GetFileAttributesW := fun _ p =>
    if p = "C:\\s\\a.txt".toList then some 0x20
    else if p = "C:\\s\\b.txt".toList then some 0x21
    else if p = "C:\\s\\c.txt".toList then some 0x20
    else if p = "C:\\s\\d".toList then some 0x10
    else if p = "C:\\a".toList then some 0x10
    else none
  PathFileExistsW := fun _ _ => false
  GetVolumePathNameW := fun _ p => some (p.take 3)
  FindFiles := fun _ pat => if pat = "C:\\s\\d\\*".toList then exDirTree else []
  CreateDirectoryW := fun _ _ => true
  CopyFileExW := fun _ _ _ => (true, false)
  MoveFileExW := fun _ _ _ _ => true
  DeleteFileW := fun _ _ => true
  RemoveDirectoryW := fun _ _ => true
  GetLastError := fun _ => 0
  PumpMessages := fun _ => false
  CreateOpWindow := fun _ => true

/-- The same, but every `CopyFileExW` fails. -/
def exEnvCopyFails : Env := { exEnv with CopyFileExW := fun _ _ _ => (false, false) }

/-- The same as `exEnv`, but every `DeleteFileW` and `RemoveDirectoryW` fails. -/
def exEnvDeleteFails : Env :=
  { exEnv with DeleteFileW := fun _ _ => false, RemoveDirectoryW := fun _ _ => false }

/-- The same as `exEnv`, but every `MoveFileExW` fails and leaves `ERROR_CANCELLED`
as last error. -/
def exEnvErrCancelled : Env :=
  { exEnv with MoveFileExW := fun _ _ _ _ => false, GetLastError := fun _ => ERROR_CANCELLED }

/-- The same as `exEnv`, but Cancel is pressed during the pump that follows five
recorded calls: the first pump of the second item of a batch of files. -/
def exEnvClick : Env := { exEnv with PumpMessages := fun h => h.length == 5 }

/-- The same as `exEnv`, but Cancel is pressed during the pump that follows
eleven recorded calls: the last pump of the third item of a batch of files. -/
def exEnvLateClick : Env := { exEnv with PumpMessages := fun h => h.length == 11 }

/-- The same as `exEnv`, but `CreateOpWindow` fails. -/
def exEnvNoWindow : Env := { exEnv with CreateOpWindow := fun _ => false }

/-- A batch of three files. -/
def exBatch : List WString :=
  ["C:\\s\\a.txt".toList, "C:\\s\\b.txt".toList, "C:\\s\\c.txt".toList]

/-- The external medium after another program put `C:\s\a.txt` on it for a
copy. -/
def exClipboard : Clipboard :=
  { hdrop := some "C:\\s\\a.txt\x00\x00".toList, dropEffect := some DROPEFFECT_COPY }

/-- Folder view of `D:\t\` with `C:\s\b.txt` cut inside the program and
`exClipboard` on the external medium. -/
def exPasteFolder : PasteState :=
  { g_view := ViewKind.Folder, g_folder := "D:\\t\\".toList, g_search := {},
    clip := { g_clipMode := ClipMode.Move, g_clipFiles := ["C:\\s\\b.txt".toList] },
    clipboard := exClipboard }

/-- The same state in drives view. -/
def exPasteDrives : PasteState := { exPasteFolder with g_view := ViewKind.Drives }

/-! ## Sorting

`std::sort` leaves the order of equivalent elements open, so the functions
below take the sorting algorithm as an argument `sort`; `StdSort sort` says what
the C++ standard guarantees about it. -/

/-- The lambda `typeTextForSort` of `SortRows` (main.cpp 1022-1034): the C string
it returns. -/
def SortRows.typeTextForSort (r : Row) : WString :=
  if r.isDir then "Folder".toList
  else if IsVideoFile r.full then "Video".toList
  else
    let s := c_str r.full
    let ext := s.drop (PathFindExtensionW s)
    if !ext.isEmpty then
      if ext.head? == some '.' && ext.length > 1 then ext.drop 1 else ext
    else "File".toList

/-- The conversion `(ULONGLONG)x` of an `int`. -/
def toULONGLONG (x : Int) : Nat := (x % 2 ^ 64).toNat

/-- The comparator that `SortRows` passes to `std::sort` (main.cpp 1016-1067). -/
def SortRows.comp (col : Int) (asc : Bool) (A B : Row) : Bool :=
  if A.isDir != B.isDir then A.isDir && !B.isDir
  else if col = 0 then
    if asc then decide (_wcsicmp (c_str A.name) (c_str B.name) < 0)
    else decide (_wcsicmp (c_str A.name) (c_str B.name) > 0)
  else if col = 1 then
    let c := _wcsicmp (SortRows.typeTextForSort A) (SortRows.typeTextForSort B)
    if c != 0 then (if asc then decide (c < 0) else decide (c > 0))
    else decide (_wcsicmp (c_str A.name) (c_str B.name) < 0)
  else if col = 2 then
    if A.size != B.size then
      (if asc then decide (A.size < B.size) else decide (A.size > B.size))
    else decide (_wcsicmp (c_str A.name) (c_str B.name) < 0)
  else if col = 3 then
    let a := QuadPart A.modified.dwHighDateTime A.modified.dwLowDateTime
    let b := QuadPart B.modified.dwHighDateTime B.modified.dwLowDateTime
    if a != b then (if asc then decide (a < b) else decide (a > b))
    else decide (_wcsicmp (c_str A.name) (c_str B.name) < 0)
  else if col = 4 then
    let aa := (toULONGLONG A.vW * toULONGLONG A.vH) % 2 ^ 64
    let bb := (toULONGLONG B.vW * toULONGLONG B.vH) % 2 ^ 64
    if aa != bb then (if asc then decide (aa < bb) else decide (aa > bb))
    else if A.vW != B.vW then (if asc then decide (A.vW < B.vW) else decide (A.vW > B.vW))
    else decide (_wcsicmp (c_str A.name) (c_str B.name) < 0)
  else if col = 5 then
    if A.vDur100ns != B.vDur100ns then
      (if asc then decide (A.vDur100ns < B.vDur100ns)
        else decide (A.vDur100ns > B.vDur100ns))
    else decide (_wcsicmp (c_str A.name) (c_str B.name) < 0)
  else decide (_wcsicmp (c_str A.name) (c_str B.name) < 0)

/-- The requirement of the C++ standard on a comparator handed to `std::sort`:
a strict weak ordering. -/
structure StrictWeakOrdering {α : Type} (lt : α → α → Bool) : Prop where
  irrefl : ∀ a, lt a a = false
  asymm : ∀ a b, lt a b = true → lt b a = false
  trans : ∀ a b c, lt a b = true → lt b c = true → lt a c = true
  incomp_trans : ∀ a b c, lt a b = false → lt b a = false → lt b c = false →
    lt c b = false → lt a c = false ∧ lt c a = false

/-- What the C++ standard guarantees about `std::sort(first, last, comp)` for a
comparator that is a strict weak ordering: the range afterwards is a
permutation of the range before, and no element is less than one that stands
before it. -/
def StdSort (sort : (Row → Row → Bool) → List Row → List Row) : Prop :=
  ∀ (comp : Row → Row → Bool) (l : List Row), StrictWeakOrdering comp →
    (sort comp l).Perm l ∧ (sort comp l).Pairwise (fun a b => comp b a = false)

/-! ## Views and the metadata queue -/

/-- The globals that the view functions read and write. `workers` counts the
threads that `StartMetaWorker` has created. -/
structure ViewState where
  g_view : ViewKind := ViewKind.Drives
  g_folder : WString := []
  g_rows : List Row := []
  g_sortCol : Int := 0
  g_sortAsc : Bool := true
  g_metaGen : Nat := 0
  g_metaTodoPaths : List WString := []
  workers : Nat := 0
deriving DecidableEq, Repr

/-- Model of `SortRows` (main.cpp 1013-1070). `LV_Rebuild` acts on the list-view control
only. -/
def SortRows (sort : (Row → Row → Bool) → List Row → List Row) (col : Int) (asc : Bool)
    (st : ViewState) : ViewState :=
  { st with g_sortCol := col, g_sortAsc := asc,
            g_rows := sort (SortRows.comp col asc) st.g_rows }

/-- Model of `StartMetaWorker` (main.cpp 1100-1103): a new thread running
`MetaThreadProc` is created. -/
def StartMetaWorker (st : ViewState) : ViewState := { st with workers := st.workers + 1 }

/-- Model of `CancelMetaWorkAndClearTodo` (main.cpp 1105-1110); `g_metaGen` is a
`std::atomic<uint32_t>`. -/
def CancelMetaWorkAndClearTodo (st : ViewState) : ViewState :=
  { st with g_metaGen := (st.g_metaGen + 1) % 2 ^ 32, g_metaTodoPaths := [] }

/-- The loop of `QueueMissingPropsAndKickWorker` over `g_rows` (main.cpp
1114-1118). -/
def QueueMissingPropsAndKickWorker.loop : List Row → List WString → List WString
  | [], todo => todo
  | r :: rest, todo =>
    if !r.isDir && r.vW == 0 && r.vH == 0 && r.vDur100ns == 0 && IsVideoFile r.full then
      QueueMissingPropsAndKickWorker.loop rest (todo ++ [r.full])
    else QueueMissingPropsAndKickWorker.loop rest todo

/-- Model of `QueueMissingPropsAndKickWorker` (main.cpp 1112-1121). -/
def QueueMissingPropsAndKickWorker (st : ViewState) : ViewState :=
  let st1 := { st with
    g_metaTodoPaths := QueueMissingPropsAndKickWorker.loop st.g_rows st.g_metaTodoPaths }
  if !st1.g_metaTodoPaths.isEmpty then StartMetaWorker st1 else st1

/-- What `ShowDrives` learns about mapped network drives: the mask returned by
`GetConnectedNetDriveMask`, and for a drive letter the remote path when
`GetPersistentMappedRemotePath` finds one. -/
structure NetDrives where
  GetConnectedNetDriveMask : Nat
  GetPersistentMappedRemotePath : Char → Option WString

/-- The loop of `ShowDrives` over the 26 letters (main.cpp 1138-1171); the first
argument counts the letters that remain, the second is `i`. -/
def ShowDrives.loop (net : NetDrives) (mask : Nat) : Nat → Nat → List Row → List Row
  | 0, _, rows => rows
  | n + 1, i, rows =>
    if mask &&& (1 <<< i) == 0 then ShowDrives.loop net mask n (i + 1) rows
    else
      let letter := Char.ofNat (65 + i)
      let root : WString := [letter, ':', BSL]
      let r : Row := { full := root, isDir := true, name := root }
      let isConnected := net.GetConnectedNetDriveMask &&& (1 <<< i) != 0
      let r : Row :=
        match net.GetPersistentMappedRemotePath letter with
        | some remote =>
          if !isConnected then
            { r with isBrokenNetDrive := true, netRemote := remote, name := [letter, ':'] }
          else r
        | none => r
      ShowDrives.loop net mask n (i + 1) (rows ++ [r])

/-- Model of `ShowDrives` (main.cpp 1125-1177). The calls that act on the window and the
list-view control are left out. -/
def ShowDrives (sort : (Row → Row → Bool) → List Row → List Row) (fs : FileSystem)
    (net : NetDrives) (st : ViewState) : ViewState :=
  let st := CancelMetaWorkAndClearTodo st
  let st := { st with g_view := ViewKind.Drives, g_folder := [], g_rows := [] }
  let st := { st with g_rows := ShowDrives.loop net fs.GetLogicalDrives 26 0 st.g_rows }
  SortRows sort 0 true st

/-- The row that `ShowFolder` builds for one entry (main.cpp 1232-1254). -/
def ShowFolder.row (vp : WString → Int × Int × Nat) (abs : WString) (fd : FindData) : Row :=
  let r : Row :=
    { name := fd.cFileName, full := abs ++ fd.cFileName,
      isDir := fd.dwFileAttributes &&& FILE_ATTRIBUTE_DIRECTORY != 0,
      modified := fd.ftLastWriteTime }
  if r.isDir then r
  else
    let r := { r with size := QuadPart fd.nFileSizeHigh fd.nFileSizeLow }
    if IsVideoFile r.full then
      { r with vW := (vp r.full).1, vH := (vp r.full).2.1, vDur100ns := (vp r.full).2.2 }
    else r

/-- The `do ... while (FindNextFileW)` loop of `ShowFolder` (main.cpp 1229-1270):
the vectors `dirs` and `files`. -/
def ShowFolder.loop (vp : WString → Int × Int × Nat) (abs : WString) :
    List Entry → List Row × List Row → List Row × List Row
  | [], acc => acc
  | e :: rest, (dirs, files) =>
    if e.fd.cFileName = ['.'] || e.fd.cFileName = ['.', '.'] then
      ShowFolder.loop vp abs rest (dirs, files)
    else
      let r := ShowFolder.row vp abs e.fd
      if r.isDir then ShowFolder.loop vp abs rest (dirs ++ [r], files)
      else ShowFolder.loop vp abs rest (dirs, files ++ [r])

/-- The path that `ShowFolder` stores in `g_folder` (main.cpp 1183-1184). -/
def ShowFolder.abs (abs : WString) : WString :=
  EnsureSlash (if abs.length = 2 && abs.get? 1 == some ':' then abs ++ [BSL] else abs)

/-- Model of `ShowFolder` (main.cpp 1180-1290). An enumeration that yields nothing stands
for the invalid handle (a valid handle yields at least one entry). The title,
the busy animation, the message pump and the calls on the list-view control are
left out. -/
def ShowFolder (sort : (Row → Row → Bool) → List Row → List Row) (fs : FileSystem)
    (abs : WString) (st : ViewState) : ViewState :=
  let st := CancelMetaWorkAndClearTodo st
  let abs := ShowFolder.abs abs
  let st := { st with g_view := ViewKind.Folder, g_folder := abs, g_rows := [] }
  let es := fs.FindFiles (c_str (abs ++ ['*']))
  if es.isEmpty then st
  else
    let df := ShowFolder.loop fs.GetVideoPropsFastCached abs es ([], [])
    let st := { st with g_rows := st.g_rows ++ df.1 ++ df.2 }
    let st := SortRows sort st.g_sortCol st.g_sortAsc st
    QueueMissingPropsAndKickWorker st

/-- Model of `ShowSearchResults` (main.cpp 1395-1413). The title and the calls on the
list-view control are left out. -/
def ShowSearchResults (sort : (Row → Row → Bool) → List Row → List Row)
    (results : List Row) (st : ViewState) : ViewState :=
  let st := CancelMetaWorkAndClearTodo st
  let st := { st with g_view := ViewKind.Search, g_rows := results }
  let st := SortRows sort st.g_sortCol st.g_sortAsc st
  QueueMissingPropsAndKickWorker st

/-! ## Metadata worker -/

/-- What the worker threads and the window procedure share: the queue, the
live generation, and the `WM_APP_META` messages posted so far. -/
structure MetaWork where
  g_metaTodoPaths : List WString := []
  g_metaGen : Nat := 0
  posted : List MetaResult := []
deriving DecidableEq, Repr

/-- One iteration of the `for (;;)` loop of `MetaThreadProc` (main.cpp
1078-1094) for a worker that captured `myGen`: whether the loop goes on, and
the shared state afterwards. `GetVideoProps` yields width, height and
duration. -/
def MetaThreadProc.step (GetVideoProps : WString → Int × Int × Nat) (myGen : Nat)
    (s : MetaWork) : Bool × MetaWork :=
  let path : WString :=
    if !s.g_metaTodoPaths.isEmpty then s.g_metaTodoPaths.getLast?.getD [] else []
  let s1 : MetaWork :=
    if !s.g_metaTodoPaths.isEmpty then { s with g_metaTodoPaths := s.g_metaTodoPaths.dropLast }
    else s
  if path.isEmpty then (false, s1)
  else if myGen != s1.g_metaGen then (false, s1)
  else
    let p := GetVideoProps path
    (true, { s1 with posted := s1.posted ++ [⟨path, p.1, p.2.1, p.2.2, myGen⟩] })

/-- The loop of `MetaThreadProc` (main.cpp 1074-1098) for a worker that captured
`myGen`, run alone; the first argument bounds the iterations. -/
def MetaThreadProc.loop (GetVideoProps : WString → Int × Int × Nat) (myGen : Nat) :
    Nat → MetaWork → MetaWork
  | 0, s => s
  | n + 1, s =>
    match MetaThreadProc.step GetVideoProps myGen s with
    | (true, s1) => MetaThreadProc.loop GetVideoProps myGen n s1
    | (false, s1) => s1

/-- Model of `MetaThreadProc` run alone from state `s`: every iteration that goes on pops
one path, so `length + 1` iterations are enough. -/
def MetaThreadProc (GetVideoProps : WString → Int × Int × Nat) (s : MetaWork) : MetaWork :=
  MetaThreadProc.loop GetVideoProps s.g_metaGen (s.g_metaTodoPaths.length + 1) s

/-! ## Delete -/

/-- The body of the loop of `Browser_DeleteSelected` for one path (main.cpp
2012-2029): whether it sets `anyFailed`, and the calls it makes. -/
def Browser_DeleteSelected.item (env : Env) (path : WString) (hist : List Call) :
    Bool × List Call :=
  let c0 := [Call.GetFileAttributesW (c_str path)]
  match env.GetFileAttributesW hist (c_str path) with
  | none => (false, c0)
  | some attrs =>
    if attrs &&& FILE_ATTRIBUTE_DIRECTORY != 0 then
      let d := DeleteDirectoryTree env path (hist ++ c0)
      (!d.1, c0 ++ d.2)
    else
      let c1 := c0 ++ ClearReadonlyAndSystem env path (hist ++ c0)
      if !env.DeleteFileW (hist ++ c1) (c_str path) then
        (true, c1 ++ [Call.DeleteFileW (c_str path),
          Call.MoveFileExW (c_str path) none MOVEFILE_DELAY_UNTIL_REBOOT])
      else (false, c1 ++ [Call.DeleteFileW (c_str path)])

/-- The loop `for (const auto& path : toDelete)` of `Browser_DeleteSelected`:
`anyFailed` and the calls made. -/
def Browser_DeleteSelected.loop (env : Env) :
    List WString → List Call → Bool → Bool × List Call
  | [], _, anyFailed => (anyFailed, [])
  | path :: rest, hist, anyFailed =>
    let r := Browser_DeleteSelected.item env path hist
    let r2 := Browser_DeleteSelected.loop env rest (hist ++ r.2) (anyFailed || r.1)
    (r2.1, r.2 ++ r2.2)

/-- Model of `Browser_DeleteSelected` (main.cpp 1987-2050) up to the refresh of the view:
`anyFailed` and the calls made. `confirm` is whether the message box is
answered with Yes, `sel` are the indices of the selected list-view items. -/
def Browser_DeleteSelected (env : Env) (g_view : ViewKind) (confirm : Bool)
    (g_rows : List Row) (sel : List Nat) (hist : List Call) : Bool × List Call :=
  if g_view = ViewKind.Drives then (false, [])
  else if !confirm then (false, [])
  else
    let toDelete := sel.filterMap (fun idx => (g_rows.get? idx).map (fun r => r.full))
    if toDelete.isEmpty then (false, [])
    else Browser_DeleteSelected.loop env toDelete hist false

/-! ## Notions used to state the properties of the sort and of the guard -/

/-- The sequence of code units that `_wcsicmp` compares: the lower-cased
characters as numbers. -/
def wkey (s : WString) : List Nat := s.map (fun c => (towlower c).toNat)

/-- One level of a lexicographic comparison: rows with different keys are ordered
by the key, upwards or downwards, rows with equal keys by `next`. -/
def lexStep {κ : Type} [LinearOrder κ] (k : Row → κ) (up : Bool) (next : Row → Row → Bool)
    (a b : Row) : Bool :=
  if k a = k b then next a b
  else if up then decide (k a < k b) else decide (k b < k a)

/-- The path under which `DeleteDirectoryTree` deletes a located entry: an
ordinary directory is removed under its path without trailing slashes, a file or
a link under its path. -/
def deletePath (x : WString × Entry) : WString :=
  if x.2.fd.isDir && !x.2.fd.isReparse then DeleteDirectoryTree.strip x.1.length x.1 else x.1

/-- The delete call that `DeleteDirectoryTree` makes for a located entry. -/
def deleteCall (x : WString × Entry) : Call :=
  if x.2.fd.isDir then Call.RemoveDirectoryW (c_str (deletePath x))
  else Call.DeleteFileW (c_str (deletePath x))

/-- What the environment answers to that call after the calls `h`. -/
def Env.deleteOf (env : Env) (h : List Call) (x : WString × Entry) : Bool :=
  if x.2.fd.isDir then env.RemoveDirectoryW h (c_str (deletePath x))
  else env.DeleteFileW h (c_str (deletePath x))

/-- Case-insensitive prefix: the lower-cased `p` starts the lower-cased `c`. -/
def ciBegins (p c : WString) : Prop := ToLower p <+: ToLower c

/-! ## Examples for sorting, views, the worker and delete -/

/-- A sorting algorithm to run the examples with: insertion sort. -/
def exSort (comp : Row → Row → Bool) (l : List Row) : List Row :=
  l.insertionSort (fun a b => comp b a = false)

/-- A listing: a video with unknown media fields, a directory, a text file, and
a video whose media fields carry negative and zero values. -/
def exListing : List Row :=
  [{ name := "b.mp4".toList, full := "C:\\v\\b.mp4".toList, size := 7 },
   { name := "Sub".toList, full := "C:\\v\\Sub".toList, isDir := true },
   { name := "a.txt".toList, full := "C:\\v\\a.txt".toList, size := 3 },
   { name := "A.MKV".toList, full := "C:\\v\\A.MKV".toList, size := 9, vW := -2, vH := 0,
     vDur100ns := 5 }]

/-- A view state showing `exListing`, with generation `4294967295` and a stale
queue. -/
def exViewState : ViewState :=
  { g_view := ViewKind.Folder, g_folder := "C:\\old\\".toList, g_rows := exListing,
    g_sortCol := 4, g_sortAsc := false, g_metaGen := 4294967295,
    g_metaTodoPaths := ["C:\\old\\x.mp4".toList] }

/-- The worker state right after a scope change to generation 5 has queued two
videos. -/
def exMetaWork : MetaWork :=
  { g_metaTodoPaths := ["C:\\v\\a.mp4".toList, "C:\\v\\b.mp4".toList], g_metaGen := 5 }

/-- A `GetVideoProps` that reports 640x480 and duration 10 for every path. -/
def exGetVideoProps : WString → Int × Int × Nat := fun _ => (640, 480, 10)

/-- The same as `exEnv`, with a junction `C:\s\j` (a reparse-point directory)
whose target holds `y.bin`. -/
def exEnvJunction : Env :=
  { exEnv with
    GetFileAttributesW := fun _ p =>
      if p = "C:\\s\\j".toList then some 0x410
      else if p = "C:\\s\\j\\y.bin".toList then some 0x20
      else none,
    FindFiles := fun _ pat =>
      if pat = "C:\\s\\j\\*".toList then [.mk ⟨"y.bin".toList, 0x20, ⟨1, 1⟩, 0, 5⟩ []]
      else [] }

/-- The same as `exEnv`, but `C:\s\b.txt` and `C:\s\d\x.bin` cannot be deleted,
and `C:\s\d`, which keeps `x.bin`, cannot be removed. -/
def exEnvLocked : Env :=
  { exEnv with
    DeleteFileW := fun _ p => p != "C:\\s\\b.txt".toList && p != "C:\\s\\d\\x.bin".toList,
    RemoveDirectoryW := fun _ p => p != "C:\\s\\d".toList }

/-- Rows of a folder view of `C:\s\`: the read-only file `b.txt`, the directory
`d` and the junction `j`. -/
def exDeleteRows : List Row :=
  [{ name := "b.txt".toList, full := "C:\\s\\b.txt".toList },
   { name := "d".toList, full := "C:\\s\\d".toList, isDir := true },
   { name := "j".toList, full := "C:\\s\\j".toList, isDir := true }]

/-- The same as `exEnv`, and the directory `C:\s\d` is found by `PathFileExistsW`. -/
def exEnvTaken : Env := { exEnv with PathFileExistsW := fun _ p => p == "C:\\s\\d".toList }

/-- The 10000 names `d`, `d (1)`, ..., `d (9999)` in `C:\s`. -/
def exCrowdedList : List WString :=
  "C:\\s\\d".toList ::
    (List.range 9999).map (fun k => "C:\\s\\d".toList ++ (" (" ++ Nat.repr (k + 1) ++ ")").toList)

/-- The same as `exEnv`, with a folder `C:\s` in which exactly the names of
`exCrowdedList` exist. -/
def exEnvCrowded : Env :=
  { exEnv with PathFileExistsW := fun _ p => decide (p ∈ exCrowdedList) }

/-! ## Theorems -/

theorem c_str_prefix_append (a b : WString) : c_str a <+: c_str (a ++ b) := by
  induction a with
  | nil => simp [c_str]
  | cons x xs ih =>
    by_cases hx : x = NUL
    · simp [c_str, hx]
    · have : (x != NUL) = true := by simpa using hx
      simp only [c_str, List.cons_append, List.takeWhile_cons, this, if_true] at ih ⊢
      exact (List.prefix_cons_inj x).2 ih

theorem c_str_eq_self {s : WString} (h : NUL ∉ s) : c_str s = s := by
  unfold c_str
  rw [List.takeWhile_eq_self_iff]
  intro c hc
  have : c ≠ NUL := fun e => h (e ▸ hc)
  simpa using this

theorem swprintf_paren_eq (i : Nat) :
    swprintf_paren i = (" (" ++ Nat.repr i ++ ")").toList := by
  simp [swprintf_paren, Nat.repr, String.toList, String.data_append, List.asString]

theorem UniqueName.loop_all_exist (fs : WString → Bool) (f base ext target : WString) :
    ∀ (n i : Nat),
      (∀ j, i ≤ j → j < i + n →
        PathFileExistsW fs (f ++ base ++ swprintf_paren j ++ ext) = true) →
      UniqueName.loop fs f base ext target n i = target := by
  intro n
  induction n with
  | zero => intro i _; rfl
  | succ n ih =>
    intro i h
    have h0 := h i (Nat.le_refl i) (by omega)
    simp only [UniqueName.loop, h0, Bool.not_true, Bool.false_eq_true, if_false]
    exact ih (i + 1) (fun j hj1 hj2 => h j (by omega) (by omega))

theorem UniqueName.loop_first_free (fs : WString → Bool) (f base ext target : WString) :
    ∀ (n i k : Nat), k < n →
      PathFileExistsW fs (f ++ base ++ swprintf_paren (i + k) ++ ext) = false →
      (∀ j, i ≤ j → j < i + k →
        PathFileExistsW fs (f ++ base ++ swprintf_paren j ++ ext) = true) →
      UniqueName.loop fs f base ext target n i = f ++ base ++ swprintf_paren (i + k) ++ ext := by
  intro n
  induction n with
  | zero => intro i k hk; omega
  | succ n ih =>
    intro i k hk hfree hbusy
    cases k with
    | zero =>
      simp only [Nat.add_zero] at hfree ⊢
      simp only [UniqueName.loop, hfree, Bool.not_false, if_true]
    | succ k =>
      have h0 := hbusy i (Nat.le_refl i) (by omega)
      simp only [UniqueName.loop, h0, Bool.not_true, Bool.false_eq_true, if_false]
      have := ih (i + 1) k (by omega) (by rw [show i + 1 + k = i + (k + 1) by omega]; exact hfree)
        (fun j hj1 hj2 => hbusy j (by omega) (by omega))
      rw [this, show i + 1 + k = i + (k + 1) by omega]

theorem UniqueName.loop_result (fs : WString → Bool) (f base ext target : WString) :
    ∀ (n i : Nat),
      UniqueName.loop fs f base ext target n i = target ∨
      ∃ j, i ≤ j ∧ j < i + n ∧
        UniqueName.loop fs f base ext target n i = f ++ base ++ swprintf_paren j ++ ext ∧
        PathFileExistsW fs (f ++ base ++ swprintf_paren j ++ ext) = false := by
  intro n
  induction n with
  | zero => intro i; exact Or.inl rfl
  | succ n ih =>
    intro i
    by_cases h0 : PathFileExistsW fs (f ++ base ++ swprintf_paren i ++ ext) = true
    · simp only [UniqueName.loop, h0, Bool.not_true, Bool.false_eq_true, if_false]
      rcases ih (i + 1) with h | ⟨j, h1, h2, h3, h4⟩
      · exact Or.inl h
      · exact Or.inr ⟨j, by omega, by omega, h3, h4⟩
    · have h0 : PathFileExistsW fs (f ++ base ++ swprintf_paren i ++ ext) = false := by
        simpa using h0
      exact Or.inr ⟨i, Nat.le_refl i, by omega, by simp only [UniqueName.loop, h0, Bool.not_false, if_true], h0⟩

theorem digitChar_ne_NUL : ∀ d : Nat, d < 10 → Nat.digitChar d ≠ NUL := by
  decide

theorem toDigitsCore_no_NUL : ∀ (fuel n : Nat) (acc : List Char), NUL ∉ acc →
    NUL ∉ Nat.toDigitsCore 10 fuel n acc := by
  intro fuel
  induction fuel with
  | zero => intro n acc h; simpa [Nat.toDigitsCore] using h
  | succ fuel ih =>
    intro n acc h
    unfold Nat.toDigitsCore
    dsimp only
    have h2 : NUL ∉ Nat.digitChar (n % 10) :: acc := by
      intro hm
      rcases List.mem_cons.1 hm with e | e
      · exact digitChar_ne_NUL _ (Nat.mod_lt n (by decide)) e.symm
      · exact h e
    split
    · exact h2
    · exact ih _ _ h2

theorem swprintf_paren_no_NUL (i : Nat) : NUL ∉ swprintf_paren i := by
  have h := toDigitsCore_no_NUL (i + 1) i [] (by simp)
  intro hm
  unfold swprintf_paren at hm
  rcases List.mem_append.1 hm with hm | hm
  · rcases List.mem_append.1 hm with hm | hm
    · exact absurd hm (by decide)
    · exact h hm
  · exact absurd hm (by decide)

theorem UniqueName_of_free (fs : WString → Bool) (folder base ext : WString)
    (h : PathFileExistsW fs (EnsureSlash folder ++ base ++ ext) = false) :
    UniqueName fs folder base ext = EnsureSlash folder ++ base ++ ext := by
  simp only [UniqueName, h, Bool.not_false, if_true]

theorem UniqueName_of_conflict (fs : WString → Bool) (folder base ext : WString)
    (i : Nat) (h1 : 1 ≤ i) (h2 : i ≤ 9999)
    (ht : PathFileExistsW fs (EnsureSlash folder ++ base ++ ext) = true)
    (hfree : PathFileExistsW fs
      (EnsureSlash folder ++ base ++ (" (" ++ Nat.repr i ++ ")").toList ++ ext) = false)
    (hbusy : ∀ j : Nat, 1 ≤ j → j < i → PathFileExistsW fs
      (EnsureSlash folder ++ base ++ (" (" ++ Nat.repr j ++ ")").toList ++ ext) = true) :
    UniqueName fs folder base ext =
      EnsureSlash folder ++ base ++ (" (" ++ Nat.repr i ++ ")").toList ++ ext := by
  simp only [UniqueName, ht, Bool.not_true, Bool.false_eq_true, if_false]
  have := UniqueName.loop_first_free fs (EnsureSlash folder) base ext
    (EnsureSlash folder ++ base ++ ext) 9999 1 (i - 1) (by omega)
    (by rw [show 1 + (i - 1) = i by omega, swprintf_paren_eq]; exact hfree)
    (fun j hj1 hj2 => by rw [swprintf_paren_eq]; exact hbusy j hj1 (by omega))
  rw [this, show 1 + (i - 1) = i by omega, swprintf_paren_eq]

/-- C1: for every destination state, `UniqueName` returns `folder\base+ext` when that
path does not exist; when it exists and some `i` in 1..9999 has
`folder\base (i)ext` not existing, it returns that candidate for the smallest
such `i` (the first free name wins). -/
theorem UniqueName_first_free_wins (fs : WString → Bool) (folder base ext : WString) :
    (PathFileExistsW fs (EnsureSlash folder ++ base ++ ext) = false →
      UniqueName fs folder base ext = EnsureSlash folder ++ base ++ ext) ∧
    (∀ i : Nat, 1 ≤ i → i ≤ 9999 →
      PathFileExistsW fs (EnsureSlash folder ++ base ++ ext) = true →
      PathFileExistsW fs
        (EnsureSlash folder ++ base ++ (" (" ++ Nat.repr i ++ ")").toList ++ ext) = false →
      (∀ j : Nat, 1 ≤ j → j < i → PathFileExistsW fs
        (EnsureSlash folder ++ base ++ (" (" ++ Nat.repr j ++ ")").toList ++ ext) = true) →
      UniqueName fs folder base ext =
        EnsureSlash folder ++ base ++ (" (" ++ Nat.repr i ++ ")").toList ++ ext) :=
  ⟨UniqueName_of_free fs folder base ext, UniqueName_of_conflict fs folder base ext⟩

theorem UniqueName_first_free_wins_witness :
    UniqueName destA "D:\\x".toList "b".toList ".txt".toList = "D:\\x\\b.txt".toList ∧
    UniqueName destA "D:\\x".toList "a".toList ".txt".toList = "D:\\x\\a (2).txt".toList :=
  ⟨(UniqueName_first_free_wins destA "D:\\x".toList "b".toList ".txt".toList).1 (by decide),
   (UniqueName_first_free_wins destA "D:\\x".toList "a".toList ".txt".toList).2 2
     (by decide) (by decide) (by decide) (by decide)
     (fun j h1 h2 => by
        have hj : j = 1 := by omega
        subst hj
        decide)⟩

theorem destFull_candidate (j : Nat) (h1 : 1 ≤ j) (h2 : j ≤ 9999) :
    PathFileExistsW destFull
      ("D:\\x\\".toList ++ "a".toList ++ swprintf_paren j ++ ".txt".toList) = true := by
  unfold PathFileExistsW
  rw [c_str_eq_self]
  · simp only [destFull, decide_eq_true_eq, destFullList]
    apply List.mem_cons_of_mem
    rw [List.mem_map]
    refine ⟨j - 1, List.mem_range.2 (by omega), ?_⟩
    rw [show j - 1 + 1 = j by omega, ← swprintf_paren_eq]
    rfl
  · intro hm
    rcases List.mem_append.1 hm with hm | hm
    · rcases List.mem_append.1 hm with hm | hm
      · exact absurd hm (by decide)
      · exact swprintf_paren_no_NUL j hm
    · exact absurd hm (by decide)

theorem destFull_target :
    PathFileExistsW destFull ("D:\\x\\".toList ++ "a".toList ++ ".txt".toList) = true := by
  unfold PathFileExistsW
  rw [c_str_eq_self (by decide)]
  simp only [destFull, decide_eq_true_eq, destFullList]
  exact List.mem_cons_self _ _

/-- C2, counterexample: in a destination that already holds `a.txt` and
`a (1).txt` ... `a (9999).txt`, the path returned by `UniqueName` for `a`, `.txt`
names an existing entry. -/
theorem UniqueName_exhausted_names_existing :
    PathFileExistsW destFull
      (UniqueName destFull "D:\\x".toList "a".toList ".txt".toList) = true := by
  have hf : EnsureSlash "D:\\x".toList = "D:\\x\\".toList := by decide
  have hloop := UniqueName.loop_all_exist destFull "D:\\x\\".toList "a".toList ".txt".toList
    ("D:\\x\\".toList ++ "a".toList ++ ".txt".toList) 9999 1
    (fun j hj1 hj2 => destFull_candidate j hj1 (by omega))
  simp only [UniqueName, hf, destFull_target, Bool.not_true, Bool.false_eq_true, if_false, hloop]

/-- C2, amended: the path returned by `UniqueName` names no existing entry exactly
when `folder\base+ext` or one of the candidates `(1)` ... `(9999)` is free; when
all 10000 probed names exist the plain name is returned although it exists. -/
theorem UniqueName_conflict_free_iff (fs : WString → Bool) (folder base ext : WString) :
    PathFileExistsW fs (UniqueName fs folder base ext) = false ↔
      (PathFileExistsW fs (EnsureSlash folder ++ base ++ ext) = false ∨
        ∃ i : Nat, 1 ≤ i ∧ i ≤ 9999 ∧ PathFileExistsW fs
          (EnsureSlash folder ++ base ++ (" (" ++ Nat.repr i ++ ")").toList ++ ext) = false) := by
  by_cases ht : PathFileExistsW fs (EnsureSlash folder ++ base ++ ext) = false
  · simp only [UniqueName, ht, Bool.not_false, if_true, true_or]
  · have ht : PathFileExistsW fs (EnsureSlash folder ++ base ++ ext) = true := by
      simpa using ht
    have hU : UniqueName fs folder base ext =
        UniqueName.loop fs (EnsureSlash folder) base ext
          (EnsureSlash folder ++ base ++ ext) 9999 1 := by
      simp only [UniqueName, ht, Bool.not_true, Bool.false_eq_true, if_false]
    constructor
    · intro h
      rcases UniqueName.loop_result fs (EnsureSlash folder) base ext
          (EnsureSlash folder ++ base ++ ext) 9999 1 with e | ⟨j, h1, h2, _, h4⟩
      · rw [hU, e, ht] at h
        exact absurd h (by decide)
      · exact Or.inr ⟨j, h1, by omega, by rw [← swprintf_paren_eq]; exact h4⟩
    · intro h
      have hex : ∃ i : Nat, 1 ≤ i ∧ i ≤ 9999 ∧ PathFileExistsW fs
          (EnsureSlash folder ++ base ++ swprintf_paren i ++ ext) = false := by
        rcases h with h | ⟨i, h1, h2, h3⟩
        · rw [ht] at h
          exact absurd h (by decide)
        · exact ⟨i, h1, h2, by rw [swprintf_paren_eq]; exact h3⟩
      obtain ⟨hm1, hm2, hm3⟩ := Nat.find_spec hex
      have hmin : ∀ j, 1 ≤ j → j < 1 + (Nat.find hex - 1) → PathFileExistsW fs
          (EnsureSlash folder ++ base ++ swprintf_paren j ++ ext) = true := by
        intro j hj1 hj2
        have hnot := Nat.find_min hex (show j < Nat.find hex by omega)
        by_contra hc
        exact hnot ⟨hj1, by omega, by simpa using hc⟩
      have := UniqueName.loop_first_free fs (EnsureSlash folder) base ext
        (EnsureSlash folder ++ base ++ ext) 9999 1 (Nat.find hex - 1) (by omega)
        (by rw [show 1 + (Nat.find hex - 1) = Nat.find hex by omega]; exact hm3) hmin
      rw [hU, this, show 1 + (Nat.find hex - 1) = Nat.find hex by omega]
      exact hm3

theorem UniqueName_conflict_free_iff_witness :
    PathFileExistsW destA (UniqueName destA "D:\\x".toList "a".toList ".txt".toList) = false :=
  (UniqueName_conflict_free_iff destA "D:\\x".toList "a".toList ".txt".toList).2
    (Or.inr ⟨2, by decide, by decide, by decide⟩)

/-- C3: two calls of `UniqueName` with the same arguments return the same path
when the destination is unmodified between them, that is, when the two
filesystem states agree on every path below the destination folder. -/
theorem UniqueName_same_on_unmodified_destination (fs fs2 : WString → Bool)
    (folder base ext : WString)
    (h : ∀ p : WString, c_str (EnsureSlash folder) <+: p → fs p = fs2 p) :
    UniqueName fs folder base ext = UniqueName fs2 folder base ext := by
  have hP : ∀ rest : WString, PathFileExistsW fs (EnsureSlash folder ++ rest) =
      PathFileExistsW fs2 (EnsureSlash folder ++ rest) := by
    intro rest
    exact h _ (c_str_prefix_append _ _)
  have hloop : ∀ n i : Nat,
      UniqueName.loop fs (EnsureSlash folder) base ext (EnsureSlash folder ++ base ++ ext) n i =
      UniqueName.loop fs2 (EnsureSlash folder) base ext (EnsureSlash folder ++ base ++ ext) n i := by
    intro n
    induction n with
    | zero => intro i; rfl
    | succ n ih =>
      intro i
      have e := hP (base ++ swprintf_paren i ++ ext)
      simp only [← List.append_assoc] at e
      simp only [UniqueName.loop, e, ih (i + 1)]
  have e := hP (base ++ ext)
  simp only [← List.append_assoc] at e
  simp only [UniqueName, e, hloop]

theorem UniqueName_same_on_unmodified_destination_witness :
    UniqueName destA "D:\\x".toList "a".toList ".txt".toList =
      UniqueName destA2 "D:\\x".toList "a".toList ".txt".toList :=
  UniqueName_same_on_unmodified_destination destA destA2
    "D:\\x".toList "a".toList ".txt".toList
    (fun p hp => by
      have hne : (p == "E:\\y\\a (2).txt".toList) = false := by
        apply beq_false_of_ne
        rintro rfl
        exact absurd hp (by decide)
      simp only [destA2, hne, Bool.or_false])

/-! ### Last occurrence and extension scans -/

theorem find_last_of.go_none (ch : Char) :
    ∀ (s : WString) (i : Nat) (last : Option Nat),
      find_last_of.go ch s i last = none → last = none ∧ ch ∉ s := by
  intro s
  induction s with
  | nil => intro i last h; exact ⟨h, by simp⟩
  | cons c cs ih =>
    intro i last h
    simp only [find_last_of.go] at h
    obtain ⟨h1, h2⟩ := ih _ _ h
    by_cases hc : c = ch
    · simp [hc] at h1
    · have : (c == ch) = false := by simpa using hc
      simp only [this, Bool.false_eq_true, if_false] at h1
      exact ⟨h1, by simp [h2, Ne.symm hc]⟩

theorem find_last_of.go_some (ch : Char) :
    ∀ (s : WString) (i : Nat) (last : Option Nat) (k : Nat),
      find_last_of.go ch s i last = some k →
      (last = some k ∧ ch ∉ s) ∨
      (i ≤ k ∧ ∃ a b, s = a ++ ch :: b ∧ a.length = k - i ∧ ch ∉ b) := by
  intro s
  induction s with
  | nil => intro i last k h; exact Or.inl ⟨h, by simp⟩
  | cons c cs ih =>
    intro i last k h
    simp only [find_last_of.go] at h
    rcases ih _ _ _ h with ⟨h1, h2⟩ | ⟨h1, a, b, h2, h3, h4⟩
    · by_cases hc : c = ch
      · have hb : (c == ch) = true := by simpa using hc
        simp only [hb, if_true, Option.some.injEq] at h1
        exact Or.inr ⟨by omega, [], cs, by simp [hc], by simp; omega, h2⟩
      · have hb : (c == ch) = false := by simpa using hc
        simp only [hb, Bool.false_eq_true, if_false] at h1
        exact Or.inl ⟨h1, by simp [h2, Ne.symm hc]⟩
    · exact Or.inr ⟨by omega, c :: a, b, by simp [h2], by simp [h3]; omega, h4⟩

theorem find_last_of_none {s : WString} {ch : Char} (h : find_last_of s ch = none) :
    ch ∉ s :=
  (find_last_of.go_none ch s 0 none h).2

theorem find_last_of_some {s : WString} {ch : Char} {k : Nat}
    (h : find_last_of s ch = some k) :
    ∃ a b, s = a ++ ch :: b ∧ a.length = k ∧ ch ∉ b := by
  rcases find_last_of.go_some ch s 0 none k h with ⟨h1, _⟩ | ⟨_, a, b, h2, h3, h4⟩
  · exact absurd h1 (by simp)
  · exact ⟨a, b, h2, by simpa using h3, h4⟩

theorem split_at_last_unique {a b a2 b2 : WString} {ch : Char}
    (h : a ++ ch :: b = a2 ++ ch :: b2) (hb : ch ∉ b) (hb2 : ch ∉ b2) : a = a2 ∧ b = b2 := by
  rcases List.append_eq_append_iff.1 h with ⟨x, h1, h2⟩ | ⟨x, h1, h2⟩
  · cases x with
    | nil => simp at h1 h2; exact ⟨h1.symm, h2⟩
    | cons y ys =>
      simp only [List.cons_append, List.cons.injEq] at h2
      exact absurd (by rw [h2.2]; simp) hb
  · cases x with
    | nil => simp at h1 h2; exact ⟨h1, h2.symm⟩
    | cons y ys =>
      simp only [List.cons_append, List.cons.injEq] at h2
      exact absurd (by rw [h2.2]; simp) hb2

theorem find_last_of_of_split {a b : WString} {ch : Char} (hb : ch ∉ b) :
    find_last_of (a ++ ch :: b) ch = some a.length := by
  cases h : find_last_of (a ++ ch :: b) ch with
  | none => exact absurd (find_last_of_none h) (by simp)
  | some k =>
    obtain ⟨a2, b2, h2, h3, h4⟩ := find_last_of_some h
    rw [← h3, (split_at_last_unique h2 hb h4).1]

theorem find_last_of_drop {s : WString} {ch : Char} {k : Nat}
    (h : find_last_of s ch = some k) (m : Nat) (hm : k ≤ m) : ch ∉ s.drop (m + 1) := by
  obtain ⟨a, b, h1, h2, h3⟩ := find_last_of_some h
  have e : s.drop (m + 1) = b.drop (m - k) := by
    rw [h1, show m + 1 = a.length + (m - k + 1) by omega, ← List.drop_drop]
    simp
  rw [e]
  exact fun hmem => h3 (List.mem_of_mem_drop hmem)

theorem c_str_no_NUL (s : WString) : NUL ∉ c_str s := by
  intro h
  have := List.mem_takeWhile_imp h
  simp at this

theorem c_str_idem (s : WString) : c_str (c_str s) = c_str s :=
  c_str_eq_self (c_str_no_NUL s)

theorem baseName_eq_drop (src : WString) :
    ∃ n, RunClipboardOperationWithUI.baseName src = (c_str src).drop n ∧
      BSL ∉ (c_str src).drop n ∧ FSL ∉ (c_str src).drop n := by
  unfold RunClipboardOperationWithUI.baseName wcsrchr
  cases h1 : find_last_of (c_str src) BSL with
  | none =>
    cases h2 : find_last_of (c_str src) FSL with
    | none =>
      exact ⟨0, by simp, by simpa using find_last_of_none h1,
        by simpa using find_last_of_none h2⟩
    | some b2 =>
      exact ⟨b2 + 1, rfl, fun hm => find_last_of_none h1 (List.mem_of_mem_drop hm),
        find_last_of_drop h2 b2 (Nat.le_refl _)⟩
  | some b =>
    cases h2 : find_last_of (c_str src) FSL with
    | none =>
      exact ⟨b + 1, rfl, find_last_of_drop h1 b (Nat.le_refl _),
        fun hm => find_last_of_none h2 (List.mem_of_mem_drop hm)⟩
    | some b2 =>
      by_cases hgt : b2 > b
      · refine ⟨b2 + 1, by simp [hgt], find_last_of_drop h1 b2 (by omega),
          find_last_of_drop h2 b2 (Nat.le_refl _)⟩
      · refine ⟨b + 1, by simp [hgt], find_last_of_drop h1 b (Nat.le_refl _),
          find_last_of_drop h2 b (by omega)⟩

theorem baseName_no_NUL (src : WString) : NUL ∉ RunClipboardOperationWithUI.baseName src := by
  obtain ⟨n, h, _, _⟩ := baseName_eq_drop src
  rw [h]
  exact fun hm => c_str_no_NUL src (List.mem_of_mem_drop hm)

theorem baseName_no_BSL (src : WString) : BSL ∉ RunClipboardOperationWithUI.baseName src := by
  obtain ⟨n, h, h2, _⟩ := baseName_eq_drop src
  rw [h]
  exact h2

theorem PathFindExtensionW.go_append :
    ∀ (x y : WString) (i : Nat) (last : Option Nat),
      PathFindExtensionW.go (x ++ y) i last =
        PathFindExtensionW.go y (i + x.length) (PathFindExtensionW.go x i last) := by
  intro x
  induction x with
  | nil => intro y i last; simp [PathFindExtensionW.go]
  | cons c cs ih =>
    intro y i last
    have := ih y (i + 1)
        (if (c == BSL || c == ' ') = true then none else if (c == '.') = true then some i else last)
    rw [show i + 1 + cs.length = i + (cs.length + 1) by omega] at this
    simpa only [List.cons_append, PathFindExtensionW.go, List.length_cons] using this

theorem PathFindExtensionW.go_keep :
    ∀ (e : WString) (i : Nat) (last : Option Nat),
      '.' ∉ e → ' ' ∉ e → BSL ∉ e → PathFindExtensionW.go e i last = last := by
  intro e
  induction e with
  | nil => intro i last _ _ _; rfl
  | cons c cs ih =>
    intro i last h1 h2 h3
    simp only [List.mem_cons, not_or] at h1 h2 h3
    have e1 : (c == BSL) = false := by simpa using Ne.symm h3.1
    have e2 : (c == ' ') = false := by simpa using Ne.symm h2.1
    have e3 : (c == '.') = false := by simpa using Ne.symm h1.1
    simp only [PathFindExtensionW.go, e1, e2, e3, Bool.or_self, Bool.false_eq_true, if_false]
    exact ih _ _ h1.2 h2.2 h3.2

theorem PathFindExtensionW.go_no_dot :
    ∀ (e : WString) (i : Nat), '.' ∉ e → PathFindExtensionW.go e i none = none := by
  intro e
  induction e with
  | nil => intro i _; rfl
  | cons c cs ih =>
    intro i h1
    simp only [List.mem_cons, not_or] at h1
    have e3 : (c == '.') = false := by simpa using Ne.symm h1.1
    simp only [PathFindExtensionW.go, e3, Bool.false_eq_true, if_false, ite_self]
    exact ih _ h1.2

theorem PathFindExtensionW.go_reset :
    ∀ (e : WString) (i : Nat) (last : Option Nat),
      '.' ∉ e → (' ' ∈ e ∨ BSL ∈ e) → PathFindExtensionW.go e i last = none := by
  intro e
  induction e with
  | nil => intro i last _ h; simp at h
  | cons c cs ih =>
    intro i last h1 h2
    simp only [List.mem_cons, not_or] at h1
    have e3 : (c == '.') = false := by simpa using Ne.symm h1.1
    by_cases hc : c = ' ' ∨ c = BSL
    · have : (c == BSL || c == ' ') = true := by
        rcases hc with hc | hc <;> simp [hc]
      simp only [PathFindExtensionW.go, this, if_true]
      exact PathFindExtensionW.go_no_dot _ _ h1.2
    · have h2 : ' ' ∈ cs ∨ BSL ∈ cs := by
        rcases h2 with h2 | h2
        · rcases List.mem_cons.1 h2 with h2 | h2
          · exact absurd (Or.inl h2.symm) hc
          · exact Or.inl h2
        · rcases List.mem_cons.1 h2 with h2 | h2
          · exact absurd (Or.inr h2.symm) hc
          · exact Or.inr h2
      exact ih _ _ h1.2 h2

theorem PathFindExtensionW_of_ext (a e : WString)
    (h1 : '.' ∉ e) (h2 : ' ' ∉ e) (h3 : BSL ∉ e) :
    PathFindExtensionW (a ++ '.' :: e) = a.length := by
  unfold PathFindExtensionW
  rw [PathFindExtensionW.go_append]
  have : PathFindExtensionW.go ('.' :: e) (0 + a.length) (PathFindExtensionW.go a 0 none) =
      some a.length := by
    have hd : (('.' : Char) == BSL || ('.' : Char) == ' ') = false := by decide
    simp only [PathFindExtensionW.go, hd, Bool.false_eq_true, if_false, beq_self_eq_true, if_true]
    rw [PathFindExtensionW.go_keep _ _ _ h1 h2 h3]
    simp
  rw [this]
  rfl

theorem PathFindExtensionW_of_no_ext (s : WString)
    (h : '.' ∉ s ∨ ∃ a e, s = a ++ '.' :: e ∧ '.' ∉ e ∧ (' ' ∈ e ∨ BSL ∈ e)) :
    PathFindExtensionW s = s.length := by
  unfold PathFindExtensionW
  rcases h with h | ⟨a, e, rfl, h1, h2⟩
  · rw [PathFindExtensionW.go_no_dot _ _ h]; rfl
  · rw [PathFindExtensionW.go_append]
    have hd : (('.' : Char) == BSL || ('.' : Char) == ' ') = false := by decide
    simp only [PathFindExtensionW.go, hd, Bool.false_eq_true, if_false, beq_self_eq_true, if_true]
    rw [PathFindExtensionW.go_reset _ _ _ h1 h2]
    rfl

theorem find_last_of_split_drop {s : WString} {ch : Char} {k : Nat}
    (h : find_last_of s ch = some k) :
    s = s.take k ++ ch :: s.drop (k + 1) := by
  obtain ⟨a, b, h1, h2, _⟩ := find_last_of_some h
  subst h2
  rw [h1]
  simp

theorem baseName_after_last_separator (src : WString) :
    ∃ pre, c_str src = pre ++ RunClipboardOperationWithUI.baseName src ∧
      (pre = [] ∨ pre.getLast? = some BSL ∨ pre.getLast? = some FSL) := by
  unfold RunClipboardOperationWithUI.baseName wcsrchr
  cases h1 : find_last_of (c_str src) BSL with
  | none =>
    cases h2 : find_last_of (c_str src) FSL with
    | none => exact ⟨[], by simp, Or.inl rfl⟩
    | some b2 =>
      refine ⟨(c_str src).take b2 ++ [FSL], ?_, Or.inr (Or.inr (by simp))⟩
      simpa using find_last_of_split_drop h2
  | some b =>
    cases h2 : find_last_of (c_str src) FSL with
    | none =>
      refine ⟨(c_str src).take b ++ [BSL], ?_, Or.inr (Or.inl (by simp))⟩
      simpa using find_last_of_split_drop h1
    | some b2 =>
      by_cases hgt : b2 > b
      · refine ⟨(c_str src).take b2 ++ [FSL], ?_, Or.inr (Or.inr (by simp))⟩
        simpa [hgt] using find_last_of_split_drop h2
      · refine ⟨(c_str src).take b ++ [BSL], ?_, Or.inr (Or.inl (by simp))⟩
        simpa [hgt] using find_last_of_split_drop h1

theorem baseName_no_FSL (src : WString) : FSL ∉ RunClipboardOperationWithUI.baseName src := by
  obtain ⟨n, h, _, h3⟩ := baseName_eq_drop src
  rw [h]
  exact h3

theorem splitName_dir (bn : WString) :
    RunClipboardOperationWithUI.splitName true bn = (bn, []) := by
  simp [RunClipboardOperationWithUI.splitName]

theorem splitName_file_ext (a e : WString) (h0 : NUL ∉ a ++ '.' :: e)
    (h1 : '.' ∉ e) (h2 : ' ' ∉ e) (h3 : BSL ∉ e) :
    RunClipboardOperationWithUI.splitName false (a ++ '.' :: e) = (a, '.' :: e) := by
  simp only [RunClipboardOperationWithUI.splitName, Bool.false_eq_true, if_false,
    c_str_eq_self h0, PathFindExtensionW_of_ext a e h1 h2 h3]
  simp

theorem splitName_file_no_ext (s : WString) (h0 : NUL ∉ s)
    (h : '.' ∉ s ∨ ∃ a e, s = a ++ '.' :: e ∧ '.' ∉ e ∧ (' ' ∈ e ∨ BSL ∈ e)) :
    RunClipboardOperationWithUI.splitName false s = (s, []) := by
  simp only [RunClipboardOperationWithUI.splitName, Bool.false_eq_true, if_false,
    c_str_eq_self h0, PathFindExtensionW_of_no_ext s h]
  simp

theorem splitName_append (isDir : Bool) (src : WString) :
    (RunClipboardOperationWithUI.splitName isDir (RunClipboardOperationWithUI.baseName src)).1 ++
      (RunClipboardOperationWithUI.splitName isDir (RunClipboardOperationWithUI.baseName src)).2 =
      RunClipboardOperationWithUI.baseName src := by
  unfold RunClipboardOperationWithUI.splitName
  rw [c_str_eq_self (baseName_no_NUL src)]
  cases isDir <;> simp
  split <;> simp

/-- C4: the destination of a pasted item is built from the source's base name (the
text after the last `\` or `/`). With no conflict it is the base name unchanged,
for files and directories. On a conflict resolved by the first free index `i`, a
directory gets ` (i)` appended after the whole name, a file whose name ends in an
extension `.e` gets ` (i)` inserted before that last extension, and a file
without extension gets it appended. -/
theorem dst_built_from_base_name (fs : WString → Bool) (dstFolder clipFile : WString) :
    (∃ pre, c_str (StripTrailingSlashes clipFile) =
        pre ++ RunClipboardOperationWithUI.baseName (StripTrailingSlashes clipFile) ∧
      (pre = [] ∨ pre.getLast? = some BSL ∨ pre.getLast? = some FSL) ∧
      BSL ∉ RunClipboardOperationWithUI.baseName (StripTrailingSlashes clipFile) ∧
      FSL ∉ RunClipboardOperationWithUI.baseName (StripTrailingSlashes clipFile)) ∧
    (∀ isDir : Bool,
      PathFileExistsW fs (EnsureSlash dstFolder ++
        RunClipboardOperationWithUI.baseName (StripTrailingSlashes clipFile)) = false →
      RunClipboardOperationWithUI.dst fs dstFolder clipFile isDir =
        EnsureSlash dstFolder ++
          RunClipboardOperationWithUI.baseName (StripTrailingSlashes clipFile)) ∧
    (∀ i : Nat, 1 ≤ i → i ≤ 9999 →
      PathFileExistsW fs (EnsureSlash dstFolder ++
        RunClipboardOperationWithUI.baseName (StripTrailingSlashes clipFile)) = true →
      PathFileExistsW fs (EnsureSlash dstFolder ++
        RunClipboardOperationWithUI.baseName (StripTrailingSlashes clipFile) ++
        (" (" ++ Nat.repr i ++ ")").toList) = false →
      (∀ j : Nat, 1 ≤ j → j < i → PathFileExistsW fs (EnsureSlash dstFolder ++
        RunClipboardOperationWithUI.baseName (StripTrailingSlashes clipFile) ++
        (" (" ++ Nat.repr j ++ ")").toList) = true) →
      RunClipboardOperationWithUI.dst fs dstFolder clipFile true =
        EnsureSlash dstFolder ++
          RunClipboardOperationWithUI.baseName (StripTrailingSlashes clipFile) ++
          (" (" ++ Nat.repr i ++ ")").toList) ∧
    (∀ (a e : WString) (i : Nat),
      RunClipboardOperationWithUI.baseName (StripTrailingSlashes clipFile) = a ++ '.' :: e →
      '.' ∉ e → ' ' ∉ e → 1 ≤ i → i ≤ 9999 →
      PathFileExistsW fs (EnsureSlash dstFolder ++ (a ++ '.' :: e)) = true →
      PathFileExistsW fs (EnsureSlash dstFolder ++ a ++
        (" (" ++ Nat.repr i ++ ")").toList ++ '.' :: e) = false →
      (∀ j : Nat, 1 ≤ j → j < i → PathFileExistsW fs (EnsureSlash dstFolder ++ a ++
        (" (" ++ Nat.repr j ++ ")").toList ++ '.' :: e) = true) →
      RunClipboardOperationWithUI.dst fs dstFolder clipFile false =
        EnsureSlash dstFolder ++ a ++ (" (" ++ Nat.repr i ++ ")").toList ++ '.' :: e) ∧
    (∀ i : Nat,
      ('.' ∉ RunClipboardOperationWithUI.baseName (StripTrailingSlashes clipFile) ∨
        ∃ a e, RunClipboardOperationWithUI.baseName (StripTrailingSlashes clipFile) =
          a ++ '.' :: e ∧ '.' ∉ e ∧ ' ' ∈ e) →
      1 ≤ i → i ≤ 9999 →
      PathFileExistsW fs (EnsureSlash dstFolder ++
        RunClipboardOperationWithUI.baseName (StripTrailingSlashes clipFile)) = true →
      PathFileExistsW fs (EnsureSlash dstFolder ++
        RunClipboardOperationWithUI.baseName (StripTrailingSlashes clipFile) ++
        (" (" ++ Nat.repr i ++ ")").toList) = false →
      (∀ j : Nat, 1 ≤ j → j < i → PathFileExistsW fs (EnsureSlash dstFolder ++
        RunClipboardOperationWithUI.baseName (StripTrailingSlashes clipFile) ++
        (" (" ++ Nat.repr j ++ ")").toList) = true) →
      RunClipboardOperationWithUI.dst fs dstFolder clipFile false =
        EnsureSlash dstFolder ++
          RunClipboardOperationWithUI.baseName (StripTrailingSlashes clipFile) ++
          (" (" ++ Nat.repr i ++ ")").toList) := by
  generalize hbn : RunClipboardOperationWithUI.baseName (StripTrailingSlashes clipFile) = bn
  have hNUL : NUL ∉ bn := hbn ▸ baseName_no_NUL _
  have hBSL : BSL ∉ bn := hbn ▸ baseName_no_BSL _
  have hFSL : FSL ∉ bn := hbn ▸ baseName_no_FSL _
  refine ⟨?_, ?_, ?_, ?_, ?_⟩
  · obtain ⟨pre, h1, h2⟩ := baseName_after_last_separator (StripTrailingSlashes clipFile)
    exact ⟨pre, hbn ▸ h1, h2, hBSL, hFSL⟩
  · intro isDir hfree
    have happ := splitName_append isDir (StripTrailingSlashes clipFile)
    rw [hbn] at happ
    simp only [RunClipboardOperationWithUI.dst, hbn]
    rw [UniqueName_of_free, List.append_assoc, happ]
    rw [List.append_assoc, happ]
    exact hfree
  · intro i h1 h2 ht hfree hbusy
    simp only [RunClipboardOperationWithUI.dst, hbn, splitName_dir]
    have := UniqueName_of_conflict fs dstFolder bn [] i h1 h2 (by simpa using ht)
      (by simpa using hfree) (fun j hj1 hj2 => by simpa using hbusy j hj1 hj2)
    simpa using this
  · intro a e i hsplit hd hs h1 h2 ht hfree hbusy
    subst hsplit
    have hBe : BSL ∉ e := fun hm => hBSL (by simp [hm])
    simp only [RunClipboardOperationWithUI.dst, hbn, splitName_file_ext a e hNUL hd hs hBe]
    exact UniqueName_of_conflict fs dstFolder a ('.' :: e) i h1 h2
      (by simpa using ht) hfree hbusy
  · intro i hno h1 h2 ht hfree hbusy
    have hno2 : '.' ∉ bn ∨ ∃ a e, bn = a ++ '.' :: e ∧ '.' ∉ e ∧ (' ' ∈ e ∨ BSL ∈ e) := by
      rcases hno with h | ⟨a, e, h3, h4, h5⟩
      · exact Or.inl h
      · exact Or.inr ⟨a, e, h3, h4, Or.inl h5⟩
    simp only [RunClipboardOperationWithUI.dst, hbn, splitName_file_no_ext bn hNUL hno2]
    have := UniqueName_of_conflict fs dstFolder bn [] i h1 h2 (by simpa using ht)
      (by simpa using hfree) (fun j hj1 hj2 => by simpa using hbusy j hj1 hj2)
    simpa using this

theorem Entry.list_induction {P : List Entry → Prop} (nil : P [])
    (cons : ∀ fd ch rest, P ch → P rest → P (Entry.mk fd ch :: rest)) : ∀ es, P es
  | [] => nil
  | .mk fd ch :: rest =>
    cons fd ch rest (Entry.list_induction nil cons ch) (Entry.list_induction nil cons rest)

theorem SearchRecurseFolder.loop_eq_walk (vp : WString → Int × Int × Nat)
    (terms : List WString) :
    ∀ (es : List Entry) (folder : WString) (out : SearchOut),
      SearchRecurseFolder.loop vp folder terms es out =
        { rows := out.rows ++ (walk folder es).filterMap (walkRow vp terms),
          enumerated := out.enumerated ++ (walk folder es).filterMap walkDir } := by
  intro es
  induction es using Entry.list_induction with
  | nil => intro folder out; simp [SearchRecurseFolder.loop, walk]
  | cons fd ch rest ihc ihr =>
    intro folder out
    rw [SearchRecurseFolder.loop, ihr, SearchRecurseFolder.body, walk, walkEntry]
    by_cases hdots : fd.isDots = true
    · have hd : (fd.cFileName = ['.'] || fd.cFileName = ['.', '.']) = true := hdots
      simp [hd, hdots]
    · have hdots : fd.isDots = false := by simpa using hdots
      have hd : (fd.cFileName = ['.'] || fd.cFileName = ['.', '.']) = false := hdots
      simp only [hd, hdots, Bool.false_eq_true, if_false]
      by_cases hdir : fd.isDir = true
      · have hdir2 : (fd.dwFileAttributes &&& FILE_ATTRIBUTE_DIRECTORY != 0) = true := hdir
        by_cases hrep : fd.isReparse = true
        · have hrep2 : (fd.dwFileAttributes &&& FILE_ATTRIBUTE_REPARSE_POINT != 0) = true := hrep
          simp [hdir2, hrep2, hdir, hrep, walkRow, walkDir, Entry.fd]
        · have hrep : fd.isReparse = false := by simpa using hrep
          have hrep2 : (fd.dwFileAttributes &&& FILE_ATTRIBUTE_REPARSE_POINT != 0) = false := hrep
          simp [hdir2, hrep2, hdir, hrep, walkRow, walkDir, Entry.fd, ihc]
      · have hdir : fd.isDir = false := by simpa using hdir
        have hdir2 : (fd.dwFileAttributes &&& FILE_ATTRIBUTE_DIRECTORY != 0) = false := hdir
        by_cases hv : IsVideoFile (EnsureSlash folder ++ fd.cFileName) = true
        · by_cases hn : NameContainsAllTerms (EnsureSlash folder ++ fd.cFileName) terms = true
          · simp [hdir2, hdir, walkRow, walkDir, Entry.fd, hv, hn]
          · have hn : NameContainsAllTerms (EnsureSlash folder ++ fd.cFileName) terms = false := by
              simpa using hn
            simp [hdir2, hdir, walkRow, walkDir, Entry.fd, hv, hn]
        · have hv : IsVideoFile (EnsureSlash folder ++ fd.cFileName) = false := by simpa using hv
          simp [hdir2, hdir, walkRow, walkDir, Entry.fd, hv]

/-! ### Located entries -/

theorem walk_cons (folder : WString) (e : Entry) (rest : List Entry) :
    walk folder (e :: rest) = walkEntry folder e ++ walk folder rest := by
  rw [walk]

theorem walkEntry_self (folder : WString) (e : Entry) (h : e.fd.isDots = false) :
    (EnsureSlash folder ++ e.fd.cFileName, e) ∈ walkEntry folder e := by
  cases e with
  | mk fd ch =>
    have h : fd.isDots = false := h
    simp [walkEntry, h, Entry.fd]

theorem walkEntry_children (folder : WString) (e : Entry) (h : e.fd.isDots = false)
    (hd : e.fd.isDir = true) (hr : e.fd.isReparse = false)
    (x : WString × Entry) (hx : x ∈ walk (EnsureSlash folder ++ e.fd.cFileName) e.children) :
    x ∈ walkEntry folder e := by
  cases e with
  | mk fd ch =>
    have h : fd.isDots = false := h
    have hd : fd.isDir = true := hd
    have hr : fd.isReparse = false := hr
    have hx : x ∈ walk (EnsureSlash folder ++ fd.cFileName) ch := hx
    simp [walkEntry, h, hd, hr, hx]

theorem walk_top (folder : WString) (e : Entry) (h : e.fd.isDots = false) :
    ∀ es : List Entry, e ∈ es → (EnsureSlash folder ++ e.fd.cFileName, e) ∈ walk folder es := by
  intro es
  induction es with
  | nil => intro hm; simp at hm
  | cons a rest ih =>
    intro hm
    rw [walk_cons]
    rcases List.mem_cons.1 hm with rfl | hm
    · exact List.mem_append_left _ (walkEntry_self folder e h)
    · exact List.mem_append_right _ (ih hm)

theorem walk_children (p : WString) (d : Entry) (hd : d.fd.isDir = true)
    (hr : d.fd.isReparse = false) (x : WString × Entry) (hx : x ∈ walk p d.children) :
    ∀ (es : List Entry) (folder : WString), (p, d) ∈ walk folder es → x ∈ walk folder es := by
  intro es
  induction es using Entry.list_induction with
  | nil => intro folder hm; simp [walk] at hm
  | cons fd ch rest ihc ihr =>
    intro folder hm
    rw [walk_cons] at hm ⊢
    rcases List.mem_append.1 hm with hm | hm
    · apply List.mem_append_left
      by_cases hdots : fd.isDots = true
      · simp [walkEntry, hdots] at hm
      · have hdots : fd.isDots = false := by simpa using hdots
        simp only [walkEntry, hdots, Bool.false_eq_true, if_false, List.mem_cons] at hm ⊢
        rcases hm with hm | hm
        · have e1 : p = EnsureSlash folder ++ fd.cFileName := (Prod.mk.inj hm).1
          have e2 : d = Entry.mk fd ch := (Prod.mk.inj hm).2
          subst e2
          have hd : fd.isDir = true := hd
          have hr : fd.isReparse = false := hr
          have hx : x ∈ walk p ch := hx
          right
          simpa [hd, hr, ← e1] using hx
        · right
          by_cases hc : (fd.isDir && !fd.isReparse) = true
          · simp only [hc, if_true] at hm ⊢
            exact ihc _ hm
          · simp [hc] at hm
    · exact List.mem_append_right _ (ihr folder hm)

theorem At.mono (folder : WString) (a : Entry) (rest : List Entry) {chain : List FindData}
    {p : WString} {e : Entry} (h : At folder rest chain p e) :
    At folder (a :: rest) chain p e := by
  induction h with
  | top e hm => exact At.top e (List.mem_cons_of_mem _ hm)
  | child chain p d e _ hm ih => exact At.child chain p d e ih hm

theorem At.lift (folder : WString) (es : List Entry) (d : Entry) (hd : d ∈ es)
    {chain : List FindData} {p : WString} {e : Entry}
    (h : At (EnsureSlash folder ++ d.fd.cFileName) d.children chain p e) :
    At folder es (d.fd :: chain) p e := by
  induction h with
  | top e hm => exact At.child [] _ d e (At.top d hd) hm
  | child chain p d2 e _ hm ih => exact At.child (d.fd :: chain) p d2 e ih hm

/-- Every entry listed by `walk` has a position in the tree whose chain consists
of directories that are neither reparse points nor `.`/`..`. -/
theorem walk_sound :
    ∀ (es : List Entry) (folder : WString) (x : WString × Entry), x ∈ walk folder es →
      ∃ chain, At folder es chain x.1 x.2 ∧ x.2.fd.isDots = false ∧
        ∀ a ∈ chain, a.isDir = true ∧ a.isReparse = false ∧ a.isDots = false := by
  intro es
  induction es using Entry.list_induction with
  | nil => intro folder x hm; simp [walk] at hm
  | cons fd ch rest ihc ihr =>
    intro folder x hm
    rw [walk_cons] at hm
    rcases List.mem_append.1 hm with hm | hm
    · by_cases hdots : fd.isDots = true
      · simp [walkEntry, hdots] at hm
      · have hdots : fd.isDots = false := by simpa using hdots
        simp only [walkEntry, hdots, Bool.false_eq_true, if_false, List.mem_cons] at hm
        rcases hm with hm | hm
        · subst hm
          exact ⟨[], At.top (Entry.mk fd ch) (List.mem_cons_self _ _), hdots, by simp⟩
        · by_cases hc : (fd.isDir && !fd.isReparse) = true
          · simp only [hc, if_true] at hm
            obtain ⟨chain, h1, h2, h3⟩ := ihc _ x hm
            have hc2 : fd.isDir = true ∧ fd.isReparse = false := by simpa using hc
            refine ⟨fd :: chain, At.lift folder _ (Entry.mk fd ch) (List.mem_cons_self _ _) h1,
              h2, ?_⟩
            intro a ha
            rcases List.mem_cons.1 ha with rfl | ha
            · exact ⟨hc2.1, hc2.2, hdots⟩
            · exact h3 a ha
          · simp [hc] at hm
    · obtain ⟨chain, h1, h2, h3⟩ := ihr folder x hm
      exact ⟨chain, At.mono folder _ rest h1, h2, h3⟩

theorem walk_complete (folder : WString) (es : List Entry) {chain : List FindData}
    {p : WString} {e : Entry} (h : At folder es chain p e) :
    (∀ a ∈ chain, a.isDir = true ∧ a.isReparse = false ∧ a.isDots = false) →
    e.fd.isDots = false → (p, e) ∈ walk folder es := by
  induction h with
  | top e hm => intro _ hdots; exact walk_top folder e hdots es hm
  | child chain p d e _ hm ih =>
    intro hchain hdots
    have hd := hchain d.fd (by simp)
    have hpd := ih (fun a ha => hchain a (by simp [ha])) hd.2.2
    exact walk_children p d hd.1 hd.2.1 _ (walk_top p e hdots d.children hm) es folder hpd

theorem mem_walk_iff (folder : WString) (es : List Entry) (p : WString) (e : Entry) :
    (p, e) ∈ walk folder es ↔
      ∃ chain, At folder es chain p e ∧ e.fd.isDots = false ∧
        ∀ a ∈ chain, a.isDir = true ∧ a.isReparse = false ∧ a.isDots = false :=
  ⟨fun h => walk_sound es folder (p, e) h,
   fun ⟨_, h1, h2, h3⟩ => walk_complete folder es h1 h3 h2⟩

/-! ### `NameContainsAllTerms` -/

theorem wfind.go_eq_none (t : WString) :
    ∀ (s : WString) (i : Nat), wfind.go t s i = none ↔ ¬ t <:+: s := by
  intro s
  induction s with
  | nil =>
    intro i
    cases t with
    | nil => simp [wfind.go]
    | cons a as => simp [wfind.go]
  | cons c cs ih =>
    intro i
    by_cases hp : t <+: c :: cs
    · have : t.isPrefixOf (c :: cs) = true := List.isPrefixOf_iff_prefix.2 hp
      simp only [wfind.go, this, if_true]
      simp [List.infix_cons_iff, hp]
    · have : t.isPrefixOf (c :: cs) = false := by
        cases hb : t.isPrefixOf (c :: cs) with
        | false => rfl
        | true => exact absurd (List.isPrefixOf_iff_prefix.1 hb) hp
      simp only [wfind.go, this, Bool.false_eq_true, if_false, ih, List.infix_cons_iff, hp,
        false_or]

theorem wfind_isNone (s t : WString) : (wfind s t).isNone = true ↔ ¬ t <:+: s := by
  rw [Option.isNone_iff_eq_none]
  exact wfind.go_eq_none t s 0

theorem NameContainsAllTerms.loop_iff (bl : WString) :
    ∀ ts : List WString, NameContainsAllTerms.loop bl ts = true ↔ ∀ t ∈ ts, t <:+: bl := by
  intro ts
  induction ts with
  | nil => simp [NameContainsAllTerms.loop]
  | cons t ts ih =>
    by_cases h : t <:+: bl
    · have : (wfind bl t).isNone = false := by
        cases hb : (wfind bl t).isNone with
        | false => rfl
        | true => exact absurd h ((wfind_isNone bl t).1 hb)
      simp [NameContainsAllTerms.loop, this, ih, h]
    · have : (wfind bl t).isNone = true := (wfind_isNone bl t).2 h
      simp [NameContainsAllTerms.loop, this, h]

theorem NameContainsAllTerms.loop_append (bl : WString) (ts us : List WString) :
    NameContainsAllTerms.loop bl (ts ++ us) =
      (NameContainsAllTerms.loop bl ts && NameContainsAllTerms.loop bl us) := by
  rw [Bool.eq_iff_iff]
  simp only [Bool.and_eq_true, NameContainsAllTerms.loop_iff, List.mem_append]
  constructor
  · intro h; exact ⟨fun t ht => h t (Or.inl ht), fun t ht => h t (Or.inr ht)⟩
  · rintro ⟨h1, h2⟩ t (ht | ht)
    · exact h1 t ht
    · exact h2 t ht

theorem NameContainsAllTerms_append (full : WString) (ts us : List WString) :
    NameContainsAllTerms full (ts ++ us) =
      (NameContainsAllTerms full ts && NameContainsAllTerms full us) := by
  simp only [NameContainsAllTerms, NameContainsAllTerms.loop_append]

theorem find_last_of_eq_none {s : WString} {ch : Char} (h : ch ∉ s) :
    find_last_of s ch = none := by
  cases hk : find_last_of s ch with
  | none => rfl
  | some k =>
    obtain ⟨a, b, h1, _, _⟩ := find_last_of_some hk
    exact absurd (by rw [h1]; simp) h

/-- Model of `NameContainsAllTerms` tests the terms against the lower-cased text that
follows the last backslash of the C string. -/
theorem NameContainsAllTerms_iff (full pre base : WString) (ts : List WString)
    (hsplit : c_str full = pre ++ base) (hbase : BSL ∉ base)
    (hpre : pre = [] ∨ pre.getLast? = some BSL) :
    NameContainsAllTerms full ts = true ↔ ∀ t ∈ ts, t <:+: ToLower base := by
  have hdrop : (c_str full).drop
      (match wcsrchr full BSL with
        | some b => b + 1
        | none => 0) = base := by
    unfold wcsrchr
    rcases hpre with rfl | hpre
    · simp only [List.nil_append] at hsplit
      rw [find_last_of_eq_none (by rw [hsplit]; exact hbase), hsplit]
      rfl
    · obtain ⟨q, rfl⟩ := List.getLast?_eq_some_iff.1 hpre
      have e : c_str full = q ++ BSL :: base := by rw [hsplit]; simp
      rw [e, find_last_of_of_split hbase]
      simp
  unfold NameContainsAllTerms
  simp only [hdrop]
  exact NameContainsAllTerms.loop_iff _ ts

/-! ### Search results and narrowing -/

theorem SearchRecurseFolder_eq_walk (fs : FileSystem) (folder : WString)
    (terms : List WString) (out : SearchOut) :
    SearchRecurseFolder fs folder terms out =
      { rows := out.rows ++
          (walk folder (fs.FindFiles (c_str (EnsureSlash folder ++ ['*'])))).filterMap
            (walkRow fs.GetVideoPropsFastCached terms),
        enumerated := out.enumerated ++ folder ::
          (walk folder (fs.FindFiles (c_str (EnsureSlash folder ++ ['*'])))).filterMap walkDir } := by
  simp [SearchRecurseFolder, SearchRecurseFolder.loop_eq_walk]

theorem SearchRecurseFolder_out (fs : FileSystem) (folder : WString)
    (terms : List WString) (out : SearchOut) :
    SearchRecurseFolder fs folder terms out =
      { rows := out.rows ++ (SearchRecurseFolder fs folder terms {}).rows,
        enumerated := out.enumerated ++ (SearchRecurseFolder fs folder terms {}).enumerated } := by
  rw [SearchRecurseFolder_eq_walk fs folder terms out, SearchRecurseFolder_eq_walk fs folder terms {}]
  simp

theorem walkRow_narrow (vp : WString → Int × Int × Nat) (ts : List WString) (kw : WString)
    (x : WString × Entry) :
    (walkRow vp ts x).filter (fun r => NameContainsAllTerms r.full (ts ++ [kw])) =
      walkRow vp (ts ++ [kw]) x := by
  unfold walkRow
  rw [NameContainsAllTerms_append]
  cases hd : x.2.fd.isDir <;> cases hv : IsVideoFile x.1 <;>
    cases h1 : NameContainsAllTerms x.1 ts <;> cases h2 : NameContainsAllTerms x.1 [kw] <;>
    simp [Option.filter, searchRow, NameContainsAllTerms_append, h1, h2]

theorem walk_rows_narrow (vp : WString → Int × Int × Nat) (ts : List WString) (kw : WString)
    (l : List (WString × Entry)) :
    l.filterMap (walkRow vp (ts ++ [kw])) =
      (l.filterMap (walkRow vp ts)).filter
        (fun r => NameContainsAllTerms r.full (ts ++ [kw])) := by
  rw [List.filter_filterMap]
  congr 1
  funext x
  exact (walkRow_narrow vp ts kw x).symm

theorem SearchRecurseFolder_narrow (fs : FileSystem) (folder : WString)
    (ts : List WString) (kw : WString) (out out2 : SearchOut)
    (h : out2.rows = out.rows.filter (fun r => NameContainsAllTerms r.full (ts ++ [kw]))) :
    (SearchRecurseFolder fs folder (ts ++ [kw]) out2).rows =
      (SearchRecurseFolder fs folder ts out).rows.filter
        (fun r => NameContainsAllTerms r.full (ts ++ [kw])) := by
  rw [SearchRecurseFolder_eq_walk, SearchRecurseFolder_eq_walk]
  simp only [List.filter_append, h, walk_rows_narrow]

theorem RunSearchFromOrigin.files_narrow (fs : FileSystem) (ts : List WString) (kw : WString) :
    ∀ (l : List WString) (out out2 : SearchOut),
      out2.rows = out.rows.filter (fun r => NameContainsAllTerms r.full (ts ++ [kw])) →
      (RunSearchFromOrigin.files fs (ts ++ [kw]) l out2).rows =
        (RunSearchFromOrigin.files fs ts l out).rows.filter
          (fun r => NameContainsAllTerms r.full (ts ++ [kw])) := by
  intro l
  induction l with
  | nil => intro out out2 h; simpa [RunSearchFromOrigin.files] using h
  | cons file rest ih =>
    intro out out2 h
    simp only [RunSearchFromOrigin.files]
    cases hv : IsVideoFile file
    · simpa using ih out out2 h
    · cases h1 : NameContainsAllTerms file ts
      · have : NameContainsAllTerms file (ts ++ [kw]) = false := by
          rw [NameContainsAllTerms_append, h1]; rfl
        simpa [this] using ih out out2 h
      · cases h2 : NameContainsAllTerms file [kw]
        · have h3 : NameContainsAllTerms file (ts ++ [kw]) = false := by
            rw [NameContainsAllTerms_append, h1, h2]; rfl
          simp only [h3, Bool.not_true, Bool.not_false, Bool.false_eq_true, if_false, if_true]
          cases ha : fs.GetFileAttributesExW (c_str file) with
          | none => exact ih out out2 h
          | some fad =>
            simp only []
            split
            · apply ih
              simp [List.filter_append, h, searchRow, h3]
            · exact ih out out2 h
        · have h3 : NameContainsAllTerms file (ts ++ [kw]) = true := by
            rw [NameContainsAllTerms_append, h1, h2]; rfl
          simp only [h3, Bool.not_true, Bool.false_eq_true, if_false]
          cases ha : fs.GetFileAttributesExW (c_str file) with
          | none => exact ih out out2 h
          | some fad =>
            simp only []
            split
            · apply ih
              simp [List.filter_append, h, searchRow, h3]
            · exact ih out out2 h

theorem RunSearchFromOrigin.folders_narrow (fs : FileSystem) (ts : List WString)
    (kw : WString) :
    ∀ (l : List WString) (out out2 : SearchOut),
      out2.rows = out.rows.filter (fun r => NameContainsAllTerms r.full (ts ++ [kw])) →
      (RunSearchFromOrigin.folders fs (ts ++ [kw]) l out2).rows =
        (RunSearchFromOrigin.folders fs ts l out).rows.filter
          (fun r => NameContainsAllTerms r.full (ts ++ [kw])) := by
  intro l
  induction l with
  | nil => intro out out2 h; simpa [RunSearchFromOrigin.folders] using h
  | cons folder rest ih =>
    intro out out2 h
    simp only [RunSearchFromOrigin.folders]
    exact ih _ _ (SearchRecurseFolder_narrow fs folder ts kw out out2 h)

theorem RunSearchFromOrigin.drives_narrow (fs : FileSystem) (ts : List WString)
    (kw : WString) (mask : Nat) :
    ∀ (n i : Nat) (out out2 : SearchOut),
      out2.rows = out.rows.filter (fun r => NameContainsAllTerms r.full (ts ++ [kw])) →
      (RunSearchFromOrigin.drives fs (ts ++ [kw]) mask n i out2).rows =
        (RunSearchFromOrigin.drives fs ts mask n i out).rows.filter
          (fun r => NameContainsAllTerms r.full (ts ++ [kw])) := by
  intro n
  induction n with
  | zero => intro i out out2 h; simpa [RunSearchFromOrigin.drives] using h
  | succ n ih =>
    intro i out out2 h
    simp only [RunSearchFromOrigin.drives]
    split
    · exact ih _ _ _ h
    · exact ih _ _ _ (SearchRecurseFolder_narrow fs _ ts kw out out2 h)

theorem RunSearchFromOrigin_narrow (fs : FileSystem) (g_search : SearchState) (kw : WString) :
    (RunSearchFromOrigin fs
        { g_search with termsLower := g_search.termsLower ++ [kw] }).rows =
      (RunSearchFromOrigin fs g_search).rows.filter
        (fun r => NameContainsAllTerms r.full (g_search.termsLower ++ [kw])) := by
  unfold RunSearchFromOrigin
  simp only []
  split
  · exact RunSearchFromOrigin.folders_narrow fs _ kw _ _ _
      (RunSearchFromOrigin.files_narrow fs _ kw _ _ _ (by simp))
  · split
    · exact RunSearchFromOrigin.drives_narrow fs _ kw _ _ _ _ _ (by simp)
    · exact SearchRecurseFolder_narrow fs _ _ kw _ _ (by simp)

/-- C5: when the displayed rows are (a rearrangement of) the result of the full
search for the current terms, the in-place filter of the Ctrl+F handler in Search
view appends the keyword to the terms, yields a sublist of the displayed rows,
and yields the same rows as re-running `RunSearchFromOrigin` with the extended
terms on the unchanged filesystem. -/
theorem narrowing_equals_full_search (fs : FileSystem) (g_search : SearchState)
    (g_rows : List Row) (kw : WString)
    (h : g_rows.Perm (RunSearchFromOrigin fs g_search).rows) :
    (ListSubclass.narrow g_search g_rows kw).1 =
        { g_search with termsLower := g_search.termsLower ++ [kw] } ∧
      (ListSubclass.narrow g_search g_rows kw).2.Sublist g_rows ∧
      (ListSubclass.narrow g_search g_rows kw).2.Perm
        (RunSearchFromOrigin fs (ListSubclass.narrow g_search g_rows kw).1).rows := by
  refine ⟨rfl, ?_, ?_⟩
  · exact List.filter_sublist _
  · simp only [ListSubclass.narrow]
    rw [RunSearchFromOrigin_narrow]
    exact h.filter _

/-! ### Paths of located entries -/

theorem validName_iff (n : WString) :
    validName n = true ↔ BSL ∉ n ∧ FSL ∉ n ∧ NUL ∉ n := by
  simp [validName, and_assoc]

theorem validTree_mem : ∀ (es : List Entry) (e : Entry),
    validTree es = true → e ∈ es → validEntry e = true := by
  intro es
  induction es with
  | nil => intro e _ hm; simp at hm
  | cons a rest ih =>
    intro e hv hm
    rw [validTree, Bool.and_eq_true] at hv
    rcases List.mem_cons.1 hm with rfl | hm
    · exact hv.1
    · exact ih e hv.2 hm

theorem validEntry_name (e : Entry) (h : validEntry e = true) :
    validName e.fd.cFileName = true := by
  cases e with
  | mk fd ch =>
    rw [validEntry, Bool.and_eq_true] at h
    exact h.1

theorem validEntry_children (e : Entry) (h : validEntry e = true) :
    validTree e.children = true := by
  cases e with
  | mk fd ch =>
    rw [validEntry, Bool.and_eq_true] at h
    exact h.2

theorem At.valid {folder : WString} {es : List Entry} (hv : validTree es = true)
    {chain : List FindData} {p : WString} {e : Entry} (h : At folder es chain p e) :
    validEntry e = true := by
  induction h with
  | top e hm => exact validTree_mem es e hv hm
  | child chain p d e _ hm ih => exact validTree_mem _ e (validEntry_children d ih) hm

theorem EnsureSlash_no_NUL {q : WString} (h : NUL ∉ q) : NUL ∉ EnsureSlash q := by
  unfold EnsureSlash
  split
  · exact h
  · split
    · intro hm
      rcases List.mem_append.1 hm with hm | hm
      · exact h hm
      · exact absurd hm (by decide)
    · exact h

theorem EnsureSlash_shape {q : WString} (h : q.getLast? ≠ some FSL) :
    EnsureSlash q = [] ∨ (EnsureSlash q).getLast? = some BSL := by
  unfold EnsureSlash
  cases hq : q.getLast? with
  | none =>
    left
    simpa using hq
  | some c =>
    right
    simp only []
    by_cases hc : (c != BSL && c != FSL) = true
    · simp [hc]
    · simp only [hc, Bool.false_eq_true, if_false]
      have hne : c ≠ FSL := fun e => h (by rw [hq, e])
      have : c = BSL := by
        by_contra hb
        apply hc
        simp [hb, hne]
      rw [hq, this]

theorem At.path_shape {folder : WString} {es : List Entry} (hv : validTree es = true)
    (hN : NUL ∉ folder) (hR : folder.getLast? ≠ some FSL)
    {chain : List FindData} {p : WString} {e : Entry} (h : At folder es chain p e) :
    NUL ∉ p ∧ p.getLast? ≠ some FSL ∧
      ∃ pre, p = pre ++ e.fd.cFileName ∧ (pre = [] ∨ pre.getLast? = some BSL) := by
  have key : ∀ (q : WString) (e : Entry), NUL ∉ q → q.getLast? ≠ some FSL →
      validEntry e = true →
      NUL ∉ EnsureSlash q ++ e.fd.cFileName ∧
      (EnsureSlash q ++ e.fd.cFileName).getLast? ≠ some FSL ∧
      ∃ pre, EnsureSlash q ++ e.fd.cFileName = pre ++ e.fd.cFileName ∧
        (pre = [] ∨ pre.getLast? = some BSL) := by
    intro q e hq1 hq2 he
    obtain ⟨_, n2, n3⟩ := (validName_iff _).1 (validEntry_name e he)
    refine ⟨?_, ?_, EnsureSlash q, rfl, EnsureSlash_shape hq2⟩
    · intro hm
      rcases List.mem_append.1 hm with hm | hm
      · exact EnsureSlash_no_NUL hq1 hm
      · exact n3 hm
    · intro hl
      rw [List.getLast?_append] at hl
      cases hn : e.fd.cFileName.getLast? with
      | none =>
        rw [hn] at hl
        simp only [Option.or] at hl
        rcases EnsureSlash_shape hq2 with h0 | h0
        · rw [h0] at hl; simp at hl
        · rw [h0] at hl
          exact absurd (Option.some.inj hl) (by decide)
      | some c =>
        rw [hn] at hl
        simp only [Option.or] at hl
        have hc : c ∈ e.fd.cFileName := List.mem_of_getLast?_eq_some hn
        rw [Option.some.inj hl] at hc
        exact n2 hc
  induction h with
  | top e hm => exact key folder e hN hR (validTree_mem es e hv hm)
  | child chain p d e hd hm ih =>
    exact key p e ih.1 ih.2.1 (validTree_mem _ e (validEntry_children d (At.valid hv hd)) hm)

theorem At.name_test {folder : WString} {es : List Entry} (hv : validTree es = true)
    (hN : NUL ∉ folder) (hR : folder.getLast? ≠ some FSL)
    {chain : List FindData} {p : WString} {e : Entry} (h : At folder es chain p e)
    (terms : List WString) :
    NameContainsAllTerms p terms = true ↔ ∀ t ∈ terms, t <:+: ToLower e.fd.cFileName := by
  obtain ⟨h1, _, pre, h3, h4⟩ := At.path_shape hv hN hR h
  obtain ⟨n1, _, _⟩ := (validName_iff _).1 (validEntry_name e (At.valid hv h))
  exact NameContainsAllTerms_iff p pre e.fd.cFileName terms
    (by rw [c_str_eq_self h1]; exact h3) n1 h4

/-! ### The video test on a path and on its last component -/

theorem IsVideoFile_false_of_BSL (p : WString) (a b : WString)
    (h : find_last_of p '.' = some a.length) (hp : p = a ++ '.' :: b) (hb : BSL ∈ b) :
    IsVideoFile p = false := by
  have hext : ExtLower p = ('.' :: b).map towlower := by
    simp only [ExtLower, h]
    rw [hp, List.drop_left]
  have hmem : BSL ∈ ExtLower p := by
    rw [hext]
    exact List.mem_map.2 ⟨BSL, List.mem_cons_of_mem _ hb, by decide⟩
  have hall : ∀ x ∈ IsVideoFile.exts, BSL ∉ x := by decide
  unfold IsVideoFile
  simp only [List.any_eq_false, beq_iff_eq]
  intro x hx he
  exact hall x hx (he ▸ hmem)

theorem IsVideoFile_append_name (pre name : WString)
    (hpre : pre = [] ∨ pre.getLast? = some BSL) :
    IsVideoFile (pre ++ name) = IsVideoFile name := by
  cases hn : find_last_of name '.' with
  | some k =>
    obtain ⟨a, b, h1, h2, h3⟩ := find_last_of_some hn
    have e1 : find_last_of (pre ++ name) '.' = some (pre ++ a).length := by
      rw [h1, ← List.append_assoc]
      exact find_last_of_of_split h3
    have e2 : find_last_of name '.' = some a.length := by rw [hn, h2]
    simp only [IsVideoFile, ExtLower, e1, e2]
    rw [h1, ← List.append_assoc, List.drop_left, List.drop_left]
  | none =>
    have hdot : '.' ∉ name := find_last_of_none hn
    have hname : IsVideoFile name = false := by
      simp only [IsVideoFile, ExtLower, hn]
      decide
    rw [hname]
    cases hp : find_last_of (pre ++ name) '.' with
    | none =>
      simp only [IsVideoFile, ExtLower, hp]
      decide
    | some k =>
      obtain ⟨a, b, h1, h2, h3⟩ := find_last_of_some hp
      subst h2
      apply IsVideoFile_false_of_BSL (pre ++ name) a b hp h1
      rcases List.append_eq_append_iff.1 h1 with ⟨x, _, hx2⟩ | ⟨x, hx1, hx2⟩
      · exact absurd (by rw [hx2]; simp) hdot
      · cases x with
        | nil =>
          simp only [List.nil_append] at hx2
          exact absurd (by rw [← hx2]; simp) hdot
        | cons y ys =>
          simp only [List.cons_append, List.cons.injEq] at hx2
          obtain ⟨hy, hb⟩ := hx2
          subst hy
          rcases hpre with h0 | h0
          · rw [h0] at hx1
            exact absurd hx1 (by simp)
          · rw [hx1] at h0
            have h0b : ('.' :: ys).getLast? = some BSL := by
              rw [List.getLast?_append] at h0
              cases hl : ('.' :: ys).getLast? with
              | none => simp at hl
              | some c =>
                rw [hl] at h0
                simpa [Option.or] using h0
            cases ys with
            | nil => exact absurd h0b (by decide)
            | cons z zs =>
              rw [List.getLast?_cons_cons] at h0b
              rw [hb]
              exact List.mem_append_left _ (List.mem_of_getLast?_eq_some h0b)

theorem At.video_test {folder : WString} {es : List Entry} (hv : validTree es = true)
    (hN : NUL ∉ folder) (hR : folder.getLast? ≠ some FSL)
    {chain : List FindData} {p : WString} {e : Entry} (h : At folder es chain p e) :
    IsVideoFile p = IsVideoFile e.fd.cFileName := by
  obtain ⟨_, _, pre, h3, h4⟩ := At.path_shape hv hN hR h
  rw [h3]
  exact IsVideoFile_append_name pre _ h4

theorem StripTrailingSlashes.go_done :
    ∀ (n : Nat) (p : WString), p.length ≤ n →
      ¬ ((StripTrailingSlashes.go n p).length > 3 ∧
        ((StripTrailingSlashes.go n p).getLast? = some BSL ∨
          (StripTrailingSlashes.go n p).getLast? = some FSL)) := by
  intro n
  induction n with
  | zero =>
    intro p hp
    simp only [StripTrailingSlashes.go]
    omega
  | succ n ih =>
    intro p hp
    simp only [StripTrailingSlashes.go]
    split
    · rename_i hc
      apply ih
      simp only [Bool.and_eq_true, decide_eq_true_eq] at hc
      rw [List.length_dropLast]
      omega
    · rename_i hc
      intro hcon
      apply hc
      simp only [Bool.and_eq_true, decide_eq_true_eq, Bool.or_eq_true, beq_iff_eq]
      exact hcon

/-- The scan of `StripTrailingSlashes` always runs to the end of the `while` loop:
the result is short or does not end in a separator. -/
theorem StripTrailingSlashes_done (p : WString) :
    ¬ ((StripTrailingSlashes p).length > 3 ∧
      ((StripTrailingSlashes p).getLast? = some BSL ∨
        (StripTrailingSlashes p).getLast? = some FSL)) :=
  StripTrailingSlashes.go_done p.length p (Nat.le_refl _)

/-! ### Claims on the search -/

theorem mem_rows_iff (fs : FileSystem) (R : WString) (terms : List WString) (r : Row) :
    r ∈ (SearchRecurseFolder fs R terms {}).rows ↔
      ∃ chain p e, At R (fs.FindFiles (c_str (EnsureSlash R ++ ['*']))) chain p e ∧
        (∀ a ∈ chain, a.isDir = true ∧ a.isReparse = false ∧ a.isDots = false) ∧
        e.fd.isDots = false ∧ e.fd.isDir = false ∧ IsVideoFile p = true ∧
        NameContainsAllTerms p terms = true ∧
        r = searchRow fs.GetVideoPropsFastCached p e.fd.ftLastWriteTime
          e.fd.nFileSizeHigh e.fd.nFileSizeLow := by
  rw [SearchRecurseFolder_eq_walk]
  simp only [List.nil_append, List.mem_filterMap, Prod.exists, mem_walk_iff]
  constructor
  · rintro ⟨p, e, ⟨chain, h1, h2, h3⟩, h4⟩
    unfold walkRow at h4
    split at h4
    · rename_i hc
      simp only [Bool.and_eq_true, Bool.not_eq_true'] at hc
      exact ⟨chain, p, e, h1, h3, h2, hc.1.1, hc.1.2, hc.2, (Option.some.inj h4).symm⟩
    · exact absurd h4 (by simp)
  · rintro ⟨chain, p, e, h1, h3, h2, h5, h6, h7, h8⟩
    refine ⟨p, e, ⟨chain, h1, h2, h3⟩, ?_⟩
    simp [walkRow, h5, h6, h7, h8]

theorem mem_enumerated_iff (fs : FileSystem) (R : WString) (terms : List WString)
    (q : WString) :
    q ∈ (SearchRecurseFolder fs R terms {}).enumerated ↔
      q = R ∨ ∃ chain e, At R (fs.FindFiles (c_str (EnsureSlash R ++ ['*']))) chain q e ∧
        (∀ a ∈ chain, a.isDir = true ∧ a.isReparse = false ∧ a.isDots = false) ∧
        e.fd.isDots = false ∧ e.fd.isDir = true ∧ e.fd.isReparse = false := by
  rw [SearchRecurseFolder_eq_walk]
  simp only [List.nil_append, List.mem_cons, List.mem_filterMap, Prod.exists, mem_walk_iff]
  constructor
  · rintro (h | ⟨p, e, ⟨chain, h1, h2, h3⟩, h4⟩)
    · exact Or.inl h
    · unfold walkDir at h4
      split at h4
      · rename_i hc
        simp only [Bool.and_eq_true, Bool.not_eq_true'] at hc
        have hp : p = q := Option.some.inj h4
        subst hp
        exact Or.inr ⟨chain, e, h1, h3, h2, hc.1, hc.2⟩
      · exact absurd h4 (by simp)
  · rintro (h | ⟨chain, e, h1, h3, h2, h5, h6⟩)
    · exact Or.inl h
    · exact Or.inr ⟨q, e, ⟨chain, h1, h2, h3⟩, by simp [walkDir, h5, h6]⟩

theorem exFS_FindFiles_v :
    exFS.FindFiles (c_str (EnsureSlash "C:\\v".toList ++ ['*'])) = exTree := by
  have e : c_str (EnsureSlash "C:\\v".toList ++ ['*']) = "C:\\v\\*".toList := by decide
  rw [e]
  rfl

/-- C6, failing input: for the path `C:/videos/clip.mp4` and the term `videos`,
`NameContainsAllTerms` returns true although the base filename `clip.mp4` (as
the paste code computes it) does not contain the term; a search rooted at
`C:/videos/` therefore reports the file. -/
theorem NameContainsAllTerms_forward_slash :
    NameContainsAllTerms "C:/videos/clip.mp4".toList ["videos".toList] = true ∧
      RunClipboardOperationWithUI.baseName "C:/videos/clip.mp4".toList = "clip.mp4".toList ∧
      ¬ ("videos".toList <:+: ToLower "clip.mp4".toList) ∧
      (SearchRecurseFolder slashFS "C:/videos/".toList ["videos".toList] {}).rows.map
        (fun r => r.full) = ["C:/videos/clip.mp4".toList] := by
  decide

/-- C7, counterexample: `trip_2023.txt` lies directly in the searched folder, is no
directory, and its name contains both terms, yet no result row has its path. -/
theorem SearchRecurseFolder_omits_text_file :
    At "C:\\v".toList (exFS.FindFiles (c_str (EnsureSlash "C:\\v".toList ++ ['*']))) []
        "C:\\v\\trip_2023.txt".toList exTxtEntry ∧
      exTxtEntry.fd.isDir = false ∧
      (∀ t ∈ ["2023".toList, "trip".toList], t <:+: ToLower exTxtEntry.fd.cFileName) ∧
      ∀ r ∈ (SearchRecurseFolder exFS "C:\\v".toList ["2023".toList, "trip".toList] {}).rows,
        r.full ≠ "C:\\v\\trip_2023.txt".toList := by
  refine ⟨?_, by decide, by decide, by decide⟩
  rw [exFS_FindFiles_v]
  exact At.top exTxtEntry (by simp [exTree])

/-- C7, amended: for a root without NUL that does not end in `/` and a tree of
valid names, the whole-subtree search collects exactly the video files
(`IsVideoFile`) of the subtree that are reached through directories that are
neither reparse points nor `.`/`..`, and whose file name contains every term
after lower-casing. -/
theorem SearchRecurseFolder_collects_exactly_videos (fs : FileSystem) (R : WString)
    (terms : List WString) (hN : NUL ∉ R) (hR : R.getLast? ≠ some FSL)
    (hv : validTree (fs.FindFiles (c_str (EnsureSlash R ++ ['*']))) = true) (r : Row) :
    r ∈ (SearchRecurseFolder fs R terms {}).rows ↔
      ∃ chain p e, At R (fs.FindFiles (c_str (EnsureSlash R ++ ['*']))) chain p e ∧
        (∀ a ∈ chain, a.isDir = true ∧ a.isReparse = false ∧ a.isDots = false) ∧
        e.fd.isDots = false ∧ e.fd.isDir = false ∧ IsVideoFile e.fd.cFileName = true ∧
        (∀ t ∈ terms, t <:+: ToLower e.fd.cFileName) ∧
        r = searchRow fs.GetVideoPropsFastCached p e.fd.ftLastWriteTime
          e.fd.nFileSizeHigh e.fd.nFileSizeLow := by
  rw [mem_rows_iff]
  constructor
  · rintro ⟨chain, p, e, h1, h2, h3, h4, h5, h6, h7⟩
    exact ⟨chain, p, e, h1, h2, h3, h4, (At.video_test hv hN hR h1) ▸ h5,
      (At.name_test hv hN hR h1 terms).1 h6, h7⟩
  · rintro ⟨chain, p, e, h1, h2, h3, h4, h5, h6, h7⟩
    exact ⟨chain, p, e, h1, h2, h3, h4, (At.video_test hv hN hR h1).symm ▸ h5,
      (At.name_test hv hN hR h1 terms).2 h6, h7⟩

theorem SearchRecurseFolder_collects_exactly_videos_witness :
    searchRow exFS.GetVideoPropsFastCached "C:\\v\\Trip_2023_Summer.mp4".toList ⟨5, 1⟩ 0 1000 ∈
      (SearchRecurseFolder exFS "C:\\v".toList ["2023".toList, "trip".toList] {}).rows :=
  (SearchRecurseFolder_collects_exactly_videos exFS "C:\\v".toList
      ["2023".toList, "trip".toList] (by decide) (by decide) (by decide) _).2
    ⟨[], "C:\\v\\Trip_2023_Summer.mp4".toList, exSummerEntry,
      (by
        rw [exFS_FindFiles_v]
        exact At.top exSummerEntry (by simp [exTree])),
      (by simp), by decide, by decide, by decide, by decide, rfl⟩

/-- C8: every folder that `SearchRecurseFolder` enumerates, other than the root it
was called on, is a directory entry without the reparse-point flag reached
through entries without that flag; and every result row is a file reached
through directories without the reparse-point flag. -/
theorem SearchRecurseFolder_skips_reparse_points (fs : FileSystem) (R : WString)
    (terms : List WString) :
    (∀ q ∈ (SearchRecurseFolder fs R terms {}).enumerated,
      q = R ∨ ∃ chain e, At R (fs.FindFiles (c_str (EnsureSlash R ++ ['*']))) chain q e ∧
        e.fd.isDir = true ∧ e.fd.isReparse = false ∧ ∀ a ∈ chain, a.isReparse = false) ∧
    (∀ r ∈ (SearchRecurseFolder fs R terms {}).rows,
      ∃ chain e, At R (fs.FindFiles (c_str (EnsureSlash R ++ ['*']))) chain r.full e ∧
        e.fd.isDir = false ∧ ∀ a ∈ chain, a.isDir = true ∧ a.isReparse = false) := by
  constructor
  · intro q hq
    rcases (mem_enumerated_iff fs R terms q).1 hq with h | ⟨chain, e, h1, h2, _, h4, h5⟩
    · exact Or.inl h
    · exact Or.inr ⟨chain, e, h1, h4, h5, fun a ha => (h2 a ha).2.1⟩
  · intro r hr
    obtain ⟨chain, p, e, h1, h2, _, h4, _, _, h7⟩ := (mem_rows_iff fs R terms r).1 hr
    have hp : r.full = p := by rw [h7]; rfl
    rw [hp]
    exact ⟨chain, e, h1, h4, fun a ha => ⟨(h2 a ha).1, (h2 a ha).2.1⟩⟩

theorem SearchRecurseFolder_skips_reparse_points_witness :
    ∃ chain e, At "C:\\v".toList (exFS.FindFiles (c_str (EnsureSlash "C:\\v".toList ++ ['*'])))
        chain "C:\\v\\sub\\2023 TRIP b.MKV".toList e ∧
      e.fd.isDir = false ∧ ∀ a ∈ chain, a.isDir = true ∧ a.isReparse = false :=
  (SearchRecurseFolder_skips_reparse_points exFS "C:\\v".toList
      ["2023".toList, "trip".toList]).2
    (searchRow exFS.GetVideoPropsFastCached "C:\\v\\sub\\2023 TRIP b.MKV".toList ⟨9, 1⟩ 1 5)
    (by decide)

theorem RunSearchFromOrigin.files_eq (fs : FileSystem) (terms : List WString) :
    ∀ (l : List WString) (out : SearchOut),
      RunSearchFromOrigin.files fs terms l out =
        { rows := out.rows ++ l.filterMap (fun file =>
            if IsVideoFile file && NameContainsAllTerms file terms then
              match fs.GetFileAttributesExW (c_str file) with
              | some fad =>
                if fad.dwFileAttributes &&& FILE_ATTRIBUTE_DIRECTORY = 0 then
                  some (searchRow fs.GetVideoPropsFastCached file fad.ftLastWriteTime
                    fad.nFileSizeHigh fad.nFileSizeLow)
                else none
              | none => none
            else none),
          enumerated := out.enumerated } := by
  intro l
  induction l with
  | nil => intro out; simp [RunSearchFromOrigin.files]
  | cons file rest ih =>
    intro out
    simp only [RunSearchFromOrigin.files, ih]
    cases hv : IsVideoFile file
    · simp [List.filterMap_cons, hv]
    · cases h1 : NameContainsAllTerms file terms
      · simp [List.filterMap_cons, hv, h1]
      · cases ha : fs.GetFileAttributesExW (c_str file) with
        | none => simp [List.filterMap_cons, hv, h1, ha]
        | some fad =>
          by_cases hd : fad.dwFileAttributes &&& FILE_ATTRIBUTE_DIRECTORY = 0
          · simp [List.filterMap_cons, hv, h1, ha, hd]
          · simp [List.filterMap_cons, hv, h1, ha, hd]

theorem RunSearchFromOrigin.folders_eq (fs : FileSystem) (terms : List WString) :
    ∀ (l : List WString) (out : SearchOut),
      RunSearchFromOrigin.folders fs terms l out =
        { rows := out.rows ++
            l.flatMap (fun folder => (SearchRecurseFolder fs folder terms {}).rows),
          enumerated := out.enumerated ++
            l.flatMap (fun folder => (SearchRecurseFolder fs folder terms {}).enumerated) } := by
  intro l
  induction l with
  | nil => intro out; simp [RunSearchFromOrigin.folders]
  | cons folder rest ih =>
    intro out
    simp only [RunSearchFromOrigin.folders, ih, List.flatMap_cons]
    rw [SearchRecurseFolder_out fs folder terms out]
    simp

/-- C9, counterexample: with an explicit scope, the selected file `trip_2023.txt`
passes the all-terms test and exists, but the result holds no row for it. -/
theorem RunSearchFromOrigin_drops_selected_text_file :
    exScoped.useExplicitScope = true ∧
      "C:\\v\\trip_2023.txt".toList ∈ exScoped.explicitFiles ∧
      NameContainsAllTerms "C:\\v\\trip_2023.txt".toList exScoped.termsLower = true ∧
      (RunSearchFromOrigin exFS exScoped).rows.map (fun r => r.full) =
        ["C:\\v\\Trip_2023_Summer.mp4".toList, "C:\\v\\sub\\2023 TRIP b.MKV".toList] := by
  decide

/-- C9, amended: with an explicit scope the result is, in selection order, a row
for each selected file that is a video file, passes the all-terms test and is
reported by `GetFileAttributesExW` as an existing non-directory, followed by the
whole-subtree results of each named folder in order; the folders enumerated are
the named folders and their descendants only. -/
theorem RunSearchFromOrigin_explicit_scope (fs : FileSystem) (g_search : SearchState)
    (h : g_search.useExplicitScope = true) :
    (RunSearchFromOrigin fs g_search).rows =
        g_search.explicitFiles.filterMap (fun file =>
          if IsVideoFile file && NameContainsAllTerms file g_search.termsLower then
            match fs.GetFileAttributesExW (c_str file) with
            | some fad =>
              if fad.dwFileAttributes &&& FILE_ATTRIBUTE_DIRECTORY = 0 then
                some (searchRow fs.GetVideoPropsFastCached file fad.ftLastWriteTime
                  fad.nFileSizeHigh fad.nFileSizeLow)
              else none
            | none => none
          else none) ++
        g_search.explicitFolders.flatMap
          (fun folder => (SearchRecurseFolder fs folder g_search.termsLower {}).rows) ∧
      (RunSearchFromOrigin fs g_search).enumerated =
        g_search.explicitFolders.flatMap
          (fun folder => (SearchRecurseFolder fs folder g_search.termsLower {}).enumerated) ∧
      (∀ q ∈ (RunSearchFromOrigin fs g_search).enumerated,
        ∃ folder ∈ g_search.explicitFolders, q = folder ∨
          ∃ chain e, At folder (fs.FindFiles (c_str (EnsureSlash folder ++ ['*']))) chain q e ∧
            e.fd.isDir = true) ∧
      ∀ (v : ViewKind) (origin : WString),
        RunSearchFromOrigin fs { g_search with originView := v, originFolder := origin } =
          RunSearchFromOrigin fs g_search := by
  have hrun : RunSearchFromOrigin fs g_search =
      RunSearchFromOrigin.folders fs g_search.termsLower g_search.explicitFolders
        (RunSearchFromOrigin.files fs g_search.termsLower g_search.explicitFiles {}) := by
    simp only [RunSearchFromOrigin, h, if_true]
  have horigin : ∀ (v : ViewKind) (origin : WString),
      RunSearchFromOrigin fs { g_search with originView := v, originFolder := origin } =
        RunSearchFromOrigin fs g_search := by
    intro v origin
    simp only [RunSearchFromOrigin, h, if_true]
  refine ⟨?_, ?_, ?_, horigin⟩
  · rw [hrun, RunSearchFromOrigin.folders_eq, RunSearchFromOrigin.files_eq]
    simp
  · rw [hrun, RunSearchFromOrigin.folders_eq, RunSearchFromOrigin.files_eq]
    simp
  rw [hrun, RunSearchFromOrigin.folders_eq, RunSearchFromOrigin.files_eq]
  intro q hq
  simp only [List.nil_append, List.mem_flatMap] at hq
  obtain ⟨folder, hf, hq⟩ := hq
  refine ⟨folder, hf, ?_⟩
  rcases (mem_enumerated_iff fs folder _ q).1 hq with hq | ⟨chain, e, h1, _, _, h4, _⟩
  · exact Or.inl hq
  · exact Or.inr ⟨chain, e, h1, h4⟩

theorem RunSearchFromOrigin_explicit_scope_witness :
    (RunSearchFromOrigin exFS exScoped).enumerated =
      exScoped.explicitFolders.flatMap
        (fun folder => (SearchRecurseFolder exFS folder exScoped.termsLower {}).enumerated) :=
  (RunSearchFromOrigin_explicit_scope exFS exScoped (by decide)).2.1

/-- C10: a metadata result whose generation tag differs from the live generation
leaves every row of `g_rows` unchanged. -/
theorem WM_APP_META_stale_result_ignored (g_rows : List Row) (g_metaGen : Nat)
    (r : MetaResult) (h : r.gen ≠ g_metaGen) :
    WndProc.WM_APP_META g_rows g_metaGen (some r) = g_rows := by
  have : (r.gen == g_metaGen) = false := by simpa using h
  simp [WndProc.WM_APP_META, this]

theorem WM_APP_META_stale_result_ignored_witness :
    WndProc.WM_APP_META exRows 5 (some exStale) = exRows ∧
      WndProc.WM_APP_META exRows 4 (some exStale) ≠ exRows :=
  ⟨WM_APP_META_stale_result_ignored exRows 5 exStale (by decide), by decide⟩

theorem dst_built_from_base_name_witness :
    RunClipboardOperationWithUI.dst destOnlyA "D:\\x".toList "C:\\src\\a.txt".toList false =
        "D:\\x\\a (1).txt".toList ∧
      RunClipboardOperationWithUI.dst destA "D:\\x".toList "C:\\src\\b.txt".toList false =
        "D:\\x\\b.txt".toList ∧
      RunClipboardOperationWithUI.dst destDir "D:\\x".toList "C:\\src\\my.dir\\".toList true =
        "D:\\x\\my.dir (1)".toList :=
  ⟨(dst_built_from_base_name destOnlyA "D:\\x".toList "C:\\src\\a.txt".toList).2.2.2.1
      "a".toList "txt".toList 1 (by decide) (by decide) (by decide) (by decide) (by decide)
      (by decide) (by decide) (fun j h1 h2 => absurd h1 (by omega)),
    (dst_built_from_base_name destA "D:\\x".toList "C:\\src\\b.txt".toList).2.1 false
      (by decide),
    (dst_built_from_base_name destDir "D:\\x".toList "C:\\src\\my.dir\\".toList).2.2.1 1
      (by decide) (by decide) (by decide) (by decide) (fun j h1 h2 => absurd h1 (by omega))⟩

theorem narrowing_equals_full_search_witness :
    (ListSubclass.narrow exSearch (RunSearchFromOrigin exFS exSearch).rows "2023".toList).2.Perm
      (RunSearchFromOrigin exFS
        (ListSubclass.narrow exSearch (RunSearchFromOrigin exFS exSearch).rows
          "2023".toList).1).rows :=
  (narrowing_equals_full_search exFS exSearch (RunSearchFromOrigin exFS exSearch).rows
    "2023".toList (List.Perm.refl _)).2.2

/-! ### Calls of `DeleteDirectoryTree` -/

theorem Call.actsOn_deleteTarget {q t : WString} {c : Call} (h : c.actsOn q = true)
    (ht : c.deleteTarget = some t) : t = q := by
  cases c with
  | DeleteFileW p => simp [Call.actsOn, Call.deleteTarget] at h ht; rw [← ht, h]
  | RemoveDirectoryW p => simp [Call.actsOn, Call.deleteTarget] at h ht; rw [← ht, h]
  | MoveFileExW p d f =>
    cases d with
    | none => simp [Call.actsOn, Call.deleteTarget] at h ht; rw [← ht, h]
    | some d => simp [Call.actsOn] at h
  | _ => simp [Call.deleteTarget] at ht

theorem ClearReadonlyAndSystem_actsOn (env : Env) (p : WString) (hist : List Call) :
    ∀ c ∈ ClearReadonlyAndSystem env p hist, c.actsOn (c_str p) = true ∧ c.deleteTarget = none := by
  intro c hc
  unfold ClearReadonlyAndSystem at hc
  split at hc
  · simp only [List.mem_singleton] at hc
    subst hc
    simp [Call.actsOn, Call.deleteTarget]
  · dsimp only at hc
    split at hc
    · simp only [List.mem_cons, List.mem_singleton, List.not_mem_nil, or_false] at hc
      rcases hc with rfl | rfl <;> simp [Call.actsOn, Call.deleteTarget]
    · simp only [List.mem_singleton] at hc
      subst hc
      simp [Call.actsOn, Call.deleteTarget]

theorem DeleteDirectoryTree.leaf_actsOn (env : Env) (isLink : Bool) (child : WString)
    (hist : List Call) :
    ∀ c ∈ DeleteDirectoryTree.leaf env isLink child hist, c.actsOn (c_str child) = true := by
  intro c hc
  unfold DeleteDirectoryTree.leaf at hc
  have hcl := ClearReadonlyAndSystem_actsOn env child hist c
  cases isLink <;>
    simp only [Bool.false_eq_true, if_false, if_true] at hc <;>
    split at hc <;>
    simp only [List.mem_append, List.mem_cons, List.mem_singleton, List.not_mem_nil,
      or_false] at hc
  · rcases hc with hc | rfl | rfl
    · exact (hcl hc).1
    · simp [Call.actsOn]
    · simp [Call.actsOn]
  · rcases hc with hc | rfl
    · exact (hcl hc).1
    · simp [Call.actsOn]
  · rcases hc with hc | rfl | rfl
    · exact (hcl hc).1
    · simp [Call.actsOn]
    · simp [Call.actsOn]
  · rcases hc with hc | rfl
    · exact (hcl hc).1
    · simp [Call.actsOn]

theorem DeleteDirectoryTree.leaf_link (env : Env) (child : WString) (hist : List Call) :
    Call.RemoveDirectoryW (c_str child) ∈ DeleteDirectoryTree.leaf env true child hist := by
  unfold DeleteDirectoryTree.leaf
  simp only [if_true]
  split <;> simp

theorem DeleteDirectoryTree.finish_actsOn (env : Env) (path : WString) (hist : List Call) :
    ∀ c ∈ (DeleteDirectoryTree.finish env path hist).2,
      c.actsOn (c_str (DeleteDirectoryTree.strip path.length path)) = true := by
  intro c hc
  unfold DeleteDirectoryTree.finish at hc
  simp only [] at hc
  split at hc
  · simp only [List.append_assoc, List.mem_append, List.mem_cons, List.mem_singleton,
      List.not_mem_nil, or_false] at hc
    rcases hc with hc | rfl | rfl
    · exact (ClearReadonlyAndSystem_actsOn env _ hist c hc).1
    · simp [Call.actsOn]
    · simp [Call.actsOn]
  · simp only [List.mem_append, List.mem_singleton] at hc
    rcases hc with hc | rfl
    · exact (ClearReadonlyAndSystem_actsOn env _ hist c hc).1
    · simp [Call.actsOn]

/-- Every call of the delete loop concerns an entry that `walk` lists: a file or a
link is acted on under its own path; a directory that is no reparse point is
enumerated and then acted on under its path without trailing slashes. -/
theorem DeleteDirectoryTree.loop_sound (env : Env) :
    ∀ (es : List Entry) (folder : WString) (hist : List Call),
      ∀ c ∈ DeleteDirectoryTree.loop env (EnsureSlash folder) es hist,
        ∃ x ∈ walk folder es,
          (c.actsOn (c_str x.1) = true ∧ (x.2.fd.isDir = false ∨ x.2.fd.isReparse = true)) ∨
          (x.2.fd.isDir = true ∧ x.2.fd.isReparse = false ∧
            (c = Call.FindFirstFileW (c_str (EnsureSlash x.1 ++ ['*'])) ∨
              c.actsOn (c_str (DeleteDirectoryTree.strip x.1.length x.1)) = true)) := by
  intro es
  induction es using Entry.list_induction with
  | nil => intro folder hist c hc; simp [DeleteDirectoryTree.loop] at hc
  | cons fd ch rest ihc ihr =>
    intro folder hist c hc
    rw [DeleteDirectoryTree.loop] at hc
    rw [walk_cons]
    rcases List.mem_append.1 hc with hc | hc
    · rw [DeleteDirectoryTree.body] at hc
      by_cases hdots : fd.isDots = true
      · have hd : (fd.cFileName = ['.'] || fd.cFileName = ['.', '.']) = true := hdots
        simp [hd] at hc
      · have hdots : fd.isDots = false := by simpa using hdots
        have hd : (fd.cFileName = ['.'] || fd.cFileName = ['.', '.']) = false := hdots
        simp only [hd, Bool.false_eq_true, if_false] at hc
        have hself : (EnsureSlash folder ++ fd.cFileName, Entry.mk fd ch) ∈
            walkEntry folder (Entry.mk fd ch) := walkEntry_self folder (Entry.mk fd ch) hdots
        by_cases hdir : fd.isDir = true
        · have hdir2 : (fd.dwFileAttributes &&& FILE_ATTRIBUTE_DIRECTORY != 0) = true := hdir
          by_cases hrep : fd.isReparse = true
          · have hrep2 : (fd.dwFileAttributes &&& FILE_ATTRIBUTE_REPARSE_POINT != 0) = true := hrep
            simp only [hdir2, hrep2, if_true] at hc
            exact ⟨_, List.mem_append_left _ hself,
              Or.inl ⟨DeleteDirectoryTree.leaf_actsOn env true _ hist c hc, Or.inr hrep⟩⟩
          · have hrep : fd.isReparse = false := by simpa using hrep
            have hrep2 : (fd.dwFileAttributes &&& FILE_ATTRIBUTE_REPARSE_POINT != 0) = false :=
              hrep
            simp only [hdir2, hrep2, if_true, Bool.false_eq_true, if_false] at hc
            rcases List.mem_append.1 hc with hc | hc
            · rcases List.mem_append.1 hc with hc | hc
              · simp only [List.mem_singleton] at hc
                exact ⟨_, List.mem_append_left _ hself, Or.inr ⟨hdir, hrep, Or.inl hc⟩⟩
              · obtain ⟨x, hx, hx2⟩ := ihc (EnsureSlash folder ++ fd.cFileName) _ c hc
                exact ⟨x, List.mem_append_left _
                  (walkEntry_children folder (Entry.mk fd ch) hdots hdir hrep x hx), hx2⟩
            · exact ⟨_, List.mem_append_left _ hself, Or.inr ⟨hdir, hrep,
                Or.inr (DeleteDirectoryTree.finish_actsOn env _ _ c hc)⟩⟩
        · have hdir : fd.isDir = false := by simpa using hdir
          have hdir2 : (fd.dwFileAttributes &&& FILE_ATTRIBUTE_DIRECTORY != 0) = false := hdir
          simp only [hdir2, Bool.false_eq_true, if_false] at hc
          exact ⟨_, List.mem_append_left _ hself,
            Or.inl ⟨DeleteDirectoryTree.leaf_actsOn env false _ hist c hc, Or.inl hdir⟩⟩
    · obtain ⟨x, hx, hx2⟩ := ihr folder _ c hc
      exact ⟨x, List.mem_append_right _ hx, hx2⟩

/-- Every reparse-point directory that `walk` lists is removed as a link. -/
theorem DeleteDirectoryTree.loop_removes_links (env : Env) :
    ∀ (es : List Entry) (folder : WString) (hist : List Call),
      ∀ x ∈ walk folder es, x.2.fd.isDir = true → x.2.fd.isReparse = true →
        Call.RemoveDirectoryW (c_str x.1) ∈
          DeleteDirectoryTree.loop env (EnsureSlash folder) es hist := by
  intro es
  induction es using Entry.list_induction with
  | nil => intro folder hist x hx; simp [walk] at hx
  | cons fd ch rest ihc ihr =>
    intro folder hist x hx hxd hxr
    rw [walk_cons] at hx
    rw [DeleteDirectoryTree.loop]
    rcases List.mem_append.1 hx with hx | hx
    · apply List.mem_append_left
      rw [DeleteDirectoryTree.body]
      by_cases hdots : fd.isDots = true
      · simp [walkEntry, hdots] at hx
      · have hdots : fd.isDots = false := by simpa using hdots
        have hd : (fd.cFileName = ['.'] || fd.cFileName = ['.', '.']) = false := hdots
        simp only [hd, Bool.false_eq_true, if_false]
        simp only [walkEntry, hdots, Bool.false_eq_true, if_false, List.mem_cons] at hx
        rcases hx with hx | hx
        · subst hx
          have hxd : fd.isDir = true := hxd
          have hxr : fd.isReparse = true := hxr
          have hdir2 : (fd.dwFileAttributes &&& FILE_ATTRIBUTE_DIRECTORY != 0) = true := hxd
          have hrep2 : (fd.dwFileAttributes &&& FILE_ATTRIBUTE_REPARSE_POINT != 0) = true := hxr
          simp only [hdir2, hrep2, if_true]
          exact DeleteDirectoryTree.leaf_link env _ hist
        · by_cases hc : (fd.isDir && !fd.isReparse) = true
          · simp only [hc, if_true] at hx
            have hc2 : fd.isDir = true ∧ fd.isReparse = false := by simpa using hc
            have hdir2 : (fd.dwFileAttributes &&& FILE_ATTRIBUTE_DIRECTORY != 0) = true := hc2.1
            have hrep2 : (fd.dwFileAttributes &&& FILE_ATTRIBUTE_REPARSE_POINT != 0) = false :=
              hc2.2
            simp only [hdir2, hrep2, if_true, Bool.false_eq_true, if_false]
            apply List.mem_append_left
            apply List.mem_append_right
            exact ihc _ _ x hx hxd hxr
          · simp [hc] at hx
    · exact List.mem_append_right _ (ihr folder _ x hx hxd hxr)

/-! ### Paths of a tree with proper names -/

theorem DeleteDirectoryTree.strip_eq_self {p : WString} (h1 : p.getLast? ≠ some BSL)
    (h2 : p.getLast? ≠ some FSL) : ∀ n, DeleteDirectoryTree.strip n p = p := by
  intro n
  cases n with
  | zero => rfl
  | succ n => simp [DeleteDirectoryTree.strip, h1, h2]

theorem EnsureSlash_of_name {p : WString} (h0 : p ≠ []) (h1 : p.getLast? ≠ some BSL)
    (h2 : p.getLast? ≠ some FSL) : EnsureSlash p = p ++ [BSL] := by
  unfold EnsureSlash
  cases hq : p.getLast? with
  | none => exact absurd (List.getLast?_eq_none_iff.1 hq) h0
  | some c =>
    have hb : c ≠ BSL := fun e => h1 (by rw [hq, e])
    have hf : c ≠ FSL := fun e => h2 (by rw [hq, e])
    simp [hb, hf]

theorem properName_iff (n : WString) :
    properName n = true ↔ n ≠ [] ∧ BSL ∉ n ∧ FSL ∉ n ∧ NUL ∉ n := by
  simp [properName, validName, and_assoc]

theorem properName_last {n : WString} (h : properName n = true) (F : WString) :
    F ++ n ≠ [] ∧ (F ++ n).getLast? ≠ some BSL ∧ (F ++ n).getLast? ≠ some FSL := by
  obtain ⟨h0, hb, hf, _⟩ := (properName_iff n).1 h
  have hl : (F ++ n).getLast? = n.getLast? := by
    rw [List.getLast?_append_of_ne_nil _ h0]
  refine ⟨by simp [h0], ?_, ?_⟩
  · rw [hl]
    intro e
    exact hb (List.mem_of_getLast?_eq_some e)
  · rw [hl]
    intro e
    exact hf (List.mem_of_getLast?_eq_some e)

theorem properTree_mem : ∀ (es : List Entry) (e : Entry),
    properTree es = true → e ∈ es → properEntry e = true := by
  intro es
  induction es with
  | nil => intro e _ hm; simp at hm
  | cons a rest ih =>
    intro e hv hm
    rw [properTree, Bool.and_eq_true] at hv
    rcases List.mem_cons.1 hm with rfl | hm
    · exact hv.1
    · exact ih e hv.2 hm

theorem properEntry_name (e : Entry) (h : properEntry e = true) :
    properName e.fd.cFileName = true := by
  cases e with
  | mk fd ch =>
    rw [properEntry, Bool.and_eq_true] at h
    exact h.1

theorem properEntry_children (e : Entry) (h : properEntry e = true) :
    properTree e.children = true := by
  cases e with
  | mk fd ch =>
    rw [properEntry, Bool.and_eq_true] at h
    exact h.2

theorem At.proper {folder : WString} {es : List Entry} (hv : properTree es = true)
    {chain : List FindData} {p : WString} {e : Entry} (h : At folder es chain p e) :
    properEntry e = true := by
  induction h with
  | top e hm => exact properTree_mem es e hv hm
  | child chain p d e _ hm ih => exact properTree_mem _ e (properEntry_children d ih) hm

/-- The path of a located entry continues the folder and its separator, and ends
in a character of the entry's name. -/
theorem At.under {folder : WString} {es : List Entry} (hv : properTree es = true)
    {chain : List FindData} {p : WString} {e : Entry} (h : At folder es chain p e) :
    (∃ s, s ≠ [] ∧ p = EnsureSlash folder ++ s) ∧
      p ≠ [] ∧ p.getLast? ≠ some BSL ∧ p.getLast? ≠ some FSL := by
  have hp := h.proper hv
  induction h with
  | top e hm =>
    exact ⟨⟨_, ((properName_iff _).1 (properEntry_name e hp)).1, rfl⟩,
      properName_last (properEntry_name e hp) _⟩
  | child chain p d e hd hm ih =>
    obtain ⟨⟨s, _, hs⟩, h0, h1, h2⟩ := ih (hd.proper hv)
    refine ⟨⟨s ++ [BSL] ++ e.fd.cFileName, by simp, ?_⟩,
      properName_last (properEntry_name e hp) _⟩
    rw [EnsureSlash_of_name h0 h1 h2, hs]
    simp

theorem At.no_NUL {folder : WString} {es : List Entry} (hv : properTree es = true)
    (hN : NUL ∉ folder) {chain : List FindData} {p : WString} {e : Entry}
    (h : At folder es chain p e) : NUL ∉ p := by
  have hp := h.proper hv
  induction h with
  | top e hm =>
    intro hm
    rcases List.mem_append.1 hm with hm | hm
    · exact EnsureSlash_no_NUL hN hm
    · exact ((properName_iff _).1 (properEntry_name e hp)).2.2.2 hm
  | child chain p d e hd hm ih =>
    intro hm
    rcases List.mem_append.1 hm with hm | hm
    · exact EnsureSlash_no_NUL (ih (hd.proper hv)) hm
    · exact ((properName_iff _).1 (properEntry_name e hp)).2.2.2 hm

/-- Every delete-type call of `DeleteDirectoryTree` on `X` has its target within
`X`. -/
theorem DeleteDirectoryTree_targets_within (env : Env) (X : WString) (hist : List Call)
    (hv : properTree (env.FindFiles hist (c_str (EnsureSlash X ++ ['*']))) = true) :
    ∀ c ∈ (DeleteDirectoryTree env X hist).2, ∀ t, c.deleteTarget = some t → Within X t := by
  intro c hc t ht
  unfold DeleteDirectoryTree at hc
  simp only [] at hc
  rcases List.mem_append.1 hc with hc | hc
  · rcases List.mem_append.1 hc with hc | hc
    · simp only [List.mem_singleton] at hc
      subst hc
      simp [Call.deleteTarget] at ht
    · obtain ⟨x, hx, hx2⟩ := DeleteDirectoryTree.loop_sound env _ X _ c hc
      obtain ⟨chain, hat, _, _⟩ := walk_sound _ X x hx
      obtain ⟨⟨s, _, hs⟩, h0, h1, h2⟩ := hat.under hv
      have key : c.actsOn (c_str x.1) = true := by
        rcases hx2 with ⟨h, _⟩ | ⟨_, _, h | h⟩
        · exact h
        · subst h
          simp [Call.deleteTarget] at ht
        · rwa [DeleteDirectoryTree.strip_eq_self h1 h2] at h
      right; right
      exact ⟨s, by rw [Call.actsOn_deleteTarget key ht, hs]⟩
  · right; left
    exact Call.actsOn_deleteTarget (DeleteDirectoryTree.finish_actsOn env X _ c hc) ht

/-! ### A path determines its entry -/

theorem distinctNames_mem : ∀ (es : List Entry) (a b : Entry), distinctNames es = true →
    a ∈ es → b ∈ es → a.fd.cFileName = b.fd.cFileName → a = b := by
  intro es
  induction es with
  | nil => intro a b _ ha; simp at ha
  | cons x rest ih =>
    intro a b hd ha hb hn
    rw [distinctNames, Bool.and_eq_true, Bool.and_eq_true] at hd
    obtain ⟨⟨hany, _⟩, hrest⟩ := hd
    have hany : ∀ r ∈ rest, r.fd.cFileName ≠ x.fd.cFileName := by
      simpa using hany
    rcases List.mem_cons.1 ha with ha2 | ha2
    · rcases List.mem_cons.1 hb with hb2 | hb2
      · rw [ha2, hb2]
      · exact absurd (by rw [← hn, ha2]) (hany b hb2)
    · rcases List.mem_cons.1 hb with hb2 | hb2
      · exact absurd (by rw [hn, hb2]) (hany a ha2)
      · exact ih a b hrest ha2 hb2 hn

theorem distinctNames_entry : ∀ (es : List Entry) (e : Entry), distinctNames es = true →
    e ∈ es → distinctNames e.children = true := by
  intro es
  induction es with
  | nil => intro e _ hm; simp at hm
  | cons x rest ih =>
    intro e hd hm
    rw [distinctNames, Bool.and_eq_true, Bool.and_eq_true] at hd
    rcases List.mem_cons.1 hm with rfl | hm
    · cases e with
      | mk fd ch => exact hd.1.2
    · exact ih e hd.2 hm

theorem At.distinct {folder : WString} {es : List Entry} (hv : distinctNames es = true)
    {chain : List FindData} {p : WString} {e : Entry} (h : At folder es chain p e) :
    distinctNames e.children = true := by
  induction h with
  | top e hm => exact distinctNames_entry es e hv hm
  | child chain p d e _ hm ih => exact distinctNames_entry _ e ih hm

/-- In a tree with proper, pairwise distinct names a path belongs to one
position only. -/
theorem At.path_inj {folder : WString} {es : List Entry} (hv : properTree es = true)
    (hd : distinctNames es = true) {c1 : List FindData} {p1 : WString} {e1 : Entry}
    (h1 : At folder es c1 p1 e1) :
    ∀ {c2 : List FindData} {p2 : WString} {e2 : Entry}, At folder es c2 p2 e2 → p1 = p2 →
      e1 = e2 ∧ c1 = c2 := by
  induction h1 with
  | top e1 hm1 =>
    intro c2 p2 e2 h2 heq
    cases h2 with
    | top _ hm2 =>
      exact ⟨distinctNames_mem es e1 e2 hd hm1 hm2 (List.append_cancel_left heq), rfl⟩
    | child chain p d _ hpd hm2 =>
      exfalso
      obtain ⟨⟨s, _, hs⟩, h0, hb, hf⟩ := hpd.under hv
      rw [EnsureSlash_of_name h0 hb hf, hs] at heq
      have hn : e1.fd.cFileName = s ++ [BSL] ++ e2.fd.cFileName :=
        List.append_cancel_left (show EnsureSlash folder ++ e1.fd.cFileName =
          EnsureSlash folder ++ (s ++ [BSL] ++ e2.fd.cFileName) by rw [heq]; simp)
      have := ((properName_iff _).1 (properEntry_name e1 (properTree_mem es e1 hv hm1))).2.1
      exact this (by rw [hn]; simp)
  | child chain p d e1 hpd hm1 ih =>
    intro c2 p2 e2 h2 heq
    obtain ⟨⟨s, _, hs⟩, h0, hb, hf⟩ := hpd.under hv
    have hp1 := properTree_mem _ e1 (properEntry_children d (hpd.proper hv)) hm1
    cases h2 with
    | top _ hm2 =>
      exfalso
      rw [EnsureSlash_of_name h0 hb hf, hs] at heq
      have hn : e2.fd.cFileName = s ++ [BSL] ++ e1.fd.cFileName :=
        List.append_cancel_left (show EnsureSlash folder ++ e2.fd.cFileName =
          EnsureSlash folder ++ (s ++ [BSL] ++ e1.fd.cFileName) by rw [← heq]; simp)
      have := ((properName_iff _).1 (properEntry_name e2 (properTree_mem es e2 hv hm2))).2.1
      exact this (by rw [hn]; simp)
    | child chain2 q d2 _ hqd hm2 =>
      obtain ⟨_, k0, kb, kf⟩ := hqd.under hv
      have hp2 := properTree_mem _ e2 (properEntry_children d2 (hqd.proper hv)) hm2
      rw [EnsureSlash_of_name h0 hb hf, EnsureSlash_of_name k0 kb kf] at heq
      simp only [List.append_assoc, List.singleton_append] at heq
      obtain ⟨hpq, hn⟩ := split_at_last_unique heq
        ((properName_iff _).1 (properEntry_name e1 hp1)).2.1
        ((properName_iff _).1 (properEntry_name e2 hp2)).2.1
      obtain ⟨hde, hch⟩ := ih hqd hpq
      subst hde
      subst hch
      exact ⟨distinctNames_mem _ e1 e2 (hpd.distinct hd) hm1 hm2 hn, rfl⟩

/-- If the path of one position, followed by a separator, starts the path of
another, the first entry is an ancestor of the second. -/
theorem At.ancestor_of_beneath {folder : WString} {es : List Entry} (hv : properTree es = true)
    (hd : distinctNames es = true) {c2 : List FindData} {p2 : WString} {e2 : Entry}
    (h2 : At folder es c2 p2 e2) :
    ∀ {c1 : List FindData} {p1 : WString} {e1 : Entry}, At folder es c1 p1 e1 →
      p1 ++ [BSL] <+: p2 → e1.fd ∈ c2 := by
  induction h2 with
  | top e2 hm2 =>
    intro c1 p1 e1 h1 hpre
    exfalso
    obtain ⟨⟨s, _, hs⟩, _⟩ := h1.under hv
    rw [hs, List.append_assoc, List.prefix_append_right_inj] at hpre
    obtain ⟨r, hr⟩ := hpre
    have := ((properName_iff _).1 (properEntry_name e2 (properTree_mem es e2 hv hm2))).2.1
    exact this (by rw [← hr]; simp)
  | child chain p d e2 hpd hm2 ih =>
    intro c1 p1 e1 h1 hpre
    obtain ⟨_, h0, hb, hf⟩ := hpd.under hv
    have hp2 := properTree_mem _ e2 (properEntry_children d (hpd.proper hv)) hm2
    have hn2 := ((properName_iff _).1 (properEntry_name e2 hp2)).2.1
    rw [EnsureSlash_of_name h0 hb hf] at hpre
    obtain ⟨q, hq⟩ := hpre
    rcases List.append_eq_append_iff.1 hq with ⟨a, ha1, ha2⟩ | ⟨a, ha1, ha2⟩
    · -- p ++ [BSL] = (p1 ++ [BSL]) ++ a
      rcases List.eq_nil_or_concat a with rfl | ⟨a2, x, rfl⟩
      · simp only [List.append_nil] at ha1
        have hpp : p1 = p := (List.append_inj_left' ha1.symm rfl)
        have := (h1.path_inj hv hd hpd hpp).1
        simp [this]
      · have h3 : p ++ [BSL] = (p1 ++ [BSL] ++ a2) ++ [x] := by
          rw [ha1]; simp
        have h4 : p = p1 ++ [BSL] ++ a2 := List.append_inj_left' h3 rfl
        have := ih h1 ⟨a2, h4.symm⟩
        simp [this]
    · -- p1 ++ [BSL] = (p ++ [BSL]) ++ a
      rcases List.eq_nil_or_concat a with rfl | ⟨a2, x, rfl⟩
      · simp only [List.append_nil] at ha1
        have hpp : p1 = p := (List.append_inj_left' ha1 rfl)
        have := (h1.path_inj hv hd hpd hpp).1
        simp [this]
      · exfalso
        have h3 : p1 ++ [BSL] = (p ++ [BSL] ++ a2) ++ [x] := by
          rw [ha1]; simp
        have hx : BSL = x := by
          have := List.append_inj_right' h3 rfl
          simpa using this
        apply hn2
        rw [ha2, ← hx]
        simp

theorem c_str_length_le (s : WString) : (c_str s).length ≤ s.length :=
  (List.takeWhile_prefix _).length_le

theorem DeleteDirectoryTree.strip_length_le : ∀ (n : Nat) (p : WString),
    (DeleteDirectoryTree.strip n p).length ≤ p.length := by
  intro n
  induction n with
  | zero => intro p; exact Nat.le_refl _
  | succ n ih =>
    intro p
    rw [DeleteDirectoryTree.strip]
    split
    · exact Nat.le_trans (ih _) (by simp)
    · exact Nat.le_refl _

theorem EnsureSlash_length_ge (p : WString) : p.length ≤ (EnsureSlash p).length := by
  unfold EnsureSlash
  split
  · exact Nat.le_refl _
  · split
    · simp
    · exact Nat.le_refl _

theorem Call.actsOn_unique {a b : WString} {c : Call} (ha : c.actsOn a = true)
    (hb : c.actsOn b = true) : a = b := by
  cases c with
  | MoveFileExW p d f =>
    cases d with
    | none => simp [Call.actsOn] at ha hb; rw [← ha, ← hb]
    | some d => simp [Call.actsOn] at ha
  | GetFileAttributesW p => simp [Call.actsOn] at ha hb; rw [← ha, ← hb]
  | SetFileAttributesW p x => simp [Call.actsOn] at ha hb; rw [← ha, ← hb]
  | DeleteFileW p => simp [Call.actsOn] at ha hb; rw [← ha, ← hb]
  | RemoveDirectoryW p => simp [Call.actsOn] at ha hb; rw [← ha, ← hb]
  | _ => simp [Call.actsOn] at ha

/-- C20: when `DeleteDirectoryTree` runs on a root whose tree (proper names,
pairwise distinct in each directory) holds a reparse-point directory `L` at path
`pL`, then `L` is removed with `RemoveDirectoryW` on `pL` itself, provided the
directories above it are ordinary ones, and no call enumerates, deletes or
changes the attributes of `pL\` or of any path that continues `pL\`: `L` is
never enumerated and nothing beneath it is touched. -/
theorem DeleteDirectoryTree_leaves_link_target_alone (env : Env) (root : WString)
    (hist : List Call) (chain : List FindData) (pL : WString) (L : Entry)
    (hroot : NUL ∉ root)
    (hnames : properTree (env.FindFiles hist (c_str (EnsureSlash root ++ ['*']))) = true)
    (hdist : distinctNames (env.FindFiles hist (c_str (EnsureSlash root ++ ['*']))) = true)
    (hL : At root (env.FindFiles hist (c_str (EnsureSlash root ++ ['*']))) chain pL L)
    (hdir : L.fd.isDir = true) (hrep : L.fd.isReparse = true) :
    ((∀ a ∈ chain, a.isDir = true ∧ a.isReparse = false ∧ a.isDots = false) →
      L.fd.isDots = false →
      Call.RemoveDirectoryW (c_str pL) ∈ (DeleteDirectoryTree env root hist).2) ∧
    ∀ c ∈ (DeleteDirectoryTree env root hist).2, ∀ t,
      (c = Call.FindFirstFileW t ∨ c.actsOn t = true) → ¬ (c_str (EnsureSlash pL) <+: t) := by
  obtain ⟨⟨s, hs0, hs⟩, h0, hb, hf⟩ := hL.under hnames
  have hN := hL.no_NUL hnames hroot
  have hE : c_str (EnsureSlash pL) = pL ++ [BSL] := by
    rw [c_str_eq_self (EnsureSlash_no_NUL hN), EnsureSlash_of_name h0 hb hf]
  have hlen : (EnsureSlash root).length + 1 < (pL ++ [BSL]).length := by
    have : 0 < s.length := List.length_pos.2 hs0
    rw [hs]
    simp only [List.length_append, List.length_singleton]
    omega
  constructor
  · intro hchain hdots
    have hw : (pL, L) ∈ walk root _ := walk_complete root _ hL hchain hdots
    unfold DeleteDirectoryTree
    simp only []
    apply List.mem_append_left
    apply List.mem_append_right
    exact DeleteDirectoryTree.loop_removes_links env _ root _ (pL, L) hw hdir hrep
  · intro c hc t ht hpre
    rw [hE] at hpre
    have hle := hpre.length_le
    -- an entry at path `q` that lies beneath `pL\` or at `pL` contradicts the walk
    have beneath : ∀ x ∈ walk root (env.FindFiles hist (c_str (EnsureSlash root ++ ['*']))),
        pL ++ [BSL] <+: x.1 → False := by
      intro x hx hp
      obtain ⟨cx, hat, _, hcx⟩ := walk_sound _ root x hx
      have := hat.ancestor_of_beneath hnames hdist hL hp
      have := (hcx _ this).2.1
      rw [hrep] at this
      exact absurd this (by decide)
    unfold DeleteDirectoryTree at hc
    simp only [] at hc
    rcases List.mem_append.1 hc with hc | hc
    · rcases List.mem_append.1 hc with hc | hc
      · simp only [List.mem_singleton] at hc
        subst hc
        rcases ht with ht | ht
        · injection ht with ht
          rw [← ht] at hle
          have := c_str_length_le (EnsureSlash root ++ ['*'])
          simp only [List.length_append, List.length_singleton] at this hle hlen
          omega
        · simp [Call.actsOn] at ht
      · obtain ⟨x, hx, hx2⟩ := DeleteDirectoryTree.loop_sound env _ root _ c hc
        obtain ⟨cx, hat, _, hcx⟩ := walk_sound _ root x hx
        obtain ⟨_, x0, xb, xf⟩ := hat.under hnames
        have xN := hat.no_NUL hnames hroot
        have acts : c.actsOn (c_str x.1) = true → False := by
          intro ha
          rcases ht with ht | ht
          · subst ht
            simp [Call.actsOn] at ha
          · rw [Call.actsOn_unique ht ha, c_str_eq_self xN] at hpre
            exact beneath x hx hpre
        rcases hx2 with ⟨h, _⟩ | ⟨_, hxr, h | h⟩
        · exact acts h
        · subst h
          rcases ht with ht | ht
          · injection ht with ht
            rw [← ht, EnsureSlash_of_name x0 xb xf,
              c_str_eq_self (by
                intro hm
                simp only [List.mem_append, List.mem_singleton] at hm
                rcases hm with (hm | hm) | hm
                · exact xN hm
                · exact absurd hm (by decide)
                · exact absurd hm (by decide))] at hpre
            obtain ⟨q, hq⟩ := hpre
            rcases List.eq_nil_or_concat q with rfl | ⟨q2, y, rfl⟩
            · have := List.append_inj_right' (by simpa using hq : pL ++ [BSL] = (x.1 ++ [BSL]) ++ ['*']) rfl
              exact absurd this (by decide)
            · have h3 : (pL ++ [BSL] ++ q2) ++ [y] = (x.1 ++ [BSL]) ++ ['*'] := by
                rw [← hq]; simp
              have h4 : pL ++ [BSL] ++ q2 = x.1 ++ [BSL] := List.append_inj_left' h3 rfl
              rcases List.eq_nil_or_concat q2 with rfl | ⟨q3, z, rfl⟩
              · have hpx : pL = x.1 := by simpa using h4
                have := (hL.path_inj hnames hdist hat hpx).1
                rw [← this, hrep] at hxr
                exact absurd hxr (by decide)
              · have h5 : (pL ++ [BSL] ++ q3) ++ [z] = x.1 ++ [BSL] := by
                  rw [← h4]; simp
                exact beneath x hx ⟨q3, List.append_inj_left' h5 rfl⟩
          · simp [Call.actsOn] at ht
        · rw [DeleteDirectoryTree.strip_eq_self xb xf] at h
          exact acts h
    · have ha := DeleteDirectoryTree.finish_actsOn env root _ c hc
      rcases ht with ht | ht
      · subst ht
        simp [Call.actsOn] at ha
      · rw [Call.actsOn_unique ht ha] at hle
        have h1 := c_str_length_le (DeleteDirectoryTree.strip root.length root)
        have h2 := DeleteDirectoryTree.strip_length_le root.length root
        have h3 := EnsureSlash_length_ge root
        omega

/-! ### Calls of `CopyDirectoryTree` -/

theorem OpFlags.click_false (fl : OpFlags) : fl.click false = fl := rfl

theorem CopyDirectoryTree.loop_cons (env : Env) (s d : WString) (e : Entry)
    (rest : List Entry) (hist : List Call) (fl : OpFlags) :
    CopyDirectoryTree.loop env s d (e :: rest) hist fl =
      if (CopyDirectoryTree.body env s d e hist fl).1 then
        ((CopyDirectoryTree.loop env s d rest
            (hist ++ (CopyDirectoryTree.body env s d e hist fl).2.2)
            (CopyDirectoryTree.body env s d e hist fl).2.1).1,
          (CopyDirectoryTree.loop env s d rest
            (hist ++ (CopyDirectoryTree.body env s d e hist fl).2.2)
            (CopyDirectoryTree.body env s d e hist fl).2.1).2.1,
          (CopyDirectoryTree.body env s d e hist fl).2.2 ++
            (CopyDirectoryTree.loop env s d rest
              (hist ++ (CopyDirectoryTree.body env s d e hist fl).2.2)
              (CopyDirectoryTree.body env s d e hist fl).2.1).2.2)
      else CopyDirectoryTree.body env s d e hist fl := by
  rw [CopyDirectoryTree.loop]
  rcases h : CopyDirectoryTree.body env s d e hist fl with ⟨ok, fl1, c1⟩
  cases ok <;> simp

/-- A call `CopyDirectoryTree` can make. -/
theorem CopyDirectoryTree.loop_calls (env : Env) :
    ∀ (es : List Entry) (s d : WString) (hist : List Call) (fl : OpFlags),
      ∀ c ∈ (CopyDirectoryTree.loop env s d es hist fl).2.2,
        (∃ p, c = Call.CreateDirectoryW p) ∨ (∃ p, c = Call.FindFirstFileW p) ∨
          ∃ a b, c = Call.CopyFileExW a b := by
  intro es
  induction es using Entry.list_induction with
  | nil => intro s d hist fl c hc; simp [CopyDirectoryTree.loop] at hc
  | cons fd ch rest ihc ihr =>
    intro s d hist fl c hc
    have hb : ∀ c ∈ (CopyDirectoryTree.body env s d (Entry.mk fd ch) hist fl).2.2,
        (∃ p, c = Call.CreateDirectoryW p) ∨ (∃ p, c = Call.FindFirstFileW p) ∨
          ∃ a b, c = Call.CopyFileExW a b := by
      intro c hc
      rw [CopyDirectoryTree.body] at hc
      split at hc
      · simp at hc
      · split at hc
        · simp at hc
        · split at hc
          · simp at hc
          · simp only [] at hc
            split at hc
            · split at hc
              · simp only [List.mem_singleton] at hc
                exact Or.inl ⟨_, hc⟩
              · simp only [List.mem_append, List.mem_singleton] at hc
                rcases hc with (hc | hc) | hc
                · exact Or.inl ⟨_, hc⟩
                · exact Or.inr (Or.inl ⟨_, hc⟩)
                · exact ihc _ _ _ _ c hc
            · simp only [List.mem_singleton] at hc
              exact Or.inr (Or.inr ⟨_, _, hc⟩)
    rw [CopyDirectoryTree.loop_cons] at hc
    split at hc
    · simp only [List.mem_append] at hc
      rcases hc with hc | hc
      · exact hb c hc
      · exact ihr _ _ _ _ c hc
    · exact hb c hc

theorem CopyDirectoryTree_calls (env : Env) (s d : WString) (hist : List Call) (fl : OpFlags) :
    ∀ c ∈ (CopyDirectoryTree env s d hist fl).2.2,
      (∃ p, c = Call.CreateDirectoryW p) ∨ (∃ p, c = Call.FindFirstFileW p) ∨
        ∃ a b, c = Call.CopyFileExW a b := by
  intro c hc
  unfold CopyDirectoryTree at hc
  simp only [] at hc
  split at hc
  · simp only [List.mem_singleton] at hc
    exact Or.inl ⟨_, hc⟩
  · simp only [List.mem_append, List.mem_singleton] at hc
    rcases hc with (hc | hc) | hc
    · exact Or.inl ⟨_, hc⟩
    · exact Or.inr (Or.inl ⟨_, hc⟩)
    · exact CopyDirectoryTree.loop_calls env _ _ _ _ _ c hc

theorem CopyDirectoryTree_no_delete (env : Env) (s d : WString) (hist : List Call)
    (fl : OpFlags) :
    ∀ c ∈ (CopyDirectoryTree env s d hist fl).2.2, c.deleteTarget = none := by
  intro c hc
  rcases CopyDirectoryTree_calls env s d hist fl c hc with ⟨p, rfl⟩ | ⟨p, rfl⟩ | ⟨a, b, rfl⟩ <;>
    rfl

/-- Without a Cancel press during the copies the flags stay as they are. -/
theorem CopyDirectoryTree.loop_flags (env : Env)
    (hquiet : ∀ h a b, (env.CopyFileExW h a b).2 = false) :
    ∀ (es : List Entry) (s d : WString) (hist : List Call) (fl : OpFlags),
      (CopyDirectoryTree.loop env s d es hist fl).2.1 = fl := by
  intro es
  induction es using Entry.list_induction with
  | nil => intro s d hist fl; simp [CopyDirectoryTree.loop]
  | cons fd ch rest ihc ihr =>
    intro s d hist fl
    have hb : (CopyDirectoryTree.body env s d (Entry.mk fd ch) hist fl).2.1 = fl := by
      rw [CopyDirectoryTree.body]
      split
      · rfl
      · split
        · rfl
        · split
          · rfl
          · simp only []
            split
            · split
              · rfl
              · exact ihc _ _ _ _
            · simp only [hquiet, OpFlags.click_false]
    rw [CopyDirectoryTree.loop_cons]
    split
    · simp only [ihr, hb]
    · exact hb

theorem CopyDirectoryTree_flags (env : Env)
    (hquiet : ∀ h a b, (env.CopyFileExW h a b).2 = false)
    (s d : WString) (hist : List Call) (fl : OpFlags) :
    (CopyDirectoryTree env s d hist fl).2.1 = fl := by
  unfold CopyDirectoryTree
  simp only []
  split
  · rfl
  · exact CopyDirectoryTree.loop_flags env hquiet _ _ _ _ _

/-! ### The copy or move of one item -/

theorem SameVolume_calls (env : Env) (a b : WString) (hist : List Call) :
    ∀ c ∈ (SameVolume env a b hist).2, ∃ p, c = Call.GetVolumePathNameW p := by
  intro c hc
  unfold SameVolume at hc
  split at hc
  · simp only [List.mem_singleton] at hc
    exact ⟨_, hc⟩
  · simp only [] at hc
    split at hc <;>
      · simp only [List.mem_append, List.mem_singleton] at hc
        rcases hc with hc | hc <;> exact ⟨_, hc⟩

theorem SameVolume_true (env : Env) (a b : WString) (hist : List Call)
    (h : (SameVolume env a b hist).1 = true) :
    (SameVolume env a b hist).2 =
      [Call.GetVolumePathNameW (c_str a), Call.GetVolumePathNameW (c_str b)] := by
  unfold SameVolume at h ⊢
  split at h
  · simp at h
  · simp only [] at h ⊢
    split at h
    · simp at h
    · simp

theorem DeleteDirectoryTree_result (env : Env) (X : WString) (hist : List Call)
    (h : ∀ h, env.RemoveDirectoryW h (c_str (DeleteDirectoryTree.strip X.length X)) = false) :
    (DeleteDirectoryTree env X hist).1 = false := by
  simp [DeleteDirectoryTree, DeleteDirectoryTree.finish, h]

theorem DeleteDirectoryTree_removes_root (env : Env) (X : WString) (hist : List Call) :
    Call.RemoveDirectoryW (c_str (DeleteDirectoryTree.strip X.length X)) ∈
      (DeleteDirectoryTree env X hist).2 := by
  unfold DeleteDirectoryTree
  simp only []
  apply List.mem_append_right
  unfold DeleteDirectoryTree.finish
  simp only []
  split <;> simp

theorem RunClipboardOperationWithUI.epilogue_allOk (env : Env) (hist c : List Call)
    (t : TransferOut) (h : t.ok = false ∨ t.allOk = false) :
    (RunClipboardOperationWithUI.epilogue env hist c t).allOk = false := by
  unfold RunClipboardOperationWithUI.epilogue
  simp only []
  split
  · rfl
  · split <;> rcases h with h | h <;> simp [h]

/-- C12: for a Move item whose source and destination `SameVolume` finds on one
volume, the engine makes the two volume queries and then exactly one call, the
rename `MoveFileExW(src, dst, MOVEFILE_REPLACE_EXISTING)`; no `CopyFileExW`, no
call of `CopyDirectoryTree` and no delete is made for it. -/
theorem transfer_same_volume_renames_only (env : Env) (isDir : Bool) (src dst : WString)
    (hist : List Call) (fl : OpFlags) (allOk : Bool)
    (h : (SameVolume env src dst hist).1 = true) :
    (RunClipboardOperationWithUI.transfer env false isDir src dst hist fl allOk).calls =
        [Call.GetVolumePathNameW (c_str src), Call.GetVolumePathNameW (c_str dst),
          Call.MoveFileExW (c_str src) (some (c_str dst)) MOVEFILE_REPLACE_EXISTING] ∧
      ∀ c ∈ (RunClipboardOperationWithUI.transfer env false isDir src dst hist fl allOk).calls,
        c.isByteCopy = false ∧ c.deleteTarget = none ∧
          ∀ p, c ≠ Call.CreateDirectoryW p ∧ c ≠ Call.FindFirstFileW p := by
  have hc : (RunClipboardOperationWithUI.transfer env false isDir src dst hist fl allOk).calls =
      [Call.GetVolumePathNameW (c_str src), Call.GetVolumePathNameW (c_str dst),
        Call.MoveFileExW (c_str src) (some (c_str dst)) MOVEFILE_REPLACE_EXISTING] := by
    have h2 := SameVolume_true env src dst hist h
    unfold RunClipboardOperationWithUI.transfer
    simp only [Bool.false_eq_true, if_false]
    rcases hv : SameVolume env src dst hist with ⟨ok, cv⟩
    rw [hv] at h h2
    simp only at h h2
    subst h
    subst h2
    rfl
  refine ⟨hc, ?_⟩
  intro c hm
  rw [hc] at hm
  simp only [List.mem_cons, List.mem_singleton, List.not_mem_nil, or_false] at hm
  rcases hm with rfl | rfl | rfl <;>
    exact ⟨rfl, rfl, fun p => ⟨by simp, by simp⟩⟩

/-- C13: for a cross-volume Move item (`SameVolume` false) whose copy step fails
(`CopyDirectoryTree` for a directory, `CopyFileExW` for a file), the item
reports `ok = false`, so the loop records it as failed; the cleanup of the
destination is attempted; and every delete-type call of the item has its target
within the destination, hence, for a destination that does not overlap the
source, none on the source path or beneath it. -/
theorem transfer_failed_copy_spares_source (env : Env) (isDir : Bool) (src dst : WString)
    (hist : List Call) (fl : OpFlags) (allOk : Bool)
    (hnames : ∀ h p, properTree (env.FindFiles h p) = true)
    (hvol : (SameVolume env src dst hist).1 = false)
    (hcopy : if isDir then
        (CopyDirectoryTree env src dst (hist ++ (SameVolume env src dst hist).2) fl).1 = false
      else (env.CopyFileExW (hist ++ (SameVolume env src dst hist).2)
        (c_str src) (c_str dst)).1 = false)
    (hdisj : ∀ t, Within dst t → ¬ Within src t) :
    (RunClipboardOperationWithUI.transfer env false isDir src dst hist fl allOk).ok = false ∧
      (∀ hist2 c1, (RunClipboardOperationWithUI.epilogue env hist2 c1
        (RunClipboardOperationWithUI.transfer env false isDir src dst hist fl allOk)).allOk
          = false) ∧
      (if isDir then Call.RemoveDirectoryW (c_str (DeleteDirectoryTree.strip dst.length dst))
        else Call.DeleteFileW (c_str dst)) ∈
        (RunClipboardOperationWithUI.transfer env false isDir src dst hist fl allOk).calls ∧
      ∀ c ∈ (RunClipboardOperationWithUI.transfer env false isDir src dst hist fl allOk).calls,
        ∀ t, c.deleteTarget = some t → Within dst t ∧ ¬ Within src t := by
  have key : (RunClipboardOperationWithUI.transfer env false isDir src dst hist fl allOk).ok
        = false ∧
      (if isDir then Call.RemoveDirectoryW (c_str (DeleteDirectoryTree.strip dst.length dst))
        else Call.DeleteFileW (c_str dst)) ∈
        (RunClipboardOperationWithUI.transfer env false isDir src dst hist fl allOk).calls ∧
      ∀ c ∈ (RunClipboardOperationWithUI.transfer env false isDir src dst hist fl allOk).calls,
        ∀ t, c.deleteTarget = some t → Within dst t := by
    unfold RunClipboardOperationWithUI.transfer
    simp only [Bool.false_eq_true, if_false]
    have hcv := SameVolume_calls env src dst hist
    rcases hv : SameVolume env src dst hist with ⟨ok, cv⟩
    rw [hv] at hvol hcopy hcv
    simp only at hvol hcopy hcv
    subst hvol
    simp only []
    cases isDir with
    | true =>
      simp only [if_true] at hcopy ⊢
      have hcd := CopyDirectoryTree_no_delete env src dst (hist ++ cv) fl
      rcases hcp : CopyDirectoryTree env src dst (hist ++ cv) fl with ⟨ok, fl1, c⟩
      rw [hcp] at hcopy hcd
      simp only at hcopy hcd
      subst hcopy
      simp only []
      refine ⟨trivial, ?_, ?_⟩
      · exact List.mem_append_right _ (DeleteDirectoryTree_removes_root env dst _)
      · intro c2 hm t ht
        simp only [List.mem_append] at hm
        rcases hm with (hm | hm) | hm
        · obtain ⟨p, rfl⟩ := hcv c2 hm
          simp [Call.deleteTarget] at ht
        · rw [hcd c2 hm] at ht
          simp at ht
        · exact DeleteDirectoryTree_targets_within env dst _ (hnames _ _) c2 hm t ht
    | false =>
      simp only [Bool.false_eq_true, if_false] at hcopy ⊢
      simp only [hcopy, Bool.false_eq_true, if_false]
      refine ⟨trivial, by simp, ?_⟩
      intro c2 hm t ht
      simp only [List.mem_append, List.mem_singleton] at hm
      rcases hm with (hm | hm) | hm
      · obtain ⟨p, rfl⟩ := hcv c2 hm
        simp [Call.deleteTarget] at ht
      · subst hm
        simp [Call.deleteTarget] at ht
      · subst hm
        simp only [Call.deleteTarget, Option.some.injEq] at ht
        exact Or.inl ht.symm
  exact ⟨key.1, fun hist2 c1 => RunClipboardOperationWithUI.epilogue_allOk env hist2 c1 _
    (Or.inl key.1), key.2.1, fun c hm t ht => ⟨key.2.2 c hm t ht, hdisj t (key.2.2 c hm t ht)⟩⟩

theorem ClearReadonlyAndSystem_within (env : Env) (p : WString) (hist : List Call) :
    ∀ c ∈ ClearReadonlyAndSystem env p hist, c.deleteTarget = none :=
  fun c hc => (ClearReadonlyAndSystem_actsOn env p hist c hc).2

/-! ### The batch loop -/

theorem RunClipboardOperationWithUI.transfer_allOk_false (env : Env) (isCopy isDir : Bool)
    (src dst : WString) (hist : List Call) (fl : OpFlags) :
    (RunClipboardOperationWithUI.transfer env isCopy isDir src dst hist fl false).allOk
      = false := by
  unfold RunClipboardOperationWithUI.transfer
  repeat' first | rfl | split | split_ifs | (simp only []; split_ifs)

theorem RunClipboardOperationWithUI.item_allOk_false (env : Env) (D : WString)
    (isCopy : Bool) (f : WString) (hist : List Call) (fl : OpFlags) :
    (RunClipboardOperationWithUI.item env D isCopy f hist fl false).allOk = false := by
  unfold RunClipboardOperationWithUI.item
  simp only []
  split
  · rfl
  · split
    · rfl
    · exact RunClipboardOperationWithUI.epilogue_allOk env _ _ _
        (Or.inr (RunClipboardOperationWithUI.transfer_allOk_false ..))

/-- Once `allOk` is false it stays false to the end of the batch. -/
theorem RunClipboardOperationWithUI.loop_allOk_false (env : Env) (D : WString)
    (isCopy : Bool) :
    ∀ (files : List WString) (hist : List Call) (fl : OpFlags),
      (RunClipboardOperationWithUI.loop env D isCopy files hist fl false).allOk = false := by
  intro files
  induction files with
  | nil => intro hist fl; rfl
  | cons f rest ih =>
    intro hist fl
    rw [RunClipboardOperationWithUI.loop]
    split
    · rfl
    · simp only []
      split
      · exact RunClipboardOperationWithUI.item_allOk_false ..
      · simp only [RunClipboardOperationWithUI.item_allOk_false, ih]

/-- The loop over `pre ++ post` is the loop over `pre`, continued over `post`
unless it was cancelled. -/
theorem RunClipboardOperationWithUI.loop_split (env : Env) (D : WString) (isCopy : Bool) :
    ∀ (pre post : List WString) (hist : List Call) (fl : OpFlags) (allOk : Bool),
      (RunClipboardOperationWithUI.loop env D isCopy pre hist fl allOk).cancelled = false →
      RunClipboardOperationWithUI.loop env D isCopy (pre ++ post) hist fl allOk =
        { calls := (RunClipboardOperationWithUI.loop env D isCopy pre hist fl allOk).calls ++
            (RunClipboardOperationWithUI.loop env D isCopy post
              (hist ++ (RunClipboardOperationWithUI.loop env D isCopy pre hist fl allOk).calls)
              (RunClipboardOperationWithUI.loop env D isCopy pre hist fl allOk).flags
              (RunClipboardOperationWithUI.loop env D isCopy pre hist fl allOk).allOk).calls,
          flags := (RunClipboardOperationWithUI.loop env D isCopy post
              (hist ++ (RunClipboardOperationWithUI.loop env D isCopy pre hist fl allOk).calls)
              (RunClipboardOperationWithUI.loop env D isCopy pre hist fl allOk).flags
              (RunClipboardOperationWithUI.loop env D isCopy pre hist fl allOk).allOk).flags,
          allOk := (RunClipboardOperationWithUI.loop env D isCopy post
              (hist ++ (RunClipboardOperationWithUI.loop env D isCopy pre hist fl allOk).calls)
              (RunClipboardOperationWithUI.loop env D isCopy pre hist fl allOk).flags
              (RunClipboardOperationWithUI.loop env D isCopy pre hist fl allOk).allOk).allOk,
          cancelled := (RunClipboardOperationWithUI.loop env D isCopy post
              (hist ++ (RunClipboardOperationWithUI.loop env D isCopy pre hist fl allOk).calls)
              (RunClipboardOperationWithUI.loop env D isCopy pre hist fl allOk).flags
              (RunClipboardOperationWithUI.loop env D isCopy pre hist fl allOk).allOk).cancelled }
          := by
  intro pre
  induction pre with
  | nil =>
    intro post hist fl allOk _
    simp [RunClipboardOperationWithUI.loop]
  | cons f rest ih =>
    intro post hist fl allOk hc
    rw [List.cons_append, RunClipboardOperationWithUI.loop]
    rw [RunClipboardOperationWithUI.loop] at hc
    by_cases h1 : fl.cancel = true
    · simp [h1] at hc
    · simp only [h1, Bool.false_eq_true, if_false] at hc ⊢
      by_cases h2 : (RunClipboardOperationWithUI.item env D isCopy f hist fl allOk).stop = true
      · simp [h2] at hc
      · simp only [h2, Bool.false_eq_true, if_false] at hc ⊢
        rw [ih post _ _ _ hc]
        conv => rhs; rw [RunClipboardOperationWithUI.loop]
        simp only [h1, h2, Bool.false_eq_true, if_false, List.append_assoc]

/-- C14: for a cross-volume Move item whose copy succeeds and whose source cannot
be deleted (`DeleteFileW` on the file, the final `RemoveDirectoryW` of
`DeleteDirectoryTree` on the directory), the item reports `allOk = false`, and
`allOk` stays false whatever the rest of the batch does, so the batch returns
`Cancelled` or `Failed`; every delete-type call of the item has its target
within the source, hence, for a destination that does not overlap the source,
none touches the copy. -/
theorem transfer_failed_source_delete_keeps_copy (env : Env) (isDir : Bool)
    (src dst : WString) (hist : List Call) (fl : OpFlags) (allOk : Bool)
    (hnames : ∀ h p, properTree (env.FindFiles h p) = true)
    (hvol : (SameVolume env src dst hist).1 = false)
    (hcopy : if isDir then
        (CopyDirectoryTree env src dst (hist ++ (SameVolume env src dst hist).2) fl).1 = true
      else (env.CopyFileExW (hist ++ (SameVolume env src dst hist).2)
        (c_str src) (c_str dst)).1 = true)
    (hdel : ∀ h, if isDir then
        env.RemoveDirectoryW h (c_str (DeleteDirectoryTree.strip src.length src)) = false
      else env.DeleteFileW h (c_str src) = false)
    (hdisj : ∀ t, Within src t → ¬ Within dst t) :
    (RunClipboardOperationWithUI.transfer env false isDir src dst hist fl allOk).ok = true ∧
      (RunClipboardOperationWithUI.transfer env false isDir src dst hist fl allOk).allOk
        = false ∧
      (∀ D isCopy rest hist2 c1 hist3 fl3,
        (RunClipboardOperationWithUI.loop env D isCopy rest hist3 fl3
          (RunClipboardOperationWithUI.epilogue env hist2 c1
            (RunClipboardOperationWithUI.transfer env false isDir src dst hist fl allOk)).allOk
          ).allOk = false) ∧
      ∀ c ∈ (RunClipboardOperationWithUI.transfer env false isDir src dst hist fl allOk).calls,
        ∀ t, c.deleteTarget = some t → Within src t ∧ ¬ Within dst t := by
  have key : (RunClipboardOperationWithUI.transfer env false isDir src dst hist fl allOk).ok
        = true ∧
      (RunClipboardOperationWithUI.transfer env false isDir src dst hist fl allOk).allOk
        = false ∧
      ∀ c ∈ (RunClipboardOperationWithUI.transfer env false isDir src dst hist fl allOk).calls,
        ∀ t, c.deleteTarget = some t → Within src t := by
    unfold RunClipboardOperationWithUI.transfer
    simp only [Bool.false_eq_true, if_false]
    have hcv := SameVolume_calls env src dst hist
    rcases hv : SameVolume env src dst hist with ⟨ok, cv⟩
    rw [hv] at hvol hcopy hcv
    simp only at hvol hcopy hcv
    subst hvol
    simp only []
    cases isDir with
    | true =>
      simp only [if_true] at hcopy hdel ⊢
      have hcd := CopyDirectoryTree_no_delete env src dst (hist ++ cv) fl
      rcases hcp : CopyDirectoryTree env src dst (hist ++ cv) fl with ⟨ok, fl1, c⟩
      rw [hcp] at hcopy hcd
      simp only at hcopy hcd
      subst hcopy
      simp only [DeleteDirectoryTree_result env src _ hdel]
      refine ⟨trivial, by simp, ?_⟩
      intro c2 hm t ht
      simp only [List.mem_append] at hm
      rcases hm with (hm | hm) | hm
      · obtain ⟨p, rfl⟩ := hcv c2 hm
        simp [Call.deleteTarget] at ht
      · rw [hcd c2 hm] at ht
        simp at ht
      · exact DeleteDirectoryTree_targets_within env src _ (hnames _ _) c2 hm t ht
    | false =>
      simp only [Bool.false_eq_true, if_false] at hcopy hdel ⊢
      simp only [hcopy, hdel, if_true, Bool.not_false]
      refine ⟨trivial, trivial, ?_⟩
      intro c2 hm t ht
      simp only [List.mem_append, List.mem_cons, List.mem_singleton, List.not_mem_nil,
        or_false] at hm
      rcases hm with ((hm | hm) | hm) | hm | hm
      · obtain ⟨p, rfl⟩ := hcv c2 hm
        simp [Call.deleteTarget] at ht
      · subst hm
        simp [Call.deleteTarget] at ht
      · rw [ClearReadonlyAndSystem_within env src _ c2 hm] at ht
        simp at ht
      · subst hm
        simp only [Call.deleteTarget, Option.some.injEq] at ht
        exact Or.inl ht.symm
      · subst hm
        simp only [Call.deleteTarget, Option.some.injEq] at ht
        exact Or.inl ht.symm
  refine ⟨key.1, key.2.1, ?_, fun c hm t ht => ⟨key.2.2 c hm t ht, hdisj t (key.2.2 c hm t ht)⟩⟩
  intro D isCopy rest hist2 c1 hist3 fl3
  rw [RunClipboardOperationWithUI.epilogue_allOk env hist2 c1 _ (Or.inr key.2.1)]
  exact RunClipboardOperationWithUI.loop_allOk_false env D isCopy rest hist3 fl3

theorem RunClipboardOperationWithUI.transfer_flags (env : Env)
    (hquiet : ∀ h a b, (env.CopyFileExW h a b).2 = false) (isCopy isDir : Bool)
    (src dst : WString) (hist : List Call) (fl : OpFlags) (allOk : Bool) :
    (RunClipboardOperationWithUI.transfer env isCopy isDir src dst hist fl allOk).flags
      = fl := by
  have hcd := CopyDirectoryTree_flags env hquiet
  unfold RunClipboardOperationWithUI.transfer
  split
  · split
    · have := hcd src dst hist fl
      rcases h : CopyDirectoryTree env src dst hist fl with ⟨ok, fl1, c⟩
      rw [h] at this
      exact this
    · simp only [hquiet, OpFlags.click_false]
  · split
    · rfl
    · rename_i cv _
      split
      · have := hcd src dst (hist ++ cv) fl
        rcases h : CopyDirectoryTree env src dst (hist ++ cv) fl with ⟨ok, fl1, c⟩
        rw [h] at this
        simp only at this
        subst this
        cases ok <;> rfl
      · simp only [hquiet, OpFlags.click_false]
        split_ifs <;> rfl

theorem RunClipboardOperationWithUI.item_calls (env : Env) (D : WString) (isCopy : Bool)
    (f : WString) (hist : List Call) (fl : OpFlags) (allOk : Bool) :
    ∃ tl, (RunClipboardOperationWithUI.item env D isCopy f hist fl allOk).calls =
      Call.GetFileAttributesW (c_str (StripTrailingSlashes f)) :: tl := by
  unfold RunClipboardOperationWithUI.item
  simp only []
  split
  · exact ⟨[], rfl⟩
  · split
    · exact ⟨[], rfl⟩
    · unfold RunClipboardOperationWithUI.epilogue
      simp only []
      split_ifs <;> exact ⟨_, by simp only [List.singleton_append, List.cons_append]; rfl⟩

/-- Without a Cancel press and without an abort-like error code an item neither
stops the batch nor changes the flags. -/
theorem RunClipboardOperationWithUI.item_quiet (env : Env)
    (hpump : ∀ h, env.PumpMessages h = false)
    (hquiet : ∀ h a b, (env.CopyFileExW h a b).2 = false)
    (herr : ∀ h, env.GetLastError h ≠ ERROR_REQUEST_ABORTED ∧
      env.GetLastError h ≠ ERROR_CANCELLED)
    (D : WString) (isCopy : Bool) (f : WString) (hist : List Call) (allOk : Bool) :
    (RunClipboardOperationWithUI.item env D isCopy f hist
        { cancel := false, uiCancel := false } allOk).stop = false ∧
      (RunClipboardOperationWithUI.item env D isCopy f hist
        { cancel := false, uiCancel := false } allOk).flags
        = { cancel := false, uiCancel := false } := by
  unfold RunClipboardOperationWithUI.item
  simp only []
  split
  · exact ⟨rfl, rfl⟩
  · split
    · exact ⟨rfl, rfl⟩
    · have e1 : ∀ h, (env.GetLastError h == ERROR_REQUEST_ABORTED) = false :=
        fun h => beq_false_of_ne (herr h).1
      have e2 : ∀ h, (env.GetLastError h == ERROR_CANCELLED) = false :=
        fun h => beq_false_of_ne (herr h).2
      unfold RunClipboardOperationWithUI.epilogue
      simp only [RunClipboardOperationWithUI.transfer_flags env hquiet, hpump,
        OpFlags.click_false, Bool.or_self, Bool.false_or, e1, e2,
        Bool.and_false, Bool.false_eq_true, if_false]
      constructor <;> first | rfl | trivial

theorem RunClipboardOperationWithUI.loop_quiet (env : Env)
    (hpump : ∀ h, env.PumpMessages h = false)
    (hquiet : ∀ h a b, (env.CopyFileExW h a b).2 = false)
    (herr : ∀ h, env.GetLastError h ≠ ERROR_REQUEST_ABORTED ∧
      env.GetLastError h ≠ ERROR_CANCELLED)
    (D : WString) (isCopy : Bool) :
    ∀ (files : List WString) (hist : List Call) (allOk : Bool),
      (RunClipboardOperationWithUI.loop env D isCopy files hist
          { cancel := false, uiCancel := false } allOk).cancelled = false ∧
        (RunClipboardOperationWithUI.loop env D isCopy files hist
          { cancel := false, uiCancel := false } allOk).flags
          = { cancel := false, uiCancel := false } ∧
        (files.map (fun f => Call.GetFileAttributesW (c_str (StripTrailingSlashes f)))).Sublist
          (RunClipboardOperationWithUI.loop env D isCopy files hist
            { cancel := false, uiCancel := false } allOk).calls := by
  intro files
  induction files with
  | nil => intro hist allOk; exact ⟨rfl, rfl, List.Sublist.slnil⟩
  | cons f rest ih =>
    intro hist allOk
    obtain ⟨h1, h2⟩ := RunClipboardOperationWithUI.item_quiet env hpump hquiet herr D isCopy
      f hist allOk
    obtain ⟨tl, h3⟩ := RunClipboardOperationWithUI.item_calls env D isCopy f hist
      { cancel := false, uiCancel := false } allOk
    rw [RunClipboardOperationWithUI.loop]
    simp only [Bool.false_eq_true, if_false, h1, h2]
    obtain ⟨i1, i2, i3⟩ := ih
      (hist ++ (RunClipboardOperationWithUI.item env D isCopy f hist
        { cancel := false, uiCancel := false } allOk).calls)
      (RunClipboardOperationWithUI.item env D isCopy f hist
        { cancel := false, uiCancel := false } allOk).allOk
    refine ⟨i1, i2, ?_⟩
    have key : ∀ (c X : List Call),
        c = Call.GetFileAttributesW (c_str (StripTrailingSlashes f)) :: tl →
        (rest.map (fun f => Call.GetFileAttributesW (c_str (StripTrailingSlashes f)))).Sublist X →
        ((f :: rest).map
          (fun f => Call.GetFileAttributesW (c_str (StripTrailingSlashes f)))).Sublist (c ++ X) := by
      intro c X hc hX
      rw [hc, List.map_cons, List.cons_append]
      exact List.Sublist.cons₂ _ (List.Sublist.trans hX (List.sublist_append_right _ _))
    exact key _ _ h3 i3

/-- What `RunClipboardOperationWithUI` returns once the progress window exists. -/
theorem RunClipboardOperationWithUI_started (env : Env) (g : ClipState) (D : WString)
    (hist : List Call) (hmode : g.g_clipMode ≠ ClipMode.None) (hfiles : g.g_clipFiles ≠ [])
    (hwin : env.CreateOpWindow hist = true) :
    RunClipboardOperationWithUI env g D hist =
      (if (RunClipboardOperationWithUI.loop env D (decide (g.g_clipMode = ClipMode.Copy))
            g.g_clipFiles hist { cancel := false, uiCancel := false } true).cancelled
        then OpResult.Cancelled
        else if (RunClipboardOperationWithUI.loop env D (decide (g.g_clipMode = ClipMode.Copy))
            g.g_clipFiles hist { cancel := false, uiCancel := false } true).allOk
          then OpResult.Success else OpResult.Failed,
        { g_clipMode := ClipMode.None, g_clipFiles := [] },
        (RunClipboardOperationWithUI.loop env D (decide (g.g_clipMode = ClipMode.Copy))
            g.g_clipFiles hist { cancel := false, uiCancel := false } true).calls) := by
  have h1 : (decide (g.g_clipMode = ClipMode.None) || g.g_clipFiles.isEmpty) = false := by
    simp [hmode, hfiles]
  unfold RunClipboardOperationWithUI
  simp only [h1, hwin, Bool.false_eq_true, if_false, Bool.not_true]
  split <;> rfl

/-- C15, amended: in a batch during which Cancel is never pressed and no failing
call leaves `ERROR_REQUEST_ABORTED` or `ERROR_CANCELLED` as last error, if item
`fk` fails (started with `allOk = true` it ends with `allOk = false`), the batch
returns `Failed`, and after the calls made up to and including that item the
source of every later item is probed with `GetFileAttributesW`, in batch
order. -/
theorem RunClipboardOperationWithUI_failure_does_not_abort (env : Env) (g : ClipState)
    (D : WString) (hist : List Call) (pre : List WString) (fk : WString)
    (post : List WString) (isCopy : Bool)
    (hmode : g.g_clipMode = if isCopy then ClipMode.Copy else ClipMode.Move)
    (hfiles : g.g_clipFiles = pre ++ fk :: post)
    (hwin : env.CreateOpWindow hist = true)
    (hpump : ∀ h, env.PumpMessages h = false)
    (hquiet : ∀ h a b, (env.CopyFileExW h a b).2 = false)
    (herr : ∀ h, env.GetLastError h ≠ ERROR_REQUEST_ABORTED ∧
      env.GetLastError h ≠ ERROR_CANCELLED)
    (hfail : (RunClipboardOperationWithUI.item env D isCopy fk
      (hist ++ (RunClipboardOperationWithUI.loop env D isCopy pre hist
        { cancel := false, uiCancel := false } true).calls)
      { cancel := false, uiCancel := false } true).allOk = false) :
    (RunClipboardOperationWithUI env g D hist).1 = OpResult.Failed ∧
      ∃ B, (RunClipboardOperationWithUI env g D hist).2.2 =
          (RunClipboardOperationWithUI.loop env D isCopy (pre ++ [fk]) hist
            { cancel := false, uiCancel := false } true).calls ++ B ∧
        (post.map (fun f => Call.GetFileAttributesW (c_str (StripTrailingSlashes f)))).Sublist
          B := by
  have hq := RunClipboardOperationWithUI.loop_quiet env hpump hquiet herr D isCopy
  have hdec : decide (g.g_clipMode = ClipMode.Copy) = isCopy := by
    rw [hmode]; cases isCopy <;> rfl
  have hne : g.g_clipMode ≠ ClipMode.None := by
    rw [hmode]; cases isCopy <;> simp
  rw [RunClipboardOperationWithUI_started env g D hist hne (by rw [hfiles]; simp) hwin, hdec,
    hfiles, show pre ++ fk :: post = (pre ++ [fk]) ++ post by simp,
    RunClipboardOperationWithUI.loop_split env D isCopy (pre ++ [fk]) post hist _ true
      (hq (pre ++ [fk]) hist true).1]
  -- the state after item `fk`
  have hk : (RunClipboardOperationWithUI.loop env D isCopy (pre ++ [fk]) hist
      { cancel := false, uiCancel := false } true).allOk = false := by
    rw [RunClipboardOperationWithUI.loop_split env D isCopy pre [fk] hist _ true
      (hq pre hist true).1]
    simp only [(hq pre hist true).2.1]
    obtain ⟨h1, h2⟩ := RunClipboardOperationWithUI.item_quiet env hpump hquiet herr D isCopy
      fk (hist ++ (RunClipboardOperationWithUI.loop env D isCopy pre hist
        { cancel := false, uiCancel := false } true).calls)
      (RunClipboardOperationWithUI.loop env D isCopy pre hist
        { cancel := false, uiCancel := false } true).allOk
    rw [RunClipboardOperationWithUI.loop]
    simp only [Bool.false_eq_true, if_false, h1, RunClipboardOperationWithUI.loop]
    cases ha : (RunClipboardOperationWithUI.loop env D isCopy pre hist
        { cancel := false, uiCancel := false } true).allOk with
    | true => exact hfail
    | false => exact RunClipboardOperationWithUI.item_allOk_false ..
  simp only [(hq (pre ++ [fk]) hist true).2.1, hk]
  obtain ⟨i1, _, i3⟩ := hq post (hist ++ (RunClipboardOperationWithUI.loop env D isCopy
    (pre ++ [fk]) hist { cancel := false, uiCancel := false } true).calls) false
  simp only [i1, RunClipboardOperationWithUI.loop_allOk_false, Bool.false_eq_true, if_false]
  exact ⟨trivial, _, rfl, i3⟩

/-- C16, amended: if no Cancel press is pending when item `f` of the batch
`pre ++ f :: post` starts, the cancel flag is up when the item ends, and either
another item follows or the item itself saw the flag, then
`RunClipboardOperationWithUI` returns `Cancelled`, and the calls of the whole
batch are those of the batch `pre` alone followed by those of item `f`: nothing
is called for a later item and nothing more for an earlier one. -/
theorem RunClipboardOperationWithUI_cancel_stops_batch (env : Env) (g : ClipState)
    (D : WString) (hist : List Call) (pre : List WString) (f : WString)
    (post : List WString) (isCopy : Bool)
    (hmode : g.g_clipMode = if isCopy then ClipMode.Copy else ClipMode.Move)
    (hfiles : g.g_clipFiles = pre ++ f :: post)
    (hwin : env.CreateOpWindow hist = true)
    (hpre : (RunClipboardOperationWithUI.loop env D isCopy pre hist
      { cancel := false, uiCancel := false } true).cancelled = false)
    (hclear : (RunClipboardOperationWithUI.loop env D isCopy pre hist
      { cancel := false, uiCancel := false } true).flags.cancel = false)
    (hcancel : (RunClipboardOperationWithUI.item env D isCopy f
      (hist ++ (RunClipboardOperationWithUI.loop env D isCopy pre hist
        { cancel := false, uiCancel := false } true).calls)
      (RunClipboardOperationWithUI.loop env D isCopy pre hist
        { cancel := false, uiCancel := false } true).flags
      (RunClipboardOperationWithUI.loop env D isCopy pre hist
        { cancel := false, uiCancel := false } true).allOk).flags.cancel = true)
    (hseen : post ≠ [] ∨ (RunClipboardOperationWithUI.item env D isCopy f
      (hist ++ (RunClipboardOperationWithUI.loop env D isCopy pre hist
        { cancel := false, uiCancel := false } true).calls)
      (RunClipboardOperationWithUI.loop env D isCopy pre hist
        { cancel := false, uiCancel := false } true).flags
      (RunClipboardOperationWithUI.loop env D isCopy pre hist
        { cancel := false, uiCancel := false } true).allOk).stop = true) :
    (RunClipboardOperationWithUI env g D hist).1 = OpResult.Cancelled ∧
      (RunClipboardOperationWithUI env g D hist).2.2 =
        (RunClipboardOperationWithUI.loop env D isCopy pre hist
          { cancel := false, uiCancel := false } true).calls ++
        (RunClipboardOperationWithUI.item env D isCopy f
          (hist ++ (RunClipboardOperationWithUI.loop env D isCopy pre hist
            { cancel := false, uiCancel := false } true).calls)
          (RunClipboardOperationWithUI.loop env D isCopy pre hist
            { cancel := false, uiCancel := false } true).flags
          (RunClipboardOperationWithUI.loop env D isCopy pre hist
            { cancel := false, uiCancel := false } true).allOk).calls := by
  have hdec : decide (g.g_clipMode = ClipMode.Copy) = isCopy := by
    rw [hmode]; cases isCopy <;> rfl
  have hne : g.g_clipMode ≠ ClipMode.None := by
    rw [hmode]; cases isCopy <;> simp
  rw [RunClipboardOperationWithUI_started env g D hist hne (by rw [hfiles]; simp) hwin, hdec,
    hfiles, RunClipboardOperationWithUI.loop_split env D isCopy pre (f :: post) hist _ true
      hpre]
  generalize (RunClipboardOperationWithUI.loop env D isCopy pre hist
    { cancel := false, uiCancel := false } true) = rp at hclear hcancel hseen ⊢
  rw [RunClipboardOperationWithUI.loop]
  simp only [hclear, Bool.false_eq_true, if_false]
  generalize (RunClipboardOperationWithUI.item env D isCopy f (hist ++ rp.calls) rp.flags
    rp.allOk) = it at hcancel hseen ⊢
  by_cases hs : it.stop = true
  · simp [hs]
  · rcases hseen with hp | hp
    · cases post with
      | nil => exact absurd rfl hp
      | cons p ps =>
        rw [RunClipboardOperationWithUI.loop]
        simp [hs, hcancel]
    · exact absurd hp hs

/-- C17, amended: when the mode is not `None`, the list is not empty and the
progress window is created, `RunClipboardOperationWithUI` returns with
`g_clipFiles` empty and `g_clipMode` `None`, whatever its result; in every
other case it returns `Failed`, makes no call, and leaves both as they
were. -/
theorem RunClipboardOperationWithUI_clears_state_once_started (env : Env) (g : ClipState)
    (D : WString) (hist : List Call) :
    (g.g_clipMode ≠ ClipMode.None ∧ g.g_clipFiles ≠ [] ∧ env.CreateOpWindow hist = true →
      (RunClipboardOperationWithUI env g D hist).2.1 =
        { g_clipMode := ClipMode.None, g_clipFiles := [] }) ∧
    (¬ (g.g_clipMode ≠ ClipMode.None ∧ g.g_clipFiles ≠ [] ∧ env.CreateOpWindow hist = true) →
      RunClipboardOperationWithUI env g D hist = (OpResult.Failed, g, [])) := by
  constructor
  · rintro ⟨h1, h2, h3⟩
    rw [RunClipboardOperationWithUI_started env g D hist h1 h2 h3]
  · intro h
    unfold RunClipboardOperationWithUI
    by_cases h1 : g.g_clipMode = ClipMode.None
    · simp [h1]
    · by_cases h2 : g.g_clipFiles = []
      · simp [h2]
      · have h3 : env.CreateOpWindow hist = false := by
          cases hw : env.CreateOpWindow hist with
          | false => rfl
          | true => exact absurd ⟨h1, h2, hw⟩ h
        simp [h3]

/-! ### Clipboard bridge -/

theorem SetClipboardFileDrop.copy_eq (uninit : Nat → Char) :
    ∀ (files : List WString) (off : Nat), (∀ f ∈ files, NUL ∉ f) →
      SetClipboardFileDrop.copy uninit files off = files.flatMap (fun f => f ++ [NUL]) := by
  intro files
  induction files with
  | nil => intro off _; rfl
  | cons f rest ih =>
    intro off h
    rw [SetClipboardFileDrop.copy]
    simp only [c_str_eq_self (h f (List.mem_cons_self _ _)), Nat.sub_self, List.range_zero,
      List.map_nil, List.append_nil, List.flatMap_cons]
    rw [ih _ (fun x hx => h x (List.mem_cons_of_mem _ hx))]

theorem DragQueryFileW.go_eq :
    ∀ (files : List WString) (n : Nat), files.length ≤ n →
      (∀ f ∈ files, f ≠ [] ∧ NUL ∉ f) →
      DragQueryFileW.go n (files.flatMap (fun f => f ++ [NUL]) ++ [NUL]) = files := by
  intro files
  induction files with
  | nil =>
    intro n _ _
    cases n with
    | zero => rfl
    | succ n => simp [DragQueryFileW.go]
  | cons f rest ih =>
    intro n hn h
    obtain ⟨hf0, hfN⟩ := h f (List.mem_cons_self _ _)
    cases n with
    | zero => simp at hn
    | succ n =>
      have htw : List.takeWhile (fun c => c != NUL)
          ((f :: rest).flatMap (fun f => f ++ [NUL]) ++ [NUL]) = f := by
        rw [List.flatMap_cons, List.append_assoc, List.append_assoc,
          List.takeWhile_append_of_pos (fun c hc => by
            have : c ≠ NUL := fun e => hfN (e ▸ hc)
            simpa using this)]
        simp
      rw [DragQueryFileW.go]
      simp only [htw]
      have he : f.isEmpty = false := by
        cases f with
        | nil => exact absurd rfl hf0
        | cons _ _ => rfl
      simp only [he, Bool.false_eq_true, if_false]
      congr 1
      rw [List.flatMap_cons, List.append_assoc, List.append_assoc,
        show f.length + 1 = (f ++ [NUL]).length by simp, ← List.append_assoc f,
        List.drop_left]
      exact ih n (by simpa using hn) (fun x hx => h x (List.mem_cons_of_mem _ hx))

theorem GetClipboardFileDrop.loop_eq :
    ∀ (files : List WString), (∀ f ∈ files, f ≠ [] ∧ NUL ∉ f) →
      GetClipboardFileDrop.loop files = files := by
  intro files
  induction files with
  | nil => intro _; rfl
  | cons f rest ih =>
    intro h
    obtain ⟨hf0, hfN⟩ := h f (List.mem_cons_self _ _)
    rw [GetClipboardFileDrop.loop]
    have hl : f.length ≠ 0 := fun e => hf0 (List.length_eq_zero.1 e)
    have he : f.isEmpty = false := by
      cases f with
      | nil => exact absurd rfl hf0
      | cons _ _ => rfl
    simp only [hl, if_false, c_str_eq_self hfN, he, Bool.not_false, if_true]
    rw [ih (fun x hx => h x (List.mem_cons_of_mem _ hx))]

/-- C19, amended: when every clipboard call succeeds, the list is not empty, no
path in it is empty or contains a NUL, and the mode is Copy or Move, reading the
medium with `GetClipboardFileDrop` right after `SetClipboardFileDrop(paths,
mode)` succeeds and yields the same paths in the same order and the same
mode. -/
theorem GetClipboardFileDrop_after_SetClipboardFileDrop (api : ClipboardApi)
    (files : List WString) (mode : ClipMode) (cb : Clipboard)
    (hopen : api.OpenClipboard = true)
    (hdrop : api.GlobalAllocDrop = true ∧ api.GlobalLockDrop = true ∧
      api.SetClipboardDataDrop = true)
    (heff : api.GlobalAllocEffect = true ∧ api.GlobalLockEffect = true ∧
      api.SetClipboardDataEffect = true)
    (hne : files ≠ []) (hfiles : ∀ f ∈ files, f ≠ [] ∧ NUL ∉ f)
    (hmode : mode = ClipMode.Copy ∨ mode = ClipMode.Move) :
    GetClipboardFileDrop api (SetClipboardFileDrop api files mode cb) = (true, files, mode) := by
  have he : files.isEmpty = false := by
    cases files with
    | nil => exact absurd rfl hne
    | cons _ _ => rfl
  have hbuf : DragQueryFileW (SetClipboardFileDrop.copy api.uninit files 0 ++ [NUL]) = files := by
    rw [SetClipboardFileDrop.copy_eq _ _ _ (fun f hf => (hfiles f hf).2)]
    unfold DragQueryFileW
    apply DragQueryFileW.go_eq files _ _ hfiles
    have : files.length ≤ (files.flatMap (fun f => f ++ [NUL])).length := by
      clear hne hfiles he
      induction files with
      | nil => simp
      | cons f rest ih =>
        rw [List.flatMap_cons]
        simp only [List.length_cons, List.length_append, List.length_singleton]
        omega
    rw [List.length_append]
    omega
  unfold SetClipboardFileDrop GetClipboardFileDrop
  simp only [he, hopen, hdrop.1, hdrop.2.1, hdrop.2.2, heff.1, heff.2.1, heff.2.2,
    Bool.false_eq_true, if_false,
    Bool.not_true, if_true, hbuf, GetClipboardFileDrop.loop_eq files hfiles, Bool.not_false]
  rcases hmode with rfl | rfl <;> simp [DROPEFFECT_MOVE, DROPEFFECT_COPY]

/-- C18, amended: when a destination folder is defined (Folder view, or Search
view started from a folder), `Browser_PasteClipboardIntoCurrent` runs the batch
on exactly the paths and the mode that `GetClipboardFileDrop` reads from the
external medium whenever that read succeeds, whatever the internal state is;
when the read yields nothing it runs on the internal list and mode, and it runs
nothing when those are empty too. In the other views it runs nothing. -/
theorem Browser_PasteClipboardIntoCurrent_prefers_external (env : Env) (api : ClipboardApi)
    (reopen : Bool) (st : PasteState) (hist : List Call) :
    (∀ D files mode, Browser_PasteClipboardIntoCurrent.dstFolder st = some D →
      GetClipboardFileDrop api st.clipboard = (true, files, mode) →
      (Browser_PasteClipboardIntoCurrent env api reopen st hist).2 =
          (RunClipboardOperationWithUI env { g_clipMode := mode, g_clipFiles := files } D
            hist).2.2 ∧
        (Browser_PasteClipboardIntoCurrent env api reopen st hist).1.clip =
          (RunClipboardOperationWithUI env { g_clipMode := mode, g_clipFiles := files } D
            hist).2.1) ∧
    (∀ D, Browser_PasteClipboardIntoCurrent.dstFolder st = some D →
      (GetClipboardFileDrop api st.clipboard).1 = false →
      (st.clip.g_clipMode ≠ ClipMode.None ∧ st.clip.g_clipFiles ≠ [] →
        Browser_PasteClipboardIntoCurrent env api reopen st hist =
          ({ st with clip := (RunClipboardOperationWithUI env st.clip D hist).2.1 },
            (RunClipboardOperationWithUI env st.clip D hist).2.2)) ∧
      (st.clip.g_clipMode = ClipMode.None ∨ st.clip.g_clipFiles = [] →
        Browser_PasteClipboardIntoCurrent env api reopen st hist = (st, []))) ∧
    (Browser_PasteClipboardIntoCurrent.dstFolder st = none →
      Browser_PasteClipboardIntoCurrent env api reopen st hist = (st, [])) := by
  refine ⟨?_, ?_, ?_⟩
  · intro D files mode hD hget
    unfold Browser_PasteClipboardIntoCurrent
    simp only [hD, hget]
    constructor <;> first | rfl | trivial
  · intro D hD hget
    rcases hg : GetClipboardFileDrop api st.clipboard with ⟨ok, fs, m⟩
    rw [hg] at hget
    simp only at hget
    subst hget
    constructor
    · rintro ⟨h1, h2⟩
      unfold Browser_PasteClipboardIntoCurrent
      simp [hD, hg, h1, h2]
    · intro h
      unfold Browser_PasteClipboardIntoCurrent
      rcases h with h | h <;> simp [hD, hg, h]
  · intro hD
    unfold Browser_PasteClipboardIntoCurrent
    simp only [hD]

/-! ### Examples -/

theorem Within_head {X t : WString} {a : Char} (h : Within X t) (ha : a ≠ NUL)
    (hX : X.head? = some a)
    (hs : (DeleteDirectoryTree.strip X.length X).head? = some a) : t.head? = some a := by
  have key : ∀ s : WString, s.head? = some a → (c_str s).head? = some a := by
    intro s hs
    cases s with
    | nil => simp at hs
    | cons x r =>
      simp only [List.head?_cons, Option.some.injEq] at hs
      subst hs
      have : (x != NUL) = true := by simpa using ha
      simp [c_str, List.takeWhile_cons, this]
  rcases h with rfl | rfl | ⟨s, rfl⟩
  · exact key _ hX
  · exact key _ hs
  · apply key
    cases X with
    | nil => simp at hX
    | cons x r =>
      simp only [List.head?_cons, Option.some.injEq] at hX
      subst hX
      unfold EnsureSlash
      split
      · simp
      · split <;> simp

theorem exEnv_FindFiles_proper (h : List Call) (p : WString) :
    properTree (exEnv.FindFiles h p) = true := by
  show properTree (if p = "C:\\s\\d\\*".toList then exDirTree else []) = true
  split
  · decide
  · rfl

/-- Two paths that start with different characters do not overlap. -/
theorem Within_disjoint {X Y : WString} (a b : Char) (ha : a ≠ NUL) (hb : b ≠ NUL)
    (hab : a ≠ b) (hX : X.head? = some a)
    (hXs : (DeleteDirectoryTree.strip X.length X).head? = some a) (hY : Y.head? = some b)
    (hYs : (DeleteDirectoryTree.strip Y.length Y).head? = some b) :
    ∀ t, Within X t → ¬ Within Y t := by
  intro t hx hy
  have h1 := Within_head hx ha hX hXs
  have h2 := Within_head hy hb hY hYs
  rw [h1] at h2
  exact hab (Option.some.inj h2)

theorem transfer_same_volume_renames_only_witness :
    (RunClipboardOperationWithUI.transfer exEnv false false "C:\\s\\a.txt".toList
        "C:\\t\\a.txt".toList [] { cancel := false, uiCancel := false } true).calls =
      [Call.GetVolumePathNameW "C:\\s\\a.txt".toList,
        Call.GetVolumePathNameW "C:\\t\\a.txt".toList,
        Call.MoveFileExW "C:\\s\\a.txt".toList (some "C:\\t\\a.txt".toList)
          MOVEFILE_REPLACE_EXISTING] :=
  (transfer_same_volume_renames_only exEnv false "C:\\s\\a.txt".toList "C:\\t\\a.txt".toList []
    { cancel := false, uiCancel := false } true (by decide)).1

theorem transfer_failed_copy_spares_source_witness :
    ((RunClipboardOperationWithUI.transfer exEnvCopyFails false false "C:\\s\\a.txt".toList
        "D:\\t\\a.txt".toList [] { cancel := false, uiCancel := false } true).ok = false ∧
      Call.DeleteFileW "D:\\t\\a.txt".toList ∈
        (RunClipboardOperationWithUI.transfer exEnvCopyFails false false "C:\\s\\a.txt".toList
          "D:\\t\\a.txt".toList [] { cancel := false, uiCancel := false } true).calls) ∧
    ((RunClipboardOperationWithUI.transfer exEnvCopyFails false true "C:\\s\\d".toList
        "D:\\t\\d".toList [] { cancel := false, uiCancel := false } true).ok = false ∧
      Call.RemoveDirectoryW "D:\\t\\d".toList ∈
        (RunClipboardOperationWithUI.transfer exEnvCopyFails false true "C:\\s\\d".toList
          "D:\\t\\d".toList [] { cancel := false, uiCancel := false } true).calls) :=
  have T := transfer_failed_copy_spares_source exEnvCopyFails false "C:\\s\\a.txt".toList
    "D:\\t\\a.txt".toList [] { cancel := false, uiCancel := false } true
    exEnv_FindFiles_proper (by decide) (by decide)
    (Within_disjoint 'D' 'C' (by decide) (by decide) (by decide) (by decide) (by decide) (by decide)
      (by decide))
  have U := transfer_failed_copy_spares_source exEnvCopyFails true "C:\\s\\d".toList
    "D:\\t\\d".toList [] { cancel := false, uiCancel := false } true
    exEnv_FindFiles_proper (by decide) (by decide)
    (Within_disjoint 'D' 'C' (by decide) (by decide) (by decide) (by decide) (by decide) (by decide)
      (by decide))
  ⟨⟨T.1, T.2.2.1⟩, ⟨U.1, U.2.2.1⟩⟩

theorem transfer_failed_source_delete_keeps_copy_witness :
    ((RunClipboardOperationWithUI.transfer exEnvDeleteFails false false "C:\\s\\a.txt".toList
        "D:\\t\\a.txt".toList [] { cancel := false, uiCancel := false } true).ok = true ∧
      (RunClipboardOperationWithUI.transfer exEnvDeleteFails false false "C:\\s\\a.txt".toList
        "D:\\t\\a.txt".toList [] { cancel := false, uiCancel := false } true).allOk = false) ∧
    ((RunClipboardOperationWithUI.transfer exEnvDeleteFails false true "C:\\s\\d".toList
        "D:\\t\\d".toList [] { cancel := false, uiCancel := false } true).ok = true ∧
      (RunClipboardOperationWithUI.transfer exEnvDeleteFails false true "C:\\s\\d".toList
        "D:\\t\\d".toList [] { cancel := false, uiCancel := false } true).allOk = false) :=
  have T := transfer_failed_source_delete_keeps_copy exEnvDeleteFails false
    "C:\\s\\a.txt".toList "D:\\t\\a.txt".toList [] { cancel := false, uiCancel := false } true
    exEnv_FindFiles_proper (by decide) (by decide) (fun _ => rfl)
    (Within_disjoint 'C' 'D' (by decide) (by decide) (by decide) (by decide) (by decide) (by decide)
      (by decide))
  have U := transfer_failed_source_delete_keeps_copy exEnvDeleteFails true
    "C:\\s\\d".toList "D:\\t\\d".toList [] { cancel := false, uiCancel := false } true
    exEnv_FindFiles_proper (by decide) (by decide) (fun _ => rfl)
    (Within_disjoint 'C' 'D' (by decide) (by decide) (by decide) (by decide) (by decide) (by decide)
      (by decide))
  ⟨⟨T.1, T.2.1⟩, ⟨U.1, U.2.1⟩⟩

/-- C15, counterexample: Cancel is never pressed, the rename of the first item
fails with `ERROR_CANCELLED` as last error, and the batch returns `Cancelled`
without probing the second item. -/
theorem RunClipboardOperationWithUI_error_code_reported_as_cancel :
    (∀ h, exEnvErrCancelled.PumpMessages h = false) ∧
      (∀ h a b, (exEnvErrCancelled.CopyFileExW h a b).2 = false) ∧
      (RunClipboardOperationWithUI exEnvErrCancelled
        { g_clipMode := ClipMode.Move,
          g_clipFiles := ["C:\\s\\a.txt".toList, "C:\\s\\b.txt".toList] }
        "C:\\t\\".toList []).1 = OpResult.Cancelled ∧
      Call.GetFileAttributesW "C:\\s\\b.txt".toList ∉
        (RunClipboardOperationWithUI exEnvErrCancelled
          { g_clipMode := ClipMode.Move,
            g_clipFiles := ["C:\\s\\a.txt".toList, "C:\\s\\b.txt".toList] }
          "C:\\t\\".toList []).2.2 :=
  ⟨fun _ => rfl, fun _ _ _ => rfl, by decide, by decide⟩

theorem RunClipboardOperationWithUI_failure_does_not_abort_witness :
    (RunClipboardOperationWithUI exEnv
      { g_clipMode := ClipMode.Move,
        g_clipFiles := ["C:\\s\\a.txt".toList, "C:\\s\\gone".toList, "C:\\s\\b.txt".toList] }
      "D:\\t\\".toList []).1 = OpResult.Failed :=
  (RunClipboardOperationWithUI_failure_does_not_abort exEnv
    { g_clipMode := ClipMode.Move,
      g_clipFiles := ["C:\\s\\a.txt".toList, "C:\\s\\gone".toList, "C:\\s\\b.txt".toList] }
    "D:\\t\\".toList [] ["C:\\s\\a.txt".toList] "C:\\s\\gone".toList ["C:\\s\\b.txt".toList]
    false rfl rfl rfl (fun _ => rfl) (fun _ _ _ => rfl)
    (fun _ => ⟨(by decide : (0 : Nat) ≠ ERROR_REQUEST_ABORTED),
      (by decide : (0 : Nat) ≠ ERROR_CANCELLED)⟩) (by decide)).1

/-- C16, counterexample: in a batch of three files Cancel is pressed during the
last pump of the third item; the cancel flag is up at the end, yet
`RunClipboardOperationWithUI` returns `Success`. -/
theorem RunClipboardOperationWithUI_late_cancel_is_success :
    (RunClipboardOperationWithUI exEnvLateClick
        { g_clipMode := ClipMode.Copy, g_clipFiles := exBatch } "D:\\t\\".toList []).1
      = OpResult.Success ∧
    (RunClipboardOperationWithUI.loop exEnvLateClick "D:\\t\\".toList true exBatch []
      { cancel := false, uiCancel := false } true).flags.cancel = true := by
  decide

theorem RunClipboardOperationWithUI_cancel_stops_batch_witness :
    (RunClipboardOperationWithUI exEnvClick
        { g_clipMode := ClipMode.Copy, g_clipFiles := exBatch } "D:\\t\\".toList []).1
      = OpResult.Cancelled :=
  (RunClipboardOperationWithUI_cancel_stops_batch exEnvClick
    { g_clipMode := ClipMode.Copy, g_clipFiles := exBatch } "D:\\t\\".toList []
    ["C:\\s\\a.txt".toList] "C:\\s\\b.txt".toList ["C:\\s\\c.txt".toList] true rfl rfl rfl
    (by decide) (by decide) (by decide) (Or.inl (by simp))).1

/-- C17, counterexample: when `CreateOpWindow` fails, `RunClipboardOperationWithUI`
returns `Failed` with the mode and the list still in place. -/
theorem RunClipboardOperationWithUI_keeps_state_without_window :
    RunClipboardOperationWithUI exEnvNoWindow
        { g_clipMode := ClipMode.Copy, g_clipFiles := exBatch } "D:\\t\\".toList [] =
      (OpResult.Failed, { g_clipMode := ClipMode.Copy, g_clipFiles := exBatch }, []) := by
  decide

theorem RunClipboardOperationWithUI_clears_state_once_started_witness :
    (RunClipboardOperationWithUI exEnv
        { g_clipMode := ClipMode.Copy, g_clipFiles := exBatch } "D:\\t\\".toList []).2.1 =
      { g_clipMode := ClipMode.None, g_clipFiles := [] } :=
  (RunClipboardOperationWithUI_clears_state_once_started exEnv
    { g_clipMode := ClipMode.Copy, g_clipFiles := exBatch } "D:\\t\\".toList []).1
    ⟨by decide, by decide, rfl⟩

/-- C18, counterexample: in drives view the external medium holds a path list
that `GetClipboardFileDrop` reads, and `Browser_PasteClipboardIntoCurrent` runs
nothing. -/
theorem Browser_PasteClipboardIntoCurrent_drives_view_runs_nothing :
    GetClipboardFileDrop {} exPasteDrives.clipboard =
        (true, ["C:\\s\\a.txt".toList], ClipMode.Copy) ∧
      Browser_PasteClipboardIntoCurrent exEnv {} true exPasteDrives [] =
        (exPasteDrives, []) := by
  decide

theorem Browser_PasteClipboardIntoCurrent_prefers_external_witness :
    (Browser_PasteClipboardIntoCurrent exEnv {} true exPasteFolder []).2 =
      (RunClipboardOperationWithUI exEnv
        { g_clipMode := ClipMode.Copy, g_clipFiles := ["C:\\s\\a.txt".toList] }
        "D:\\t\\".toList []).2.2 :=
  ((Browser_PasteClipboardIntoCurrent_prefers_external exEnv {} true exPasteFolder []).1
    "D:\\t\\".toList ["C:\\s\\a.txt".toList] ClipMode.Copy (by decide) (by decide)).1

/-- C19, counterexample: a list with an empty path reads back cut off at that
path; `SetClipboardFileDrop` of the empty list leaves the medium as it was, so
the read yields the older list and mode; a path with an embedded NUL reads back
cut off at the NUL, and what the allocation held behind it runs into the next
path. -/
theorem GetClipboardFileDrop_round_trip_fails :
    (GetClipboardFileDrop {} (SetClipboardFileDrop {}
        ["C:\\a".toList, [], "C:\\b c".toList] ClipMode.Move {})).2.1 = ["C:\\a".toList] ∧
      GetClipboardFileDrop {} (SetClipboardFileDrop {} [] ClipMode.Move exClipboard) =
        (true, ["C:\\s\\a.txt".toList], ClipMode.Copy) ∧
      GetClipboardFileDrop {} (SetClipboardFileDrop {} [] ClipMode.Move {}) =
        (false, [], ClipMode.Copy) ∧
      (GetClipboardFileDrop {} (SetClipboardFileDrop {}
        [['x', NUL, 'y'], "C:\\a".toList] ClipMode.Copy {})).2.1 =
        [['x'], Char.ofNat 0xFEFE :: Char.ofNat 0xFEFE :: "C:\\a".toList] := by
  decide

theorem GetClipboardFileDrop_after_SetClipboardFileDrop_witness :
    GetClipboardFileDrop {} (SetClipboardFileDrop {} ["C:\\a".toList, "C:\\b c".toList]
        ClipMode.Move {}) = (true, ["C:\\a".toList, "C:\\b c".toList], ClipMode.Move) :=
  GetClipboardFileDrop_after_SetClipboardFileDrop {} ["C:\\a".toList, "C:\\b c".toList]
    ClipMode.Move {} rfl ⟨rfl, rfl, rfl⟩ ⟨rfl, rfl, rfl⟩ (by simp) (by decide) (Or.inr rfl)

/-- When the guard of the loop body finds the destination folder inside a
directory source, the item makes no call after reading the attributes, records
the failure and lets the batch go on. -/
theorem RunClipboardOperationWithUI.item_of_guard (env : Env) (D : WString) (isCopy : Bool)
    (f : WString) (hist : List Call) (fl : OpFlags) (allOk : Bool) (attrs : Nat)
    (hattrs : env.GetFileAttributesW hist (c_str (StripTrailingSlashes f)) = some attrs)
    (hdir : (attrs &&& FILE_ATTRIBUTE_DIRECTORY != 0) = true)
    (hguard : IsPrefixPathNoCase (StripTrailingSlashes f) D = true) :
    RunClipboardOperationWithUI.item env D isCopy f hist fl allOk =
      { calls := [Call.GetFileAttributesW (c_str (StripTrailingSlashes f))], flags := fl,
        allOk := false, stop := false } := by
  unfold RunClipboardOperationWithUI.item
  simp only [hattrs, hdir, hguard, Bool.true_or, Bool.and_self, if_true]

/-- C11, failing input: the directory `C:\a` is pasted into the folder `C:/a\`,
which is that directory. `IsPrefixPathNoCase` compares the texts, finds no
prefix, and the batch creates `C:/a\a\` and copies the directory into itself,
returning `Success`. With the folder written `C:\a\` the item is skipped and the
batch returns `Failed`. -/
theorem RunClipboardOperationWithUI_guard_misses_forward_slash :
    IsPrefixPathNoCase "C:\\a".toList "C:/a\\".toList = false ∧
      RunClipboardOperationWithUI exEnv
          { g_clipMode := ClipMode.Copy, g_clipFiles := ["C:\\a".toList] } "C:/a\\".toList [] =
        (OpResult.Success, { g_clipMode := ClipMode.None, g_clipFiles := [] },
          [Call.GetFileAttributesW "C:\\a".toList, Call.PumpMessages,
            Call.CreateDirectoryW "C:/a\\a\\".toList, Call.FindFirstFileW "C:\\a\\*".toList,
            Call.PumpMessages]) ∧
      RunClipboardOperationWithUI exEnv
          { g_clipMode := ClipMode.Copy, g_clipFiles := ["C:\\a".toList] } "C:\\a\\".toList [] =
        (OpResult.Failed, { g_clipMode := ClipMode.None, g_clipFiles := [] },
          [Call.GetFileAttributesW "C:\\a".toList]) := by
  decide

theorem exEnv_FindFiles_d (h : List Call) :
    exEnv.FindFiles h (c_str (EnsureSlash "C:\\s\\d".toList ++ ['*'])) = exDirTree := by
  have : c_str (EnsureSlash "C:\\s\\d".toList ++ ['*']) = "C:\\s\\d\\*".toList := by decide
  rw [this]
  rfl

theorem DeleteDirectoryTree_leaves_link_target_alone_witness :
    Call.RemoveDirectoryW "C:\\s\\d\\sub\\link".toList ∈
        (DeleteDirectoryTree exEnv "C:\\s\\d".toList []).2 ∧
      Call.FindFirstFileW "C:\\s\\d\\sub\\link\\*".toList ∉
        (DeleteDirectoryTree exEnv "C:\\s\\d".toList []).2 ∧
      Call.DeleteFileW "C:\\s\\d\\sub\\link\\y.bin".toList ∉
        (DeleteDirectoryTree exEnv "C:\\s\\d".toList []).2 :=
  have T := DeleteDirectoryTree_leaves_link_target_alone exEnv "C:\\s\\d".toList []
    [exSubEntry.fd] "C:\\s\\d\\sub\\link".toList exLinkEntry (by decide)
    (by rw [exEnv_FindFiles_d]; decide) (by rw [exEnv_FindFiles_d]; decide)
    (by
      rw [exEnv_FindFiles_d]
      exact At.child [] _ exSubEntry exLinkEntry (At.top exSubEntry (by simp [exDirTree]))
        (by simp [exSubEntry, Entry.children]))
    (by decide) (by decide)
  ⟨T.1 (by decide) (by decide),
    fun h => T.2 (Call.FindFirstFileW "C:\\s\\d\\sub\\link\\*".toList) h
      "C:\\s\\d\\sub\\link\\*".toList (Or.inl rfl) (by decide),
    fun h => T.2 (Call.DeleteFileW "C:\\s\\d\\sub\\link\\y.bin".toList) h
      "C:\\s\\d\\sub\\link\\y.bin".toList (Or.inr (by decide)) (by decide)⟩

/-! ### `_wcsicmp` orders C strings by their lower-cased code units -/

theorem Char.toNat_ofNat_small (n : Nat) (h : n < 0xd800) : (Char.ofNat n).toNat = n := by
  have hv : n.isValidChar := Or.inl h
  simp only [Char.ofNat, hv, dite_true]
  simp [Char.ofNatAux, Char.toNat, UInt32.toNat]

theorem towlower_toNat_eq_zero (c : Char) (h : (towlower c).toNat = 0) : c = NUL := by
  unfold towlower Char.toLower at h
  simp only [] at h
  split at h
  · rename_i hr
    rw [Char.toNat_ofNat_small _ (by omega)] at h
    omega
  · apply Char.ext
    apply UInt32.ext
    exact h

theorem Char.toNat_inj {a b : Char} (h : a.toNat = b.toNat) : a = b := by
  apply Char.ext
  apply UInt32.ext
  exact h

theorem _wcsicmp_neg : ∀ a b : WString, _wcsicmp b a = - _wcsicmp a b := by
  intro a
  induction a with
  | nil =>
    intro b
    cases b with
    | nil => simp [_wcsicmp]
    | cons y ys => simp [_wcsicmp]
  | cons x xs ih =>
    intro b
    cases b with
    | nil => simp [_wcsicmp]
    | cons y ys =>
      by_cases h : towlower x = towlower y
      · simp [_wcsicmp, h, ih ys]
      · have h2 : ¬ towlower y = towlower x := fun e => h e.symm
        simp [_wcsicmp, h, h2]

theorem _wcsicmp_lt_iff : ∀ a b : WString, NUL ∉ a → NUL ∉ b →
    (_wcsicmp a b < 0 ↔ wkey a < wkey b) := by
  intro a
  induction a with
  | nil =>
    intro b _ hb
    cases b with
    | nil => simp [_wcsicmp, wkey]
    | cons y ys =>
      have hy : y ≠ NUL := fun e => hb (by simp [e])
      have : 0 < (towlower y).toNat :=
        Nat.pos_of_ne_zero (fun e => hy (towlower_toNat_eq_zero y e))
      simp only [_wcsicmp, wkey, List.map_nil, List.map_cons]
      constructor
      · intro _; exact List.nil_lt_cons _ _
      · intro _; omega
  | cons x xs ih =>
    intro b ha hb
    cases b with
    | nil =>
      simp only [_wcsicmp, wkey, List.map_nil, List.map_cons]
      constructor
      · intro h; omega
      · intro h; exact absurd h (List.Lex.not_nil_right _ _)
    | cons y ys =>
      have hxs : NUL ∉ xs := fun h => ha (List.mem_cons_of_mem _ h)
      have hys : NUL ∉ ys := fun h => hb (List.mem_cons_of_mem _ h)
      simp only [wkey, List.map_cons]
      by_cases h : towlower x = towlower y
      · simp only [_wcsicmp, h, if_true]
        rw [ih ys hxs hys]
        exact (List.Lex.cons_iff).symm
      · have hne : (towlower x).toNat ≠ (towlower y).toNat := fun e => h (Char.toNat_inj e)
        simp only [_wcsicmp, h, if_false]
        constructor
        · intro hlt
          exact List.Lex.rel (by omega)
        · intro hlt
          have key : ∀ (p q : Nat) (l1 l2 : List Nat), p ≠ q →
              List.Lex (fun x y => x < y) (p :: l1) (q :: l2) → p < q := by
            intro p q l1 l2 hpq hl
            cases hl with
            | cons _ => exact absurd rfl hpq
            | rel hr => exact hr
          have := key _ _ _ _ hne hlt
          omega

theorem _wcsicmp_gt_iff (a b : WString) (ha : NUL ∉ a) (hb : NUL ∉ b) :
    (_wcsicmp a b > 0 ↔ wkey b < wkey a) := by
  rw [← _wcsicmp_lt_iff b a hb ha, _wcsicmp_neg a b]
  omega

theorem _wcsicmp_eq_zero_iff (a b : WString) (ha : NUL ∉ a) (hb : NUL ∉ b) :
    (_wcsicmp a b = 0 ↔ wkey a = wkey b) := by
  have h1 := _wcsicmp_lt_iff a b ha hb
  have h2 := _wcsicmp_gt_iff a b ha hb
  constructor
  · intro h
    rcases lt_trichotomy (wkey a) (wkey b) with h3 | h3 | h3
    · have := h1.2 h3; omega
    · exact h3
    · have := h2.2 h3; omega
  · intro h
    by_contra hne
    rcases Int.lt_or_gt_of_ne hne with h3 | h3
    · have := h1.1 h3; rw [h] at this; exact lt_irrefl _ this
    · have := h2.1 h3; rw [h] at this; exact lt_irrefl _ this

theorem wkey_eq_iff (a b : WString) : wkey a = wkey b ↔ ToLower a = ToLower b := by
  unfold wkey ToLower
  constructor
  · intro h
    have h2 : List.map Char.toNat (a.map towlower) = List.map Char.toNat (b.map towlower) := by
      simpa [List.map_map] using h
    exact List.map_injective_iff.2 (fun x y e => Char.toNat_inj e) h2
  · intro h
    have := congrArg (List.map Char.toNat) h
    simpa [List.map_map] using this

/-! ### The comparator of `SortRows` is a strict weak ordering -/

theorem StrictWeakOrdering.never : StrictWeakOrdering (fun (_ _ : Row) => false) :=
  ⟨fun _ => rfl, fun _ _ _ => rfl, fun _ _ _ h _ => h, fun _ _ _ _ _ _ _ => ⟨rfl, rfl⟩⟩

theorem lexStep_swo {κ : Type} [LinearOrder κ] (k : Row → κ) (up : Bool)
    (next : Row → Row → Bool) (hn : StrictWeakOrdering next) :
    StrictWeakOrdering (lexStep k up next) := by
  -- the order of the keys in the chosen direction
  have eqv : ∀ a b, k a = k b → lexStep k up next a b = next a b := by
    intro a b h; simp [lexStep, h]
  have lt_of : ∀ a b, k a ≠ k b →
      (lexStep k up next a b = true ↔ (if up then k a < k b else k b < k a)) := by
    intro a b h; cases up <;> simp [lexStep, h]
  have tri : ∀ a b, k a ≠ k b →
      lexStep k up next a b = true ∨ lexStep k up next b a = true := by
    intro a b h
    rw [lt_of a b h, lt_of b a (Ne.symm h)]
    cases up <;> simp only [Bool.false_eq_true, if_false, if_true]
    · rcases lt_trichotomy (k a) (k b) with h1 | h1 | h1
      · exact Or.inr h1
      · exact absurd h1 h
      · exact Or.inl h1
    · rcases lt_trichotomy (k a) (k b) with h1 | h1 | h1
      · exact Or.inl h1
      · exact absurd h1 h
      · exact Or.inr h1
  refine ⟨?_, ?_, ?_, ?_⟩
  · intro a
    rw [eqv a a rfl]
    exact hn.irrefl a
  · intro a b h
    by_cases hk : k a = k b
    · rw [eqv a b hk] at h
      rw [eqv b a hk.symm]
      exact hn.asymm a b h
    · rw [lt_of a b hk] at h
      cases hb : lexStep k up next b a with
      | false => rfl
      | true =>
        rw [lt_of b a (Ne.symm hk)] at hb
        cases up <;> simp only [Bool.false_eq_true, if_false, if_true] at h hb <;>
          exact absurd h (lt_asymm hb)
  · intro a b c hab hbc
    by_cases h1 : k a = k b
    · by_cases h2 : k b = k c
      · rw [eqv a b h1] at hab
        rw [eqv b c h2] at hbc
        rw [eqv a c (h1.trans h2)]
        exact hn.trans a b c hab hbc
      · have h3 : k a ≠ k c := fun e => h2 (h1.symm.trans e)
        rw [lt_of b c h2] at hbc
        rw [lt_of a c h3, h1]
        exact hbc
    · by_cases h2 : k b = k c
      · have h3 : k a ≠ k c := fun e => h1 (e.trans h2.symm)
        rw [lt_of a b h1] at hab
        rw [lt_of a c h3, ← h2]
        exact hab
      · rw [lt_of a b h1] at hab
        rw [lt_of b c h2] at hbc
        have h3 : k a ≠ k c := by
          intro e
          rw [e] at hab
          cases up <;> simp only [Bool.false_eq_true, if_false, if_true] at hab hbc <;>
            exact lt_asymm hab hbc
        rw [lt_of a c h3]
        cases up <;> simp only [Bool.false_eq_true, if_false, if_true] at hab hbc ⊢
        · exact lt_trans hbc hab
        · exact lt_trans hab hbc
  · intro a b c h1 h2 h3 h4
    have e1 : k a = k b := by
      by_contra hne
      rcases tri a b hne with h | h
      · rw [h1] at h; exact absurd h (by decide)
      · rw [h2] at h; exact absurd h (by decide)
    have e2 : k b = k c := by
      by_contra hne
      rcases tri b c hne with h | h
      · rw [h3] at h; exact absurd h (by decide)
      · rw [h4] at h; exact absurd h (by decide)
    rw [eqv a b e1] at h1
    rw [eqv b a e1.symm] at h2
    rw [eqv b c e2] at h3
    rw [eqv c b e2.symm] at h4
    rw [eqv a c (e1.trans e2), eqv c a (e1.trans e2).symm]
    exact hn.incomp_trans a b c h1 h2 h3 h4

theorem SortRows.typeTextForSort_no_NUL (r : Row) : NUL ∉ SortRows.typeTextForSort r := by
  unfold SortRows.typeTextForSort
  split
  · decide
  · split
    · decide
    · simp only []
      have h0 : NUL ∉ (c_str r.full).drop (PathFindExtensionW (c_str r.full)) :=
        fun h => c_str_no_NUL r.full (List.mem_of_mem_drop h)
      split
      · split
        · exact fun h => h0 (List.mem_of_mem_drop h)
        · exact h0
      · decide

/-- The comparison by name that closes every branch of the comparator. -/
theorem SortRows.byName_eq (A B : Row) :
    decide (_wcsicmp (c_str A.name) (c_str B.name) < 0) =
      lexStep (fun r => wkey (c_str r.name)) true (fun _ _ => false) A B := by
  have h := _wcsicmp_lt_iff (c_str A.name) (c_str B.name) (c_str_no_NUL _) (c_str_no_NUL _)
  unfold lexStep
  by_cases e : wkey (c_str A.name) = wkey (c_str B.name)
  · have : ¬ _wcsicmp (c_str A.name) (c_str B.name) < 0 := by
      rw [h, e]; exact lt_irrefl _
    simp [e, this]
  · simp only [e, if_false, if_true]
    exact decide_eq_decide.2 h

theorem SortRows.byName_down_eq (A B : Row) :
    decide (_wcsicmp (c_str A.name) (c_str B.name) > 0) =
      lexStep (fun r => wkey (c_str r.name)) false (fun _ _ => false) A B := by
  have h := _wcsicmp_gt_iff (c_str A.name) (c_str B.name) (c_str_no_NUL _) (c_str_no_NUL _)
  unfold lexStep
  by_cases e : wkey (c_str A.name) = wkey (c_str B.name)
  · have : ¬ _wcsicmp (c_str A.name) (c_str B.name) > 0 := by
      rw [h, e]; exact lt_irrefl _
    simp [e, this]
  · simp only [e, if_false, Bool.false_eq_true]
    exact decide_eq_decide.2 h

/-- A branch `if (a != b) return asc ? (a < b) : (a > b); return next;` of the
comparator is one lexicographic level. -/
theorem lexStep_of_branch {κ : Type} [LinearOrder κ] (k : Row → κ) (asc : Bool)
    (next : Row → Row → Bool) (A B : Row) :
    (if (k A != k B) = true then (if asc = true then decide (k A < k B) else decide (k A > k B))
      else next A B) = lexStep k asc next A B := by
  unfold lexStep
  by_cases e : k A = k B
  · simp [e]
  · simp [e]

theorem SortRows.comp_eq (col : Int) (asc : Bool) :
    SortRows.comp col asc =
      lexStep (fun r => !r.isDir) true
        (if col = 0 then lexStep (fun r => wkey (c_str r.name)) asc (fun _ _ => false)
        else if col = 1 then
          lexStep (fun r => wkey (SortRows.typeTextForSort r)) asc
            (lexStep (fun r => wkey (c_str r.name)) true (fun _ _ => false))
        else if col = 2 then
          lexStep (fun r => r.size) asc
            (lexStep (fun r => wkey (c_str r.name)) true (fun _ _ => false))
        else if col = 3 then
          lexStep (fun r => QuadPart r.modified.dwHighDateTime r.modified.dwLowDateTime) asc
            (lexStep (fun r => wkey (c_str r.name)) true (fun _ _ => false))
        else if col = 4 then
          lexStep (fun r => (toULONGLONG r.vW * toULONGLONG r.vH) % 2 ^ 64) asc
            (lexStep (fun r => r.vW) asc
              (lexStep (fun r => wkey (c_str r.name)) true (fun _ _ => false)))
        else if col = 5 then
          lexStep (fun r => r.vDur100ns) asc
            (lexStep (fun r => wkey (c_str r.name)) true (fun _ _ => false))
        else lexStep (fun r => wkey (c_str r.name)) true (fun _ _ => false)) := by
  funext A B
  unfold SortRows.comp
  by_cases hd : A.isDir = B.isDir
  · have hd2 : (A.isDir != B.isDir) = false := by simp [hd]
    have hd3 : (fun r : Row => !r.isDir) A = (fun r : Row => !r.isDir) B := by simp [hd]
    rw [lexStep, if_pos hd3]
    simp only [hd2, Bool.false_eq_true, if_false]
    split
    · cases asc
      · simp only [Bool.false_eq_true, if_false]; exact SortRows.byName_down_eq A B
      · simp only [if_true]; exact SortRows.byName_eq A B
    · split
      · simp only [SortRows.byName_eq]
        have hT := _wcsicmp_eq_zero_iff (SortRows.typeTextForSort A) (SortRows.typeTextForSort B)
          (SortRows.typeTextForSort_no_NUL A) (SortRows.typeTextForSort_no_NUL B)
        have hL := _wcsicmp_lt_iff (SortRows.typeTextForSort A) (SortRows.typeTextForSort B)
          (SortRows.typeTextForSort_no_NUL A) (SortRows.typeTextForSort_no_NUL B)
        have hG := _wcsicmp_gt_iff (SortRows.typeTextForSort A) (SortRows.typeTextForSort B)
          (SortRows.typeTextForSort_no_NUL A) (SortRows.typeTextForSort_no_NUL B)
        conv => rhs; unfold lexStep
        by_cases e : wkey (SortRows.typeTextForSort A) = wkey (SortRows.typeTextForSort B)
        · have e0 : _wcsicmp (SortRows.typeTextForSort A) (SortRows.typeTextForSort B) = 0 :=
            hT.2 e
          rw [if_pos e, e0]
          rfl
        · have e0 : _wcsicmp (SortRows.typeTextForSort A) (SortRows.typeTextForSort B) ≠ 0 :=
            fun h => e (hT.1 h)
          have e1 : (_wcsicmp (SortRows.typeTextForSort A) (SortRows.typeTextForSort B) != 0)
              = true := by simpa using e0
          simp only [e1, if_true, e, if_false]
          cases asc
          · simp only [Bool.false_eq_true, if_false]; exact decide_eq_decide.2 hG
          · simp only [if_true]; exact decide_eq_decide.2 hL
      · split
        · simp only [SortRows.byName_eq]
          exact lexStep_of_branch (fun r => r.size) asc _ A B
        · split
          · simp only [SortRows.byName_eq]
            exact lexStep_of_branch
              (fun r => QuadPart r.modified.dwHighDateTime r.modified.dwLowDateTime) asc _ A B
          · split
            · simp only [SortRows.byName_eq]
              rw [lexStep_of_branch (fun r => r.vW) asc
                (lexStep (fun r => wkey (c_str r.name)) true (fun _ _ => false)) A B]
              exact lexStep_of_branch
                (fun r => (toULONGLONG r.vW * toULONGLONG r.vH) % 2 ^ 64) asc
                (lexStep (fun r => r.vW) asc
                  (lexStep (fun r => wkey (c_str r.name)) true (fun _ _ => false))) A B
            · split
              · simp only [SortRows.byName_eq]
                exact lexStep_of_branch (fun r => r.vDur100ns) asc _ A B
              · exact SortRows.byName_eq A B
  · have hd2 : (A.isDir != B.isDir) = true := by simpa using hd
    have hd3 : ¬ (fun r : Row => !r.isDir) A = (fun r : Row => !r.isDir) B := by
      simpa using hd
    rw [lexStep, if_neg hd3]
    simp only [hd2, if_true]
    cases hA : A.isDir <;> cases hB : B.isDir <;> simp_all

/-- The comparator of `SortRows` is a strict weak ordering, for every column and
direction. -/
theorem SortRows.comp_swo (col : Int) (asc : Bool) :
    StrictWeakOrdering (SortRows.comp col asc) := by
  rw [SortRows.comp_eq]
  have hname := lexStep_swo (fun r => wkey (c_str r.name)) true _ StrictWeakOrdering.never
  apply lexStep_swo
  split
  · exact lexStep_swo _ _ _ StrictWeakOrdering.never
  · split
    · exact lexStep_swo _ _ _ hname
    · split
      · exact lexStep_swo _ _ _ hname
      · split
        · exact lexStep_swo _ _ _ hname
        · split
          · exact lexStep_swo _ _ _ (lexStep_swo _ _ _ hname)
          · split
            · exact lexStep_swo _ _ _ hname
            · exact hname

/-! ### `SortRows`, the views and the worker -/

theorem StrictWeakOrdering.not_lt_trans {α : Type} {lt : α → α → Bool}
    (h : StrictWeakOrdering lt) (a b c : α) (hab : lt b a = false) (hbc : lt c b = false) :
    lt c a = false := by
  cases hca : lt c a with
  | false => rfl
  | true =>
    exfalso
    cases h1 : lt a b with
    | true =>
      have := h.trans c a b hca h1
      rw [hbc] at this
      exact absurd this (by decide)
    | false =>
      cases h2 : lt b c with
      | true =>
        have := h.trans b c a h2 hca
        rw [hab] at this
        exact absurd this (by decide)
      | false =>
        have := (h.incomp_trans a b c h1 hab h2 hbc).2
        rw [hca] at this
        exact absurd this (by decide)

/-- Insertion sort meets the guarantees of `std::sort`. -/
theorem exSort_StdSort : StdSort exSort := by
  intro comp l h
  haveI : IsTotal Row (fun a b => comp b a = false) :=
    ⟨fun a b => by
      cases hba : comp b a with
      | false => exact Or.inl rfl
      | true => exact Or.inr (h.asymm b a hba)⟩
  haveI : IsTrans Row (fun a b => comp b a = false) :=
    ⟨fun a b c hab hbc => h.not_lt_trans a b c hab hbc⟩
  exact ⟨List.perm_insertionSort _ l, List.sorted_insertionSort _ l⟩

theorem SortRows.dirs_first (sort : (Row → Row → Bool) → List Row → List Row)
    (hsort : StdSort sort) (col : Int) (asc : Bool) (rows : List Row) :
    (sort (SortRows.comp col asc) rows).Pairwise
      (fun a b => ¬ (a.isDir = false ∧ b.isDir = true)) := by
  refine ((hsort _ rows (SortRows.comp_swo col asc)).2).imp ?_
  intro a b hc hab
  have : SortRows.comp col asc b a = true := by
    simp [SortRows.comp, hab.1, hab.2]
  rw [hc] at this
  exact absurd this (by decide)

theorem QueueMissingPropsAndKickWorker.loop_filter :
    ∀ (rows : List Row) (todo : List WString),
      QueueMissingPropsAndKickWorker.loop rows todo =
        todo ++ (rows.filter (fun r => !r.isDir && r.vW == 0 && r.vH == 0 &&
          r.vDur100ns == 0 && IsVideoFile r.full)).map (fun r => r.full) := by
  intro rows
  induction rows with
  | nil => intro todo; simp [QueueMissingPropsAndKickWorker.loop]
  | cons r rest ih =>
    intro todo
    rw [QueueMissingPropsAndKickWorker.loop]
    split
    · rename_i h
      rw [ih]
      simp only [List.filter_cons, h, if_true, List.map_cons, List.append_assoc,
        List.singleton_append]
    · rename_i h
      rw [ih]
      simp only [List.filter_cons, h, Bool.false_eq_true, if_false]

theorem QueueMissingPropsAndKickWorker_fields (st : ViewState) :
    (QueueMissingPropsAndKickWorker st).g_rows = st.g_rows ∧
      (QueueMissingPropsAndKickWorker st).g_metaGen = st.g_metaGen ∧
      (QueueMissingPropsAndKickWorker st).g_metaTodoPaths =
        QueueMissingPropsAndKickWorker.loop st.g_rows st.g_metaTodoPaths := by
  unfold QueueMissingPropsAndKickWorker
  simp only []
  split <;> exact ⟨rfl, rfl, rfl⟩

/-- C22: for every sorting algorithm that meets the guarantees of `std::sort`,
every row list, column value and direction, the rows after `SortRows` are a
permutation of the rows before, and no file row stands before a directory row;
the same holds for the rows that `ShowFolder` leaves in `g_rows`. -/
theorem SortRows_directories_first (sort : (Row → Row → Bool) → List Row → List Row)
    (hsort : StdSort sort) (col : Int) (asc : Bool) (st : ViewState) (fs : FileSystem)
    (abs : WString) :
    (SortRows sort col asc st).g_rows.Perm st.g_rows ∧
      (SortRows sort col asc st).g_rows.Pairwise
        (fun a b => ¬ (a.isDir = false ∧ b.isDir = true)) ∧
      (ShowFolder sort fs abs st).g_rows.Pairwise
        (fun a b => ¬ (a.isDir = false ∧ b.isDir = true)) := by
  refine ⟨(hsort _ _ (SortRows.comp_swo col asc)).1, SortRows.dirs_first sort hsort col asc _, ?_⟩
  unfold ShowFolder
  simp only []
  split
  · exact List.Pairwise.nil
  · rw [(QueueMissingPropsAndKickWorker_fields _).1]
    exact SortRows.dirs_first sort hsort _ _ _

/-- C30: for every column value and direction the comparator that `SortRows` hands
to `std::sort` is a strict weak ordering on rows: irreflexive, asymmetric,
transitive, and with transitive incomparability. No assumption on the rows is
needed; the case-insensitive comparison of C strings is a total preorder. -/
theorem SortRows_comparator_is_strict_weak_ordering (col : Int) (asc : Bool) :
    (∀ a, SortRows.comp col asc a a = false) ∧
    (∀ a b, SortRows.comp col asc a b = true → SortRows.comp col asc b a = false) ∧
    (∀ a b c, SortRows.comp col asc a b = true → SortRows.comp col asc b c = true →
      SortRows.comp col asc a c = true) ∧
    (∀ a b c, SortRows.comp col asc a b = false → SortRows.comp col asc b a = false →
      SortRows.comp col asc b c = false → SortRows.comp col asc c b = false →
      SortRows.comp col asc a c = false ∧ SortRows.comp col asc c a = false) ∧
    (∀ x y z : WString, _wcsicmp (c_str x) (c_str y) ≤ 0 → _wcsicmp (c_str y) (c_str z) ≤ 0 →
      _wcsicmp (c_str x) (c_str z) ≤ 0) ∧
    (∀ x y : WString, _wcsicmp (c_str x) (c_str y) ≤ 0 ∨ _wcsicmp (c_str y) (c_str x) ≤ 0) := by
  have h := SortRows.comp_swo col asc
  refine ⟨h.irrefl, h.asymm, h.trans, h.incomp_trans, ?_, ?_⟩
  · intro x y z h1 h2
    have g1 := _wcsicmp_gt_iff (c_str x) (c_str y) (c_str_no_NUL _) (c_str_no_NUL _)
    have g2 := _wcsicmp_gt_iff (c_str y) (c_str z) (c_str_no_NUL _) (c_str_no_NUL _)
    have g3 := _wcsicmp_gt_iff (c_str x) (c_str z) (c_str_no_NUL _) (c_str_no_NUL _)
    by_contra hc
    have h3 : wkey (c_str z) < wkey (c_str x) := g3.1 (by omega)
    have h4 : ¬ wkey (c_str y) < wkey (c_str x) := fun e => by have := g1.2 e; omega
    have h5 : ¬ wkey (c_str z) < wkey (c_str y) := fun e => by have := g2.2 e; omega
    exact h4 (lt_of_le_of_lt (not_lt.1 h5) h3)
  · intro x y
    have := _wcsicmp_neg (c_str x) (c_str y)
    omega
theorem SortRows_directories_first_witness :
    StdSort exSort ∧
      (SortRows exSort 4 false exViewState).g_rows.Perm exViewState.g_rows ∧
      (SortRows exSort 4 false exViewState).g_rows.Pairwise
        (fun a b => ¬ (a.isDir = false ∧ b.isDir = true)) ∧
      (ShowFolder exSort exFS "C:\\v".toList exViewState).g_rows.Pairwise
        (fun a b => ¬ (a.isDir = false ∧ b.isDir = true)) ∧
      (SortRows exSort 4 false exViewState).g_rows.map (fun r => r.name) =
        ["Sub".toList, "a.txt".toList, "b.mp4".toList, "A.MKV".toList] :=
  have T := SortRows_directories_first exSort exSort_StdSort 4 false exViewState exFS
    "C:\\v".toList
  ⟨exSort_StdSort, T.1, T.2.1, T.2.2, by decide⟩

theorem WM_APP_META.loop_shape (r : MetaResult) :
    ∀ rows : List Row,
      WM_APP_META.loop r rows = rows ∨
        ∃ pre it post, rows = pre ++ it :: post ∧
          WM_APP_META.loop r rows =
            pre ++ { it with vW := r.w, vH := r.h, vDur100ns := r.dur } :: post ∧
          (∀ x ∈ pre, _wcsicmp (c_str x.full) (c_str r.path) ≠ 0) ∧
          _wcsicmp (c_str it.full) (c_str r.path) = 0 := by
  intro rows
  induction rows with
  | nil => exact Or.inl rfl
  | cons it rest ih =>
    rw [WM_APP_META.loop]
    by_cases h : _wcsicmp (c_str it.full) (c_str r.path) = 0
    · right
      refine ⟨[], it, rest, rfl, ?_, by simp, h⟩
      simp [h]
    · have h2 : (_wcsicmp (c_str it.full) (c_str r.path) == 0) = false := by simpa using h
      simp only [h2, Bool.false_eq_true, if_false]
      rcases ih with e | ⟨pre, x, post, h3, h4, h5, h6⟩
      · left; rw [e]
      · right
        refine ⟨it :: pre, x, post, by rw [h3]; rfl, by rw [h4]; rfl, ?_, h6⟩
        intro y hy
        rcases List.mem_cons.1 hy with rfl | hy
        · exact h
        · exact h5 y hy

/-- C23: the `WM_APP_META` handler leaves the number and order of the rows as
they are, and of every row the fields `isDir`, `name`, `full`, `size`,
`modified` and the drive fields; the rows are either all unchanged, or exactly
one row has received the result's `w`, `h` and `dur` in `vW`, `vH` and
`vDur100ns`, and it is the first row whose path equals the result's path up to
case. -/
theorem WM_APP_META_changes_media_fields_of_one_row (g_rows : List Row) (g_metaGen : Nat)
    (l : Option MetaResult) :
    (WndProc.WM_APP_META g_rows g_metaGen l).length = g_rows.length ∧
      List.Forall₂ (fun a b : Row => b.isDir = a.isDir ∧ b.name = a.name ∧ b.full = a.full ∧
          b.size = a.size ∧ b.modified = a.modified ∧
          b.isBrokenNetDrive = a.isBrokenNetDrive ∧ b.netRemote = a.netRemote)
        g_rows (WndProc.WM_APP_META g_rows g_metaGen l) ∧
      (WndProc.WM_APP_META g_rows g_metaGen l = g_rows ∨
        ∃ r pre it post, l = some r ∧ r.gen = g_metaGen ∧ g_rows = pre ++ it :: post ∧
          WndProc.WM_APP_META g_rows g_metaGen l =
            pre ++ { it with vW := r.w, vH := r.h, vDur100ns := r.dur } :: post ∧
          (∀ x ∈ pre, ToLower (c_str x.full) ≠ ToLower (c_str r.path)) ∧
          ToLower (c_str it.full) = ToLower (c_str r.path)) := by
  have same : ∀ rows : List Row, List.Forall₂ (fun a b : Row => b.isDir = a.isDir ∧
      b.name = a.name ∧ b.full = a.full ∧ b.size = a.size ∧ b.modified = a.modified ∧
      b.isBrokenNetDrive = a.isBrokenNetDrive ∧ b.netRemote = a.netRemote) rows rows := by
    intro rows
    induction rows with
    | nil => exact List.Forall₂.nil
    | cons a rest ih => exact List.Forall₂.cons ⟨rfl, rfl, rfl, rfl, rfl, rfl, rfl⟩ ih
  have key : WndProc.WM_APP_META g_rows g_metaGen l = g_rows ∨
      ∃ r pre it post, l = some r ∧ r.gen = g_metaGen ∧ g_rows = pre ++ it :: post ∧
        WndProc.WM_APP_META g_rows g_metaGen l =
          pre ++ { it with vW := r.w, vH := r.h, vDur100ns := r.dur } :: post ∧
        (∀ x ∈ pre, ToLower (c_str x.full) ≠ ToLower (c_str r.path)) ∧
        ToLower (c_str it.full) = ToLower (c_str r.path) := by
    cases l with
    | none => exact Or.inl rfl
    | some r =>
      by_cases hg : r.gen = g_metaGen
      · have hg2 : (r.gen == g_metaGen) = true := by simpa using hg
        simp only [WndProc.WM_APP_META, hg2, if_true]
        rcases WM_APP_META.loop_shape r g_rows with e | ⟨pre, it, post, h1, h2, h3, h4⟩
        · exact Or.inl e
        · right
          refine ⟨r, pre, it, post, rfl, hg, h1, h2, ?_, ?_⟩
          · intro x hx e
            apply h3 x hx
            rw [_wcsicmp_eq_zero_iff _ _ (c_str_no_NUL _) (c_str_no_NUL _), wkey_eq_iff]
            exact e
          · rw [← wkey_eq_iff, ← _wcsicmp_eq_zero_iff _ _ (c_str_no_NUL _) (c_str_no_NUL _)]
            exact h4
      · have hg2 : (r.gen == g_metaGen) = false := by simpa using hg
        left
        simp [WndProc.WM_APP_META, hg2]
  rcases key with e | ⟨r, pre, it, post, h1, h2, h3, h4, h5, h6⟩
  · rw [e]
    exact ⟨rfl, same g_rows, Or.inl rfl⟩
  · refine ⟨?_, ?_, Or.inr ⟨r, pre, it, post, h1, h2, h3, h4, h5, h6⟩⟩
    · rw [h4, h3]; simp
    · rw [h4, h3]
      exact List.rel_append (same pre)
        (List.Forall₂.cons ⟨rfl, rfl, rfl, rfl, rfl, rfl, rfl⟩ (same post))

theorem WM_APP_META_changes_media_fields_of_one_row_witness :
    WndProc.WM_APP_META exListing 7 (some ⟨"c:\\V\\B.MP4".toList, 640, 480, 10, 7⟩) =
      [{ name := "b.mp4".toList, full := "C:\\v\\b.mp4".toList, size := 7, vW := 640,
         vH := 480, vDur100ns := 10 }] ++ exListing.drop 1 ∧
    (WndProc.WM_APP_META exListing 7 (some ⟨"c:\\V\\B.MP4".toList, 640, 480, 10, 7⟩)).length
      = exListing.length :=
  ⟨by decide,
   (WM_APP_META_changes_media_fields_of_one_row exListing 7
      (some ⟨"c:\\V\\B.MP4".toList, 640, 480, 10, 7⟩)).1⟩

theorem SortRows_fields (sort : (Row → Row → Bool) → List Row → List Row) (col : Int)
    (asc : Bool) (st : ViewState) :
    (SortRows sort col asc st).g_metaGen = st.g_metaGen ∧
      (SortRows sort col asc st).g_metaTodoPaths = st.g_metaTodoPaths := ⟨rfl, rfl⟩

/-- C24: `ShowDrives`, `ShowFolder` and `ShowSearchResults` each leave `g_metaGen`
at its old value plus one modulo `2^32`; what they leave in the queue does not
depend on what the queue held before, and is, for `ShowDrives`, nothing, and
for the other two, the paths of exactly those rows of the new `g_rows`, in row
order, that are no directory, have `vW`, `vH` and `vDur100ns` zero and are
video files. -/
theorem scope_change_advances_generation_and_refills_queue
    (sort : (Row → Row → Bool) → List Row → List Row) (fs : FileSystem) (net : NetDrives)
    (abs : WString) (results : List Row) (st : ViewState) :
    ((ShowDrives sort fs net st).g_metaGen = (st.g_metaGen + 1) % 2 ^ 32 ∧
      (ShowDrives sort fs net st).g_metaTodoPaths = [] ∧
      ∀ q, ShowDrives sort fs net { st with g_metaTodoPaths := q } = ShowDrives sort fs net st) ∧
    ((ShowFolder sort fs abs st).g_metaGen = (st.g_metaGen + 1) % 2 ^ 32 ∧
      (ShowFolder sort fs abs st).g_metaTodoPaths =
        ((ShowFolder sort fs abs st).g_rows.filter (fun r => !r.isDir && r.vW == 0 &&
          r.vH == 0 && r.vDur100ns == 0 && IsVideoFile r.full)).map (fun r => r.full) ∧
      ∀ q, ShowFolder sort fs abs { st with g_metaTodoPaths := q } = ShowFolder sort fs abs st) ∧
    ((ShowSearchResults sort results st).g_metaGen = (st.g_metaGen + 1) % 2 ^ 32 ∧
      (ShowSearchResults sort results st).g_metaTodoPaths =
        ((ShowSearchResults sort results st).g_rows.filter (fun r => !r.isDir && r.vW == 0 &&
          r.vH == 0 && r.vDur100ns == 0 && IsVideoFile r.full)).map (fun r => r.full) ∧
      ∀ q, ShowSearchResults sort results { st with g_metaTodoPaths := q } =
        ShowSearchResults sort results st) := by
  refine ⟨⟨rfl, rfl, fun q => rfl⟩, ⟨?_, ?_, fun q => rfl⟩, ⟨?_, ?_, fun q => rfl⟩⟩
  · unfold ShowFolder
    simp only []
    split
    · rfl
    · rw [(QueueMissingPropsAndKickWorker_fields _).2.1]
      rfl
  · unfold ShowFolder
    simp only []
    split
    · rfl
    · rw [(QueueMissingPropsAndKickWorker_fields _).2.2, (QueueMissingPropsAndKickWorker_fields _).1,
        QueueMissingPropsAndKickWorker.loop_filter]
      rfl
  · unfold ShowSearchResults
    simp only []
    rw [(QueueMissingPropsAndKickWorker_fields _).2.1]
    rfl
  · unfold ShowSearchResults
    simp only []
    rw [(QueueMissingPropsAndKickWorker_fields _).2.2, (QueueMissingPropsAndKickWorker_fields _).1,
      QueueMissingPropsAndKickWorker.loop_filter]
    rfl

theorem scope_change_advances_generation_and_refills_queue_witness :
    (ShowSearchResults exSort exListing exViewState).g_metaGen = 0 ∧
      (ShowSearchResults exSort exListing exViewState).g_metaTodoPaths =
        ["C:\\v\\b.mp4".toList] :=
  ⟨(scope_change_advances_generation_and_refills_queue exSort exFS ⟨0, fun _ => none⟩ []
      exListing exViewState).2.2.1,
   by decide⟩

/-- A worker whose captured generation is not the live one pops the last queued
path, if there is one, posts nothing and leaves the loop. -/
theorem MetaThreadProc.step_stale (vp : WString → Int × Int × Nat) (myGen : Nat)
    (s : MetaWork) (h : myGen ≠ s.g_metaGen) :
    MetaThreadProc.step vp myGen s =
      (false, { s with g_metaTodoPaths := s.g_metaTodoPaths.dropLast }) := by
  have h2 : (myGen != s.g_metaGen) = true := by simpa using h
  rcases s with ⟨q, g, p⟩
  unfold MetaThreadProc.step
  cases q with
  | nil => simp
  | cons a rest =>
    simp only [List.isEmpty_cons, Bool.not_false, if_true]
    split
    · rfl
    · simp only [] at h2
      simp [h2]

/-- C25, failing input: generation 5 has queued `a.mp4` and `b.mp4`; a worker that
captured generation 4 runs one iteration. It leaves the loop and posts nothing,
but it has popped `b.mp4`; the worker of generation 5 then measures `a.mp4`
only. -/
theorem MetaThreadProc_stale_worker_drops_queued_path :
    MetaThreadProc.step exGetVideoProps 4 exMetaWork =
        (false, { g_metaTodoPaths := ["C:\\v\\a.mp4".toList], g_metaGen := 5, posted := [] }) ∧
      (MetaThreadProc exGetVideoProps (MetaThreadProc.step exGetVideoProps 4 exMetaWork).2).posted
        = [⟨"C:\\v\\a.mp4".toList, 640, 480, 10, 5⟩] ∧
      (MetaThreadProc exGetVideoProps exMetaWork).posted =
        [⟨"C:\\v\\b.mp4".toList, 640, 480, 10, 5⟩, ⟨"C:\\v\\a.mp4".toList, 640, 480, 10, 5⟩] := by
  decide
/-! ### Delete of the selection -/

/-- C27, failing input: the selected row `C:\s\j` is a junction (attributes
`0x410`: directory and reparse point) whose target holds `y.bin`.
`Browser_DeleteSelected` tests only the directory bit and hands the path to
`DeleteDirectoryTree`, which enumerates `C:\s\j\*` and deletes `C:\s\j\y.bin`,
an entry reached through the link, before it removes the link. -/
theorem Browser_DeleteSelected_enumerates_selected_junction :
    exEnvJunction.GetFileAttributesW [] "C:\\s\\j".toList = some 0x410 ∧
      (0x410 &&& FILE_ATTRIBUTE_REPARSE_POINT != 0) = true ∧
      Browser_DeleteSelected exEnvJunction ViewKind.Folder true exDeleteRows [2] [] =
        (false,
          [Call.GetFileAttributesW "C:\\s\\j".toList,
            Call.FindFirstFileW "C:\\s\\j\\*".toList,
            Call.GetFileAttributesW "C:\\s\\j\\y.bin".toList,
            Call.DeleteFileW "C:\\s\\j\\y.bin".toList,
            Call.GetFileAttributesW "C:\\s\\j".toList,
            Call.RemoveDirectoryW "C:\\s\\j".toList]) := by
  decide

/-- C28, failing input: the batch copies the junction `C:\s\j` (attributes
`0x410`), whose target holds `y.bin`, into `D:\t\`. `CopyDirectoryTree` does not
treat the source as a file: it creates `D:\t\j\`, enumerates `C:\s\j\*` through
the link and copies `y.bin`; the batch returns `Success`. -/
theorem RunClipboardOperationWithUI_copies_through_selected_junction :
    exEnvJunction.GetFileAttributesW [] "C:\\s\\j".toList = some 0x410 ∧
      (0x410 &&& FILE_ATTRIBUTE_REPARSE_POINT != 0) = true ∧
      RunClipboardOperationWithUI exEnvJunction
          { g_clipMode := ClipMode.Copy, g_clipFiles := ["C:\\s\\j".toList] } "D:\\t\\".toList [] =
        (OpResult.Success, { g_clipMode := ClipMode.None, g_clipFiles := [] },
          [Call.GetFileAttributesW "C:\\s\\j".toList, Call.PumpMessages,
            Call.CreateDirectoryW "D:\\t\\j\\".toList,
            Call.FindFirstFileW "C:\\s\\j\\*".toList,
            Call.CopyFileExW "C:\\s\\j\\y.bin".toList "D:\\t\\j\\y.bin".toList,
            Call.PumpMessages]) := by
  decide

/-- C21, counterexample: the selected file `C:\s\b.txt` is read-only and cannot
be deleted. Its attributes are cleared first, `DeleteFileW` is then called once,
and the failure is followed at once by `MoveFileExW` with
`MOVEFILE_DELAY_UNTIL_REBOOT`: there is no second delete attempt. -/
theorem Browser_DeleteSelected_deletes_once :
    Browser_DeleteSelected exEnvLocked ViewKind.Folder true exDeleteRows [0] [] =
        (true,
          [Call.GetFileAttributesW "C:\\s\\b.txt".toList,
            Call.GetFileAttributesW "C:\\s\\b.txt".toList,
            Call.SetFileAttributesW "C:\\s\\b.txt".toList 0x20,
            Call.DeleteFileW "C:\\s\\b.txt".toList,
            Call.MoveFileExW "C:\\s\\b.txt".toList none MOVEFILE_DELAY_UNTIL_REBOOT]) ∧
      ((Browser_DeleteSelected exEnvLocked ViewKind.Folder true exDeleteRows [0] []).2.filter
        (fun c => c == Call.DeleteFileW "C:\\s\\b.txt".toList)).length = 1 ∧
      ((DeleteDirectoryTree exEnvLocked "C:\\s\\d".toList []).2.filter
        (fun c => c == Call.DeleteFileW "C:\\s\\d\\x.bin".toList)).length = 1 := by
  decide
/-- An entry that `walk` lists and that cannot be deleted: its attributes are
cleared, its delete is called once, and the call that follows schedules it for
removal at the next reboot. -/
theorem DeleteDirectoryTree.loop_schedules (env : Env) :
    ∀ (es : List Entry) (folder : WString) (hist : List Call),
      ∀ x ∈ walk folder es, (∀ h, env.deleteOf h x = false) →
        ∃ pre post, DeleteDirectoryTree.loop env (EnsureSlash folder) es hist =
          pre ++ (ClearReadonlyAndSystem env (deletePath x) (hist ++ pre) ++
            [deleteCall x,
              Call.MoveFileExW (c_str (deletePath x)) none MOVEFILE_DELAY_UNTIL_REBOOT]) ++
            post := by
  intro es
  induction es using Entry.list_induction with
  | nil => intro folder hist x hx; simp [walk] at hx
  | cons fd ch rest ihc ihr =>
    intro folder hist x hx hund
    rw [walk_cons] at hx
    rw [DeleteDirectoryTree.loop]
    rcases List.mem_append.1 hx with hx | hx
    · by_cases hdots : fd.isDots = true
      · simp [walkEntry, hdots] at hx
      · have hdots : fd.isDots = false := by simpa using hdots
        have hd : (fd.cFileName = ['.'] || fd.cFileName = ['.', '.']) = false := hdots
        simp only [walkEntry, hdots, Bool.false_eq_true, if_false, List.mem_cons] at hx
        rw [DeleteDirectoryTree.body]
        simp only [hd, Bool.false_eq_true, if_false]
        rcases hx with hx | hx
        · subst hx
          have hund2 := hund
          simp only [Env.deleteOf, deletePath, Entry.fd] at hund2
          simp only [deletePath, deleteCall, Entry.fd]
          cases hdir : fd.isDir with
          | false =>
            have hdir2 : (fd.dwFileAttributes &&& FILE_ATTRIBUTE_DIRECTORY != 0) = false := hdir
            simp only [hdir, Bool.false_and, Bool.false_eq_true, if_false] at hund2 ⊢
            simp only [hdir2, Bool.false_eq_true, if_false]
            refine ⟨[], ?_, ?_⟩
            rotate_left
            · simp only [DeleteDirectoryTree.leaf, Bool.false_eq_true, if_false, hund2,
                Bool.not_false, if_true, List.nil_append, List.append_nil]
              exact rfl
          | true =>
            have hdir2 : (fd.dwFileAttributes &&& FILE_ATTRIBUTE_DIRECTORY != 0) = true := hdir
            cases hrep : fd.isReparse with
            | true =>
              have hrep2 : (fd.dwFileAttributes &&& FILE_ATTRIBUTE_REPARSE_POINT != 0) = true :=
                hrep
              simp only [hdir, hrep, Bool.not_true, Bool.and_false, Bool.false_eq_true,
                if_false, if_true] at hund2 ⊢
              simp only [hdir2, hrep2, if_true]
              refine ⟨[], ?_, ?_⟩
              rotate_left
              · simp only [DeleteDirectoryTree.leaf, if_true, hund2,
                  Bool.not_false, List.nil_append, List.append_nil]
                exact rfl
            | false =>
              have hrep2 : (fd.dwFileAttributes &&& FILE_ATTRIBUTE_REPARSE_POINT != 0) = false :=
                hrep
              simp only [hdir, hrep, Bool.not_false, Bool.and_true, if_true] at hund2 ⊢
              simp only [hdir2, hrep2, if_true, Bool.false_eq_true, if_false]
              refine ⟨[Call.FindFirstFileW
                  (c_str (EnsureSlash (EnsureSlash folder ++ fd.cFileName) ++ ['*']))] ++
                DeleteDirectoryTree.loop env (EnsureSlash (EnsureSlash folder ++ fd.cFileName)) ch
                  (hist ++ [Call.FindFirstFileW
                    (c_str (EnsureSlash (EnsureSlash folder ++ fd.cFileName) ++ ['*']))]),
                ?_, ?_⟩
              rotate_left
              · simp only [DeleteDirectoryTree.finish, hund2, Bool.not_false, if_true,
                  List.append_assoc, List.singleton_append, List.cons_append, List.nil_append]
                exact rfl
        · by_cases hc : (fd.isDir && !fd.isReparse) = true
          · simp only [hc, if_true] at hx
            have hc2 : fd.isDir = true ∧ fd.isReparse = false := by simpa using hc
            have hdir2 : (fd.dwFileAttributes &&& FILE_ATTRIBUTE_DIRECTORY != 0) = true := hc2.1
            have hrep2 : (fd.dwFileAttributes &&& FILE_ATTRIBUTE_REPARSE_POINT != 0) = false :=
              hc2.2
            simp only [hdir2, hrep2, if_true, Bool.false_eq_true, if_false]
            obtain ⟨pre, post, h⟩ := ihc (EnsureSlash folder ++ fd.cFileName)
              (hist ++ [Call.FindFirstFileW
                (c_str (EnsureSlash (EnsureSlash folder ++ fd.cFileName) ++ ['*']))]) x hx hund
            rw [h]
            refine ⟨Call.FindFirstFileW
                (c_str (EnsureSlash (EnsureSlash folder ++ fd.cFileName) ++ ['*'])) :: pre,
              ?_, ?_⟩
            rotate_left
            · simp only [List.append_assoc, List.cons_append, List.nil_append,
                List.singleton_append]
              exact rfl
          · simp [hc] at hx
    · obtain ⟨pre, post, h⟩ := ihr folder
        (hist ++ DeleteDirectoryTree.body env (EnsureSlash folder) (Entry.mk fd ch) hist) x hx hund
      rw [h]
      refine ⟨DeleteDirectoryTree.body env (EnsureSlash folder) (Entry.mk fd ch) hist ++ pre,
        post, ?_⟩
      simp only [List.append_assoc]
theorem DeleteDirectoryTree_schedules (env : Env) (path : WString) (hist : List Call)
    (x : WString × Entry)
    (hx : x ∈ walk path (env.FindFiles hist (c_str (EnsureSlash path ++ ['*']))))
    (hund : ∀ h, env.deleteOf h x = false) :
    ∃ pre post, (DeleteDirectoryTree env path hist).2 =
      pre ++ (ClearReadonlyAndSystem env (deletePath x) (hist ++ pre) ++
        [deleteCall x,
          Call.MoveFileExW (c_str (deletePath x)) none MOVEFILE_DELAY_UNTIL_REBOOT]) ++ post := by
  obtain ⟨pre, post, h⟩ := DeleteDirectoryTree.loop_schedules env _ path
    (hist ++ [Call.FindFirstFileW (c_str (EnsureSlash path ++ ['*']))]) x hx hund
  unfold DeleteDirectoryTree
  simp only []
  rw [h]
  refine ⟨Call.FindFirstFileW (c_str (EnsureSlash path ++ ['*'])) :: pre, ?_, ?_⟩
  rotate_left
  · simp only [List.append_assoc, List.singleton_append, List.cons_append, List.nil_append]
    exact rfl

/-- While an entry scheduled for removal at the next reboot keeps the selected
directory from being removed, `DeleteDirectoryTree` returns `false`. -/
theorem DeleteDirectoryTree_nested_fails (env : Env) (path : WString) (hist : List Call)
    (x : WString × Entry)
    (hx : x ∈ walk path (env.FindFiles hist (c_str (EnsureSlash path ++ ['*']))))
    (hund : ∀ h, env.deleteOf h x = false)
    (hlaw : ∀ h, Call.MoveFileExW (c_str (deletePath x)) none MOVEFILE_DELAY_UNTIL_REBOOT ∈ h →
      env.RemoveDirectoryW h (c_str (DeleteDirectoryTree.strip path.length path)) = false) :
    (DeleteDirectoryTree env path hist).1 = false := by
  obtain ⟨pre, post, h⟩ := DeleteDirectoryTree.loop_schedules env _ path
    (hist ++ [Call.FindFirstFileW (c_str (EnsureSlash path ++ ['*']))]) x hx hund
  unfold DeleteDirectoryTree DeleteDirectoryTree.finish
  simp only []
  rw [hlaw]
  · rfl
  · rw [h]
    simp

theorem DeleteDirectoryTree_root_schedules (env : Env) (path : WString) (hist : List Call)
    (h : ∀ h, env.RemoveDirectoryW h (c_str (DeleteDirectoryTree.strip path.length path)) = false) :
    ∃ pre, (DeleteDirectoryTree env path hist).2 =
      pre ++ (ClearReadonlyAndSystem env (DeleteDirectoryTree.strip path.length path)
          (hist ++ pre) ++
        [Call.RemoveDirectoryW (c_str (DeleteDirectoryTree.strip path.length path)),
          Call.MoveFileExW (c_str (DeleteDirectoryTree.strip path.length path)) none
            MOVEFILE_DELAY_UNTIL_REBOOT]) := by
  unfold DeleteDirectoryTree DeleteDirectoryTree.finish
  simp only [h, Bool.not_false, if_true]
  refine ⟨[Call.FindFirstFileW (c_str (EnsureSlash path ++ ['*']))] ++
    DeleteDirectoryTree.loop env (EnsureSlash path)
      (env.FindFiles hist (c_str (EnsureSlash path ++ ['*'])))
      (hist ++ [Call.FindFirstFileW (c_str (EnsureSlash path ++ ['*']))]), ?_⟩
  simp only [List.append_assoc, List.singleton_append, List.cons_append, List.nil_append]

/-- C21 (amended): `Browser_DeleteSelected` clears the read-only and system
attributes first and then calls the delete of an entry once; when that call
fails, the next call schedules the entry for removal at the next reboot
(`MoveFileExW` with `MOVEFILE_DELAY_UNTIL_REBOOT`) and there is no second
attempt. A selected file that cannot be deleted sets `anyFailed`. A selected
directory sets `anyFailed` exactly when `DeleteDirectoryTree` returns `false`,
which is decided by the final `RemoveDirectoryW` of the directory alone: it
does so when that call fails, in particular when an entry that `walk` lists below
it could not be deleted and, being still there, keeps the directory from being
removed. -/
theorem Browser_DeleteSelected_clears_deletes_once_schedules (env : Env) (path : WString)
    (hist : List Call) (attrs : Nat)
    (hattrs : env.GetFileAttributesW hist (c_str path) = some attrs) :
    ((attrs &&& FILE_ATTRIBUTE_DIRECTORY != 0) = false →
      env.DeleteFileW
          (hist ++ ([Call.GetFileAttributesW (c_str path)] ++
            ClearReadonlyAndSystem env path (hist ++ [Call.GetFileAttributesW (c_str path)])))
          (c_str path) = false →
      Browser_DeleteSelected.item env path hist =
        (true, [Call.GetFileAttributesW (c_str path)] ++
          ClearReadonlyAndSystem env path (hist ++ [Call.GetFileAttributesW (c_str path)]) ++
          [Call.DeleteFileW (c_str path),
            Call.MoveFileExW (c_str path) none MOVEFILE_DELAY_UNTIL_REBOOT])) ∧
    ((attrs &&& FILE_ATTRIBUTE_DIRECTORY != 0) = true →
      Browser_DeleteSelected.item env path hist =
          (!(DeleteDirectoryTree env path (hist ++ [Call.GetFileAttributesW (c_str path)])).1,
            [Call.GetFileAttributesW (c_str path)] ++
              (DeleteDirectoryTree env path (hist ++ [Call.GetFileAttributesW (c_str path)])).2) ∧
        ((∀ h, env.RemoveDirectoryW h (c_str (DeleteDirectoryTree.strip path.length path)) =
            false) →
          (Browser_DeleteSelected.item env path hist).1 = true ∧
          ∃ pre,
            (DeleteDirectoryTree env path (hist ++ [Call.GetFileAttributesW (c_str path)])).2 =
              pre ++ (ClearReadonlyAndSystem env (DeleteDirectoryTree.strip path.length path)
                  (hist ++ [Call.GetFileAttributesW (c_str path)] ++ pre) ++
                [Call.RemoveDirectoryW (c_str (DeleteDirectoryTree.strip path.length path)),
                  Call.MoveFileExW (c_str (DeleteDirectoryTree.strip path.length path)) none
                    MOVEFILE_DELAY_UNTIL_REBOOT])) ∧
        ∀ x ∈ walk path (env.FindFiles (hist ++ [Call.GetFileAttributesW (c_str path)])
            (c_str (EnsureSlash path ++ ['*']))),
          (∀ h, env.deleteOf h x = false) →
            (∃ pre post,
              (DeleteDirectoryTree env path (hist ++ [Call.GetFileAttributesW (c_str path)])).2 =
                pre ++ (ClearReadonlyAndSystem env (deletePath x)
                    (hist ++ [Call.GetFileAttributesW (c_str path)] ++ pre) ++
                  [deleteCall x,
                    Call.MoveFileExW (c_str (deletePath x)) none MOVEFILE_DELAY_UNTIL_REBOOT]) ++
                  post) ∧
            ((∀ h, Call.MoveFileExW (c_str (deletePath x)) none MOVEFILE_DELAY_UNTIL_REBOOT ∈ h →
                env.RemoveDirectoryW h (c_str (DeleteDirectoryTree.strip path.length path)) =
                  false) →
              (DeleteDirectoryTree env path
                (hist ++ [Call.GetFileAttributesW (c_str path)])).1 = false ∧
              (Browser_DeleteSelected.item env path hist).1 = true)) := by
  have hitem : (attrs &&& FILE_ATTRIBUTE_DIRECTORY != 0) = true →
      Browser_DeleteSelected.item env path hist =
        (!(DeleteDirectoryTree env path (hist ++ [Call.GetFileAttributesW (c_str path)])).1,
          [Call.GetFileAttributesW (c_str path)] ++
            (DeleteDirectoryTree env path (hist ++ [Call.GetFileAttributesW (c_str path)])).2) := by
    intro hdir
    unfold Browser_DeleteSelected.item
    simp only [hattrs, hdir, if_true]
  refine ⟨?_, ?_⟩
  · intro hfile hdel
    unfold Browser_DeleteSelected.item
    simp only [hattrs, hfile, Bool.false_eq_true, if_false, hdel, Bool.not_false, if_true]
  · intro hdir
    refine ⟨hitem hdir, ?_, ?_⟩
    · intro hroot
      refine ⟨?_, DeleteDirectoryTree_root_schedules env path _ hroot⟩
      rw [hitem hdir, DeleteDirectoryTree_result env path _ hroot]
      rfl
    · intro x hx hund
      refine ⟨DeleteDirectoryTree_schedules env path _ x hx hund, ?_⟩
      intro hlaw
      have h1 := DeleteDirectoryTree_nested_fails env path _ x hx hund hlaw
      refine ⟨h1, ?_⟩
      rw [hitem hdir, h1]
      rfl
theorem exEnvLocked_FindFiles_d (h : List Call) :
    exEnvLocked.FindFiles h (c_str (EnsureSlash "C:\\s\\d".toList ++ ['*'])) = exDirTree :=
  exEnv_FindFiles_d h

theorem Browser_DeleteSelected_clears_deletes_once_schedules_witness :
    exEnvLocked.GetFileAttributesW [] "C:\\s\\b.txt".toList = some 0x21 ∧
      Browser_DeleteSelected.item exEnvLocked "C:\\s\\b.txt".toList [] =
        (true,
          [Call.GetFileAttributesW "C:\\s\\b.txt".toList,
            Call.GetFileAttributesW "C:\\s\\b.txt".toList,
            Call.SetFileAttributesW "C:\\s\\b.txt".toList 0x20,
            Call.DeleteFileW "C:\\s\\b.txt".toList,
            Call.MoveFileExW "C:\\s\\b.txt".toList none MOVEFILE_DELAY_UNTIL_REBOOT]) ∧
      exEnvLocked.GetFileAttributesW [] "C:\\s\\d".toList = some 0x10 ∧
      (∀ h, exEnvLocked.deleteOf h
        ("C:\\s\\d\\x.bin".toList, Entry.mk ⟨"x.bin".toList, 0x20, ⟨1, 1⟩, 0, 5⟩ []) = false) ∧
      (DeleteDirectoryTree exEnvLocked "C:\\s\\d".toList
        [Call.GetFileAttributesW "C:\\s\\d".toList]).1 = false ∧
      (Browser_DeleteSelected.item exEnvLocked "C:\\s\\d".toList []).1 = true :=
  have F := (Browser_DeleteSelected_clears_deletes_once_schedules exEnvLocked
    "C:\\s\\b.txt".toList [] 0x21 (by decide)).1 (by decide) (by decide)
  have T := ((Browser_DeleteSelected_clears_deletes_once_schedules exEnvLocked
    "C:\\s\\d".toList [] 0x10 (by decide)).2 (by decide)).2.2
    ("C:\\s\\d\\x.bin".toList, Entry.mk ⟨"x.bin".toList, 0x20, ⟨1, 1⟩, 0, 5⟩ [])
    (by
      rw [exEnvLocked_FindFiles_d]
      exact walk_top "C:\\s\\d".toList (Entry.mk ⟨"x.bin".toList, 0x20, ⟨1, 1⟩, 0, 5⟩ [])
        (by decide) exDirTree (by simp [exDirTree]))
    (fun _ => rfl)
  ⟨by decide, F, by decide, fun _ => rfl, T.2 (fun _ _ => rfl)⟩
/-! ### `CopyDirectoryTree` and nested links -/

/-- Every call of the copy loop concerns an entry that `walk` lists: a file or a
link is handed to `CopyFileExW` under its own path; for a directory that is no
reparse point the mirror directory is created and the directory enumerated. -/
theorem CopyDirectoryTree.loop_sources (env : Env) :
    ∀ (es : List Entry) (folder d : WString) (hist : List Call) (fl : OpFlags),
      ∀ c ∈ (CopyDirectoryTree.loop env (EnsureSlash folder) d es hist fl).2.2,
        ∃ x ∈ walk folder es,
          ((∃ b, c = Call.CopyFileExW (c_str x.1) b) ∧
            (x.2.fd.isDir = false ∨ x.2.fd.isReparse = true)) ∨
          (x.2.fd.isDir = true ∧ x.2.fd.isReparse = false ∧
            ((∃ p, c = Call.CreateDirectoryW p) ∨
              c = Call.FindFirstFileW (c_str (EnsureSlash x.1 ++ ['*'])))) := by
  intro es
  induction es using Entry.list_induction with
  | nil => intro folder d hist fl c hc; simp [CopyDirectoryTree.loop] at hc
  | cons fd ch rest ihc ihr =>
    intro folder d hist fl c hc
    rw [walk_cons]
    have hb : ∀ c ∈ (CopyDirectoryTree.body env (EnsureSlash folder) d (Entry.mk fd ch)
        hist fl).2.2,
        ∃ x ∈ walkEntry folder (Entry.mk fd ch),
          ((∃ b, c = Call.CopyFileExW (c_str x.1) b) ∧
            (x.2.fd.isDir = false ∨ x.2.fd.isReparse = true)) ∨
          (x.2.fd.isDir = true ∧ x.2.fd.isReparse = false ∧
            ((∃ p, c = Call.CreateDirectoryW p) ∨
              c = Call.FindFirstFileW (c_str (EnsureSlash x.1 ++ ['*'])))) := by
      intro c hc
      rw [CopyDirectoryTree.body] at hc
      by_cases hdots : fd.isDots = true
      · have hd : (fd.cFileName = ['.'] || fd.cFileName = ['.', '.']) = true := hdots
        simp [hd] at hc
      · have hdots : fd.isDots = false := by simpa using hdots
        have hd : (fd.cFileName = ['.'] || fd.cFileName = ['.', '.']) = false := hdots
        simp only [hd, Bool.false_eq_true, if_false] at hc
        have hself : (EnsureSlash folder ++ fd.cFileName, Entry.mk fd ch) ∈
            walkEntry folder (Entry.mk fd ch) := walkEntry_self folder (Entry.mk fd ch) hdots
        split at hc
        · simp at hc
        · split at hc
          · simp at hc
          · by_cases hcond : (fd.isDir && !fd.isReparse) = true
            · have hc2 : fd.isDir = true ∧ fd.isReparse = false := by simpa using hcond
              have hcond2 : ((fd.dwFileAttributes &&& FILE_ATTRIBUTE_DIRECTORY != 0) &&
                  !(fd.dwFileAttributes &&& FILE_ATTRIBUTE_REPARSE_POINT != 0)) = true := hcond
              simp only [hcond2, if_true] at hc
              split at hc
              · simp only [List.mem_singleton] at hc
                exact ⟨_, hself, Or.inr ⟨hc2.1, hc2.2, Or.inl ⟨_, hc⟩⟩⟩
              · simp only [List.mem_append, List.mem_singleton] at hc
                rcases hc with (hc | hc) | hc
                · exact ⟨_, hself, Or.inr ⟨hc2.1, hc2.2, Or.inl ⟨_, hc⟩⟩⟩
                · exact ⟨_, hself, Or.inr ⟨hc2.1, hc2.2, Or.inr hc⟩⟩
                · obtain ⟨x, hx, hx2⟩ := ihc (EnsureSlash folder ++ fd.cFileName) _ _ _ c hc
                  exact ⟨x, walkEntry_children folder (Entry.mk fd ch) hdots hc2.1 hc2.2 x hx,
                    hx2⟩
            · have hcond : (fd.isDir && !fd.isReparse) = false := by simpa using hcond
              have hcond2 : ((fd.dwFileAttributes &&& FILE_ATTRIBUTE_DIRECTORY != 0) &&
                  !(fd.dwFileAttributes &&& FILE_ATTRIBUTE_REPARSE_POINT != 0)) = false := hcond
              simp only [hcond2, Bool.false_eq_true, if_false, List.mem_singleton] at hc
              refine ⟨_, hself, Or.inl ⟨⟨_, hc⟩, ?_⟩⟩
              show fd.isDir = false ∨ fd.isReparse = true
              cases h1 : fd.isDir <;> cases h2 : fd.isReparse <;> simp [h1, h2] at hcond ⊢
    rw [CopyDirectoryTree.loop_cons] at hc
    split at hc
    · rcases List.mem_append.1 hc with hc | hc
      · obtain ⟨x, hx, hx2⟩ := hb c hc
        exact ⟨x, List.mem_append_left _ hx, hx2⟩
      · obtain ⟨x, hx, hx2⟩ := ihr folder _ _ _ c hc
        exact ⟨x, List.mem_append_right _ hx, hx2⟩
    · obtain ⟨x, hx, hx2⟩ := hb c hc
      exact ⟨x, List.mem_append_left _ hx, hx2⟩
/-- When the copy loop runs to its end, every file and every link that `walk`
lists has been handed to `CopyFileExW` under its own path. -/
theorem CopyDirectoryTree.loop_copies (env : Env) :
    ∀ (es : List Entry) (folder d : WString) (hist : List Call) (fl : OpFlags),
      (CopyDirectoryTree.loop env (EnsureSlash folder) d es hist fl).1 = true →
      ∀ x ∈ walk folder es, (x.2.fd.isDir = false ∨ x.2.fd.isReparse = true) →
        ∃ b, Call.CopyFileExW (c_str x.1) b ∈
          (CopyDirectoryTree.loop env (EnsureSlash folder) d es hist fl).2.2 := by
  intro es
  induction es using Entry.list_induction with
  | nil => intro folder d hist fl _ x hx; simp [walk] at hx
  | cons fd ch rest ihc ihr =>
    intro folder d hist fl hok x hx hleaf
    rw [walk_cons] at hx
    rw [CopyDirectoryTree.loop_cons] at hok ⊢
    by_cases hb1 : (CopyDirectoryTree.body env (EnsureSlash folder) d (Entry.mk fd ch)
        hist fl).1 = true
    · simp only [hb1, if_true] at hok ⊢
      rcases List.mem_append.1 hx with hx | hx
      · have : ∃ b, Call.CopyFileExW (c_str x.1) b ∈
            (CopyDirectoryTree.body env (EnsureSlash folder) d (Entry.mk fd ch) hist fl).2.2 := by
          rw [CopyDirectoryTree.body] at hb1 ⊢
          by_cases hdots : fd.isDots = true
          · simp [walkEntry, hdots] at hx
          · have hdots : fd.isDots = false := by simpa using hdots
            have hd : (fd.cFileName = ['.'] || fd.cFileName = ['.', '.']) = false := hdots
            simp only [hd, Bool.false_eq_true, if_false] at hb1 ⊢
            simp only [walkEntry, hdots, Bool.false_eq_true, if_false, List.mem_cons] at hx
            split at hb1
            · simp at hb1
            · split at hb1
              · simp at hb1
              · rename_i hc1 hc2
                have hc1 : fl.cancel = false := by simpa using hc1
                have hc2 : fl.uiCancel = false := by simpa using hc2
                simp only [hc1, hc2, Bool.false_eq_true, if_false]
                by_cases hcond : (fd.isDir && !fd.isReparse) = true
                · have hc3 : fd.isDir = true ∧ fd.isReparse = false := by simpa using hcond
                  have hcond2 : ((fd.dwFileAttributes &&& FILE_ATTRIBUTE_DIRECTORY != 0) &&
                      !(fd.dwFileAttributes &&& FILE_ATTRIBUTE_REPARSE_POINT != 0)) = true :=
                    hcond
                  simp only [hcond2, if_true] at hb1 ⊢
                  simp only [hcond, if_true] at hx
                  rcases hx with hx | hx
                  · subst hx
                    rcases hleaf with h | h
                    · have h : fd.isDir = false := h
                      rw [hc3.1] at h; cases h
                    · have h : fd.isReparse = true := h
                      rw [hc3.2] at h; cases h
                  · split at hb1
                    · simp at hb1
                    · rename_i hen
                      have hen2 : (!CopyDirectoryTree.enter env
                          (EnsureSlash (d ++ fd.cFileName)) hist) = false := by simpa using hen
                      simp only [hen2, Bool.false_eq_true, if_false]
                      obtain ⟨b, hb⟩ := ihc (EnsureSlash folder ++ fd.cFileName) _ _ _ hb1 x hx
                        hleaf
                      exact ⟨b, List.mem_append_right _ hb⟩
                · have hcond : (fd.isDir && !fd.isReparse) = false := by simpa using hcond
                  have hcond2 : ((fd.dwFileAttributes &&& FILE_ATTRIBUTE_DIRECTORY != 0) &&
                      !(fd.dwFileAttributes &&& FILE_ATTRIBUTE_REPARSE_POINT != 0)) = false :=
                    hcond
                  simp only [hcond2, Bool.false_eq_true, if_false]
                  simp only [hcond, Bool.false_eq_true, if_false, List.not_mem_nil,
                    or_false] at hx
                  subst hx
                  exact ⟨_, List.mem_singleton.2 rfl⟩
        obtain ⟨b, hb⟩ := this
        exact ⟨b, List.mem_append_left _ hb⟩
      · obtain ⟨b, hb⟩ := ihr folder _ _ _ hok x hx hleaf
        exact ⟨b, List.mem_append_right _ hb⟩
    · have hb1 : (CopyDirectoryTree.body env (EnsureSlash folder) d (Entry.mk fd ch)
          hist fl).1 = false := by simpa using hb1
      simp [hb1] at hok

theorem CopyDirectoryTree_copies (env : Env) (src dst : WString) (hist : List Call)
    (fl : OpFlags) (h : (CopyDirectoryTree env src dst hist fl).1 = true) :
    ∀ x ∈ walk src (env.FindFiles (hist ++ [Call.CreateDirectoryW (c_str (EnsureSlash dst))])
        (c_str (EnsureSlash src ++ ['*']))),
      (x.2.fd.isDir = false ∨ x.2.fd.isReparse = true) →
        ∃ b, Call.CopyFileExW (c_str x.1) b ∈ (CopyDirectoryTree env src dst hist fl).2.2 := by
  intro x hx hleaf
  unfold CopyDirectoryTree at h ⊢
  simp only [] at h ⊢
  split at h
  · simp at h
  · rename_i hen
    have hen2 : (!CopyDirectoryTree.enter env (EnsureSlash dst) hist) = false := by
      simpa using hen
    simp only [hen2, Bool.false_eq_true, if_false]
    obtain ⟨b, hb⟩ := CopyDirectoryTree.loop_copies env _ src _ _ _ h x hx hleaf
    exact ⟨b, List.mem_append_right _ hb⟩
/-- C26: when `CopyDirectoryTree` runs on a source whose tree (proper names,
pairwise distinct in each directory) holds an entry `L` flagged as a reparse
point at path `pL`, no call enumerates `pL\` or a path that continues it, and no
`CopyFileExW` reads from a path that continues `pL\`: `L` is never enumerated and
nothing beneath it is read or copied. When the copy runs to its end and `L` is
reached through ordinary directories, `pL` itself is handed to `CopyFileExW`. -/
theorem CopyDirectoryTree_leaves_link_target_alone (env : Env) (src dst : WString)
    (hist : List Call) (fl : OpFlags) (chain : List FindData) (pL : WString) (L : Entry)
    (hsrc : NUL ∉ src)
    (hnames : properTree (env.FindFiles (hist ++ [Call.CreateDirectoryW (c_str (EnsureSlash dst))])
      (c_str (EnsureSlash src ++ ['*']))) = true)
    (hdist : distinctNames (env.FindFiles
      (hist ++ [Call.CreateDirectoryW (c_str (EnsureSlash dst))])
      (c_str (EnsureSlash src ++ ['*']))) = true)
    (hL : At src (env.FindFiles (hist ++ [Call.CreateDirectoryW (c_str (EnsureSlash dst))])
      (c_str (EnsureSlash src ++ ['*']))) chain pL L)
    (hrep : L.fd.isReparse = true) :
    (∀ c ∈ (CopyDirectoryTree env src dst hist fl).2.2,
      (∀ t, c = Call.FindFirstFileW t → ¬ (c_str (EnsureSlash pL) <+: t)) ∧
      (∀ a b, c = Call.CopyFileExW a b → ¬ (c_str (EnsureSlash pL) <+: a))) ∧
    ((CopyDirectoryTree env src dst hist fl).1 = true →
      (∀ a ∈ chain, a.isDir = true ∧ a.isReparse = false ∧ a.isDots = false) →
      L.fd.isDots = false →
      ∃ b, Call.CopyFileExW (c_str pL) b ∈ (CopyDirectoryTree env src dst hist fl).2.2) := by
  obtain ⟨⟨s, hs0, hs⟩, h0, hb, hf⟩ := hL.under hnames
  have hN := hL.no_NUL hnames hsrc
  have hE : c_str (EnsureSlash pL) = pL ++ [BSL] := by
    rw [c_str_eq_self (EnsureSlash_no_NUL hN), EnsureSlash_of_name h0 hb hf]
  have hlen : (EnsureSlash src).length + 1 < (pL ++ [BSL]).length := by
    have : 0 < s.length := List.length_pos.2 hs0
    rw [hs]
    simp only [List.length_append, List.length_singleton]
    omega
  have beneath : ∀ x ∈ walk src (env.FindFiles
      (hist ++ [Call.CreateDirectoryW (c_str (EnsureSlash dst))])
      (c_str (EnsureSlash src ++ ['*']))), pL ++ [BSL] <+: x.1 → False := by
    intro x hx hp
    obtain ⟨cx, hat, _, hcx⟩ := walk_sound _ src x hx
    have := hat.ancestor_of_beneath hnames hdist hL hp
    have := (hcx _ this).2.1
    rw [hrep] at this
    exact absurd this (by decide)
  refine ⟨?_, fun hok hchain hdots =>
    CopyDirectoryTree_copies env src dst hist fl hok (pL, L)
      (walk_complete src _ hL hchain hdots) (Or.inr hrep)⟩
  intro c hc
  unfold CopyDirectoryTree at hc
  simp only [] at hc
  have top : c = Call.FindFirstFileW (c_str (EnsureSlash src ++ ['*'])) →
      (∀ t, c = Call.FindFirstFileW t → ¬ (c_str (EnsureSlash pL) <+: t)) ∧
      (∀ a b, c = Call.CopyFileExW a b → ¬ (c_str (EnsureSlash pL) <+: a)) := by
    intro h
    subst h
    refine ⟨?_, (fun a b h => by cases h)⟩
    intro t ht hpre
    injection ht with ht
    rw [hE] at hpre
    have hle := hpre.length_le
    rw [← ht] at hle
    have := c_str_length_le (EnsureSlash src ++ ['*'])
    simp only [List.length_append, List.length_singleton] at this hle hlen
    omega
  have mk : (∃ p, c = Call.CreateDirectoryW p) →
      (∀ t, c = Call.FindFirstFileW t → ¬ (c_str (EnsureSlash pL) <+: t)) ∧
      (∀ a b, c = Call.CopyFileExW a b → ¬ (c_str (EnsureSlash pL) <+: a)) := by
    rintro ⟨p, rfl⟩
    exact ⟨(fun t h => by cases h), (fun a b h => by cases h)⟩
  split at hc
  · simp only [List.mem_singleton] at hc
    exact mk ⟨_, hc⟩
  · simp only [List.mem_append, List.mem_singleton] at hc
    rcases hc with (hc | hc) | hc
    · exact mk ⟨_, hc⟩
    · exact top hc
    · obtain ⟨x, hx, hx2⟩ := CopyDirectoryTree.loop_sources env _ src _ _ _ c hc
      obtain ⟨cx, hat, _, hcx⟩ := walk_sound _ src x hx
      obtain ⟨_, x0, xb, xf⟩ := hat.under hnames
      have xN := hat.no_NUL hnames hsrc
      rcases hx2 with ⟨⟨b, rfl⟩, _⟩ | ⟨_, hxr, h | h⟩
      · refine ⟨(fun t h => by cases h), ?_⟩
        intro a b2 h hpre
        injection h with h1 h2
        rw [← h1, c_str_eq_self xN, hE] at hpre
        exact beneath x hx hpre
      · exact mk h
      · subst h
        refine ⟨?_, (fun a b h => by cases h)⟩
        intro t ht hpre
        injection ht with ht
        rw [hE] at hpre
        rw [← ht, EnsureSlash_of_name x0 xb xf,
          c_str_eq_self (by
            intro hm
            simp only [List.mem_append, List.mem_singleton] at hm
            rcases hm with (hm | hm) | hm
            · exact xN hm
            · exact absurd hm (by decide)
            · exact absurd hm (by decide))] at hpre
        obtain ⟨q, hq⟩ := hpre
        rcases List.eq_nil_or_concat q with rfl | ⟨q2, y, rfl⟩
        · have := List.append_inj_right'
            (by simpa using hq : pL ++ [BSL] = (x.1 ++ [BSL]) ++ ['*']) rfl
          exact absurd this (by decide)
        · have h3 : (pL ++ [BSL] ++ q2) ++ [y] = (x.1 ++ [BSL]) ++ ['*'] := by
            rw [← hq]; simp
          have h4 : pL ++ [BSL] ++ q2 = x.1 ++ [BSL] := List.append_inj_left' h3 rfl
          rcases List.eq_nil_or_concat q2 with rfl | ⟨q3, z, rfl⟩
          · have hpx : pL = x.1 := by simpa using h4
            have := (hL.path_inj hnames hdist hat hpx).1
            rw [← this, hrep] at hxr
            exact absurd hxr (by decide)
          · have h5 : (pL ++ [BSL] ++ q3) ++ [z] = x.1 ++ [BSL] := by
              rw [← h4]; simp
            exact beneath x hx ⟨q3, List.append_inj_left' h5 rfl⟩

theorem CopyDirectoryTree_leaves_link_target_alone_witness :
    Call.CopyFileExW "C:\\s\\d\\sub\\link".toList "D:\\t\\d\\sub\\link".toList ∈
        (CopyDirectoryTree exEnv "C:\\s\\d".toList "D:\\t\\d".toList [] {}).2.2 ∧
      Call.FindFirstFileW "C:\\s\\d\\sub\\link\\*".toList ∉
        (CopyDirectoryTree exEnv "C:\\s\\d".toList "D:\\t\\d".toList [] {}).2.2 ∧
      (∀ b, Call.CopyFileExW "C:\\s\\d\\sub\\link\\y.bin".toList b ∉
        (CopyDirectoryTree exEnv "C:\\s\\d".toList "D:\\t\\d".toList [] {}).2.2) :=
  have T := CopyDirectoryTree_leaves_link_target_alone exEnv "C:\\s\\d".toList
    "D:\\t\\d".toList [] {} [exSubEntry.fd] "C:\\s\\d\\sub\\link".toList exLinkEntry (by decide)
    (by rw [exEnv_FindFiles_d]; decide) (by rw [exEnv_FindFiles_d]; decide)
    (by
      rw [exEnv_FindFiles_d]
      exact At.child [] _ exSubEntry exLinkEntry (At.top exSubEntry (by simp [exDirTree]))
        (by simp [exSubEntry, Entry.children]))
    (by decide)
  ⟨by decide,
    fun h => (T.1 (Call.FindFirstFileW "C:\\s\\d\\sub\\link\\*".toList) h).1
      "C:\\s\\d\\sub\\link\\*".toList rfl (by decide),
    fun b h => (T.1 (Call.CopyFileExW "C:\\s\\d\\sub\\link\\y.bin".toList b) h).2
      "C:\\s\\d\\sub\\link\\y.bin".toList b rfl (by decide)⟩
/-! ### The self-paste guard -/

theorem towlower_eq_of_not_letter (c x : Char) (hx : x.toNat < 97 ∨ 122 < x.toNat)
    (h : towlower c = x) : c = x := by
  unfold towlower Char.toLower at h
  simp only [] at h
  split at h
  · rename_i hr
    exfalso
    have h2 := congrArg Char.toNat h
    have hr2 : c.toNat ≥ 65 ∧ c.toNat ≤ 90 := hr
    rw [Char.toNat_ofNat_small _ (by omega)] at h2
    omega
  · exact h

theorem ToLower_no (x : Char) (hx : x.toNat < 97 ∨ 122 < x.toNat) (s : WString) (h : x ∉ s) :
    x ∉ ToLower s := by
  intro hm
  unfold ToLower at hm
  obtain ⟨c, hc, e⟩ := List.mem_map.1 hm
  rw [towlower_eq_of_not_letter c x hx e] at hc
  exact h hc

theorem ToLower_append (a b : WString) : ToLower (a ++ b) = ToLower a ++ ToLower b := by
  simp [ToLower]

theorem ToLower_length (a : WString) : (ToLower a).length = a.length := by
  simp [ToLower]

/-- On paths without NUL, `IsPrefixPathNoCase` is the case-insensitive prefix test
on the two paths with a trailing slash. -/
theorem IsPrefixPathNoCase_iff (S D : WString) (hS : NUL ∉ S) (hD : NUL ∉ D) :
    IsPrefixPathNoCase S D = true ↔ ciBegins (EnsureSlash S) (EnsureSlash D) := by
  have hP := EnsureSlash_no_NUL hS
  have hC := EnsureSlash_no_NUL hD
  unfold IsPrefixPathNoCase ciBegins
  simp only []
  by_cases hlen : (EnsureSlash S).length > (EnsureSlash D).length
  · simp only [hlen, if_true, Bool.false_eq_true, false_iff]
    intro hp
    have := hp.length_le
    rw [ToLower_length, ToLower_length] at this
    omega
  · simp only [hlen, if_false, beq_iff_eq]
    unfold _wcsnicmp
    rw [c_str_eq_self hP, c_str_eq_self hC, List.take_length,
      _wcsicmp_eq_zero_iff _ _ hP (fun h => hC (List.mem_of_mem_take h)), wkey_eq_iff,
      List.prefix_iff_eq_take, ToLower_length]
    unfold ToLower
    rw [List.map_take]

theorem digitChar_not_sep : ∀ d : Nat, d < 10 →
    Nat.digitChar d ≠ BSL ∧ Nat.digitChar d ≠ FSL := by
  decide

theorem toDigitsCore_no_sep : ∀ (fuel n : Nat) (acc : List Char), (BSL ∉ acc ∧ FSL ∉ acc) →
    BSL ∉ Nat.toDigitsCore 10 fuel n acc ∧ FSL ∉ Nat.toDigitsCore 10 fuel n acc := by
  intro fuel
  induction fuel with
  | zero => intro n acc h; simpa [Nat.toDigitsCore] using h
  | succ fuel ih =>
    intro n acc h
    unfold Nat.toDigitsCore
    dsimp only
    have hd := digitChar_not_sep _ (Nat.mod_lt n (by decide : 0 < 10))
    have h2 : BSL ∉ Nat.digitChar (n % 10) :: acc ∧ FSL ∉ Nat.digitChar (n % 10) :: acc := by
      constructor
      · intro hm
        rcases List.mem_cons.1 hm with e | e
        · exact hd.1 e.symm
        · exact h.1 e
      · intro hm
        rcases List.mem_cons.1 hm with e | e
        · exact hd.2 e.symm
        · exact h.2 e
    split
    · exact h2
    · exact ih _ _ h2

theorem swprintf_paren_no_sep (i : Nat) : BSL ∉ swprintf_paren i ∧ FSL ∉ swprintf_paren i := by
  have h := toDigitsCore_no_sep (i + 1) i [] (by simp)
  unfold swprintf_paren
  constructor
  · intro hm
    rcases List.mem_append.1 hm with hm | hm
    · rcases List.mem_append.1 hm with hm | hm
      · exact absurd hm (by decide)
      · exact h.1 hm
    · exact absurd hm (by decide)
  · intro hm
    rcases List.mem_append.1 hm with hm | hm
    · rcases List.mem_append.1 hm with hm | hm
      · exact absurd hm (by decide)
      · exact h.2 hm
    · exact absurd hm (by decide)

/-- The destination of a directory item is the destination folder with a
trailing slash followed by a name without separator and without NUL. -/
theorem RunClipboardOperationWithUI.dst_dir (fs : WString → Bool) (D f : WString) :
    ∃ t, RunClipboardOperationWithUI.dst fs D f true = EnsureSlash D ++ t ∧
      BSL ∉ t ∧ FSL ∉ t ∧ NUL ∉ t := by
  have hb := baseName_no_BSL (StripTrailingSlashes f)
  have hf := baseName_no_FSL (StripTrailingSlashes f)
  have hn := baseName_no_NUL (StripTrailingSlashes f)
  unfold RunClipboardOperationWithUI.dst
  simp only [RunClipboardOperationWithUI.splitName, if_true]
  unfold UniqueName
  simp only []
  split
  · exact ⟨_, by rw [List.append_nil], hb, hf, hn⟩
  · rcases UniqueName.loop_result fs (EnsureSlash D)
        (RunClipboardOperationWithUI.baseName (StripTrailingSlashes f)) []
        (EnsureSlash D ++ RunClipboardOperationWithUI.baseName (StripTrailingSlashes f) ++ [])
        9999 1 with h | ⟨j, _, _, h, _⟩
    · rw [h]
      exact ⟨_, by rw [List.append_nil], hb, hf, hn⟩
    · rw [h]
      have hs := swprintf_paren_no_sep j
      have hz := swprintf_paren_no_NUL j
      refine ⟨RunClipboardOperationWithUI.baseName (StripTrailingSlashes f) ++
        swprintf_paren j, by simp, ?_, ?_, ?_⟩
      · exact fun hm => (List.mem_append.1 hm).elim hb hs.1
      · exact fun hm => (List.mem_append.1 hm).elim hf hs.2
      · exact fun hm => (List.mem_append.1 hm).elim hn hz
theorem EnsureSlash_last (p : WString) (h : p ≠ []) :
    (EnsureSlash p).getLast? = some BSL ∨ (EnsureSlash p).getLast? = some FSL := by
  unfold EnsureSlash
  cases hq : p.getLast? with
  | none => exact absurd (List.getLast?_eq_none_iff.1 hq) h
  | some c =>
    simp only []
    by_cases h1 : c = BSL
    · subst h1
      left
      simpa using hq
    · by_cases h2 : c = FSL
      · subst h2
        right
        simpa using hq
      · left
        simp [h1, h2]

theorem EnsureSlash_of_sep (q : WString)
    (h : q.getLast? = some BSL ∨ q.getLast? = some FSL) : EnsureSlash q = q := by
  unfold EnsureSlash
  rcases h with e | e <;> rw [e] <;> simp

theorem EnsureSlash_idem (p : WString) : EnsureSlash (EnsureSlash p) = EnsureSlash p := by
  by_cases h : p = []
  · subst h; rfl
  · exact EnsureSlash_of_sep _ (EnsureSlash_last p h)

/-- When the source with a trailing slash is no case-insensitive prefix of the
destination folder but is one of the destination path, the two paths are the
same up to case. -/
theorem ciBegins_of_new_name (S D t : WString) (hb : BSL ∉ t) (hf : FSL ∉ t)
    (h1 : ¬ ciBegins (EnsureSlash S) (EnsureSlash D))
    (h2 : ciBegins (EnsureSlash S) (EnsureSlash (EnsureSlash D ++ t))) :
    ToLower (EnsureSlash (EnsureSlash D ++ t)) = ToLower (EnsureSlash S) := by
  unfold ciBegins at h1 h2
  by_cases ht : t = []
  · subst ht
    rw [List.append_nil, EnsureSlash_idem] at h2
    exact absurd h2 h1
  · have hS : S ≠ [] := by
      rintro rfl
      exact h1 (by simp [EnsureSlash, ToLower])
    have hne : EnsureSlash D ++ t ≠ [] := by simp [ht]
    have hlast : (EnsureSlash D ++ t).getLast? = t.getLast? := by
      rw [List.getLast?_append]
      cases hq : t.getLast? with
      | none => exact absurd (List.getLast?_eq_none_iff.1 hq) ht
      | some c => rfl
    have hl1 : (EnsureSlash D ++ t).getLast? ≠ some BSL := by
      rw [hlast]
      intro e
      exact hb (List.mem_of_getLast?_eq_some e)
    have hl2 : (EnsureSlash D ++ t).getLast? ≠ some FSL := by
      rw [hlast]
      intro e
      exact hf (List.mem_of_getLast?_eq_some e)
    rw [EnsureSlash_of_name hne hl1 hl2] at h2 ⊢
    rw [ToLower_append, ToLower_append] at h2 ⊢
    have hX : ToLower (EnsureSlash D) <+: ToLower (EnsureSlash D) ++ ToLower t ++ ToLower [BSL] := by
      rw [List.append_assoc]
      exact List.prefix_append _ _
    have hlen : (ToLower (EnsureSlash D)).length ≤ (ToLower (EnsureSlash S)).length := by
      by_contra hc
      exact h1 (List.prefix_of_prefix_length_le h2 hX (by omega))
    obtain ⟨Y, hY⟩ := List.prefix_of_prefix_length_le hX h2 hlen
    rw [← hY, List.append_assoc, List.prefix_append_right_inj] at h2
    have hYne : Y ≠ [] := by
      rintro rfl
      rw [List.append_nil] at hY
      exact h1 (by rw [← hY])
    have hYlast : Y.getLast? = some BSL ∨ Y.getLast? = some FSL := by
      have : (ToLower (EnsureSlash S)).getLast? = Y.getLast? := by
        rw [← hY, List.getLast?_append]
        cases hq : Y.getLast? with
        | none => exact absurd (List.getLast?_eq_none_iff.1 hq) hYne
        | some c => rfl
      rw [← this]
      unfold ToLower
      rw [List.getLast?_map]
      rcases EnsureSlash_last S hS with e | e <;> rw [e]
      · left; rfl
      · right; rfl
    have hT1 := ToLower_no BSL (by decide) t hb
    have hT2 := ToLower_no FSL (by decide) t hf
    have hsplit : Y = ToLower t ++ ToLower [BSL] ∨ Y <+: ToLower t := by
      have : ToLower [BSL] = [BSL] := rfl
      rw [this] at h2 ⊢
      exact List.prefix_concat_iff.1 h2
    rcases hsplit with e | e
    · rw [← hY, e, List.append_assoc]
    · exfalso
      rcases hYlast with l | l
      · exact hT1 (e.subset (List.mem_of_getLast?_eq_some l))
      · exact hT2 (e.subset (List.mem_of_getLast?_eq_some l))
theorem RunClipboardOperationWithUI.item_of_no_guard (env : Env) (D : WString) (isCopy : Bool)
    (f : WString) (hist : List Call) (fl : OpFlags) (allOk : Bool) (attrs : Nat)
    (hattrs : env.GetFileAttributesW hist (c_str (StripTrailingSlashes f)) = some attrs)
    (hdir : (attrs &&& FILE_ATTRIBUTE_DIRECTORY != 0) = true)
    (h1 : IsPrefixPathNoCase (StripTrailingSlashes f) D = false)
    (h2 : IsPrefixPathNoCase (StripTrailingSlashes f)
      (RunClipboardOperationWithUI.dst
        (env.PathFileExistsW (hist ++ [Call.GetFileAttributesW (c_str (StripTrailingSlashes f))]))
        D f true) = false) :
    RunClipboardOperationWithUI.item env D isCopy f hist fl allOk =
      RunClipboardOperationWithUI.epilogue env hist
        [Call.GetFileAttributesW (c_str (StripTrailingSlashes f)), Call.PumpMessages]
        (RunClipboardOperationWithUI.transfer env isCopy true (StripTrailingSlashes f)
          (RunClipboardOperationWithUI.dst
            (env.PathFileExistsW
              (hist ++ [Call.GetFileAttributesW (c_str (StripTrailingSlashes f))])) D f true)
          (hist ++ [Call.GetFileAttributesW (c_str (StripTrailingSlashes f)), Call.PumpMessages])
          { (fl.click (env.PumpMessages
              (hist ++ [Call.GetFileAttributesW (c_str (StripTrailingSlashes f))]))) with
            uiCancel := false } allOk) := by
  unfold RunClipboardOperationWithUI.item
  simp only [hattrs, hdir, h1, h2, Bool.or_self, Bool.and_false, Bool.false_eq_true, if_false]
  rfl

theorem RunClipboardOperationWithUI.item_of_guard_dst (env : Env) (D : WString) (isCopy : Bool)
    (f : WString) (hist : List Call) (fl : OpFlags) (allOk : Bool) (attrs : Nat)
    (hattrs : env.GetFileAttributesW hist (c_str (StripTrailingSlashes f)) = some attrs)
    (hdir : (attrs &&& FILE_ATTRIBUTE_DIRECTORY != 0) = true)
    (h2 : IsPrefixPathNoCase (StripTrailingSlashes f)
      (RunClipboardOperationWithUI.dst
        (env.PathFileExistsW (hist ++ [Call.GetFileAttributesW (c_str (StripTrailingSlashes f))]))
        D f true) = true) :
    RunClipboardOperationWithUI.item env D isCopy f hist fl allOk =
      { calls := [Call.GetFileAttributesW (c_str (StripTrailingSlashes f))], flags := fl,
        allOk := false, stop := false } := by
  unfold RunClipboardOperationWithUI.item
  simp only [hattrs, hdir, h2, Bool.or_true, Bool.and_self, if_true]

theorem RunClipboardOperationWithUI.dst_no_NUL (fs : WString → Bool) (D f : WString)
    (hD : NUL ∉ D) : NUL ∉ RunClipboardOperationWithUI.dst fs D f true := by
  obtain ⟨t, ht, _, _, hn⟩ := RunClipboardOperationWithUI.dst_dir fs D f
  rw [ht]
  exact fun hm => (List.mem_append.1 hm).elim (EnsureSlash_no_NUL hD) hn

/-- C29 (amended): on paths without NUL, `IsPrefixPathNoCase(S, D)` is true exactly
when `EnsureSlash(S)` is a case-insensitive prefix of `EnsureSlash(D)`. For a
directory item with source `S` pasted into a folder `D` of which `EnsureSlash(S)`
is no such prefix, `IsPrefixPathNoCase(S, D)` is false, and the second test of
the guard, on the destination path `dst` that `UniqueName` returns, fires
exactly when `dst` is `S` itself up to case and trailing slash. The item is
skipped in that case and is not skipped otherwise. -/
theorem self_paste_guard_fires_iff_case_insensitive_textual_ancestor (env : Env)
    (D : WString) (isCopy : Bool) (f : WString) (hist : List Call) (fl : OpFlags)
    (allOk : Bool) (attrs : Nat)
    (hS : NUL ∉ StripTrailingSlashes f) (hD : NUL ∉ D)
    (hattrs : env.GetFileAttributesW hist (c_str (StripTrailingSlashes f)) = some attrs)
    (hdir : (attrs &&& FILE_ATTRIBUTE_DIRECTORY != 0) = true) :
    (∀ S2 D2 : WString, NUL ∉ S2 → NUL ∉ D2 →
      (IsPrefixPathNoCase S2 D2 = true ↔ ciBegins (EnsureSlash S2) (EnsureSlash D2))) ∧
    (¬ ciBegins (EnsureSlash (StripTrailingSlashes f)) (EnsureSlash D) →
      IsPrefixPathNoCase (StripTrailingSlashes f) D = false ∧
      (IsPrefixPathNoCase (StripTrailingSlashes f)
          (RunClipboardOperationWithUI.dst
            (env.PathFileExistsW
              (hist ++ [Call.GetFileAttributesW (c_str (StripTrailingSlashes f))])) D f true) =
            true ↔
        ToLower (EnsureSlash (RunClipboardOperationWithUI.dst
            (env.PathFileExistsW
              (hist ++ [Call.GetFileAttributesW (c_str (StripTrailingSlashes f))])) D f true)) =
          ToLower (EnsureSlash (StripTrailingSlashes f))) ∧
      (ToLower (EnsureSlash (RunClipboardOperationWithUI.dst
            (env.PathFileExistsW
              (hist ++ [Call.GetFileAttributesW (c_str (StripTrailingSlashes f))])) D f true)) ≠
          ToLower (EnsureSlash (StripTrailingSlashes f)) →
        RunClipboardOperationWithUI.item env D isCopy f hist fl allOk =
          RunClipboardOperationWithUI.epilogue env hist
            [Call.GetFileAttributesW (c_str (StripTrailingSlashes f)), Call.PumpMessages]
            (RunClipboardOperationWithUI.transfer env isCopy true (StripTrailingSlashes f)
              (RunClipboardOperationWithUI.dst
                (env.PathFileExistsW
                  (hist ++ [Call.GetFileAttributesW (c_str (StripTrailingSlashes f))])) D f true)
              (hist ++
                [Call.GetFileAttributesW (c_str (StripTrailingSlashes f)), Call.PumpMessages])
              { (fl.click (env.PumpMessages
                  (hist ++ [Call.GetFileAttributesW (c_str (StripTrailingSlashes f))]))) with
                uiCancel := false } allOk)) ∧
      (ToLower (EnsureSlash (RunClipboardOperationWithUI.dst
            (env.PathFileExistsW
              (hist ++ [Call.GetFileAttributesW (c_str (StripTrailingSlashes f))])) D f true)) =
          ToLower (EnsureSlash (StripTrailingSlashes f)) →
        RunClipboardOperationWithUI.item env D isCopy f hist fl allOk =
          { calls := [Call.GetFileAttributesW (c_str (StripTrailingSlashes f))], flags := fl,
            allOk := false, stop := false })) := by
  refine ⟨fun S2 D2 h1 h2 => IsPrefixPathNoCase_iff S2 D2 h1 h2, ?_⟩
  intro hno
  have hdN := RunClipboardOperationWithUI.dst_no_NUL
    (env.PathFileExistsW (hist ++ [Call.GetFileAttributesW (c_str (StripTrailingSlashes f))]))
    D f hD
  have g1 : IsPrefixPathNoCase (StripTrailingSlashes f) D = false := by
    cases h : IsPrefixPathNoCase (StripTrailingSlashes f) D with
    | false => rfl
    | true => exact absurd ((IsPrefixPathNoCase_iff _ _ hS hD).1 h) hno
  have g2 : IsPrefixPathNoCase (StripTrailingSlashes f)
        (RunClipboardOperationWithUI.dst
          (env.PathFileExistsW
            (hist ++ [Call.GetFileAttributesW (c_str (StripTrailingSlashes f))])) D f true) =
          true ↔
      ToLower (EnsureSlash (RunClipboardOperationWithUI.dst
          (env.PathFileExistsW
            (hist ++ [Call.GetFileAttributesW (c_str (StripTrailingSlashes f))])) D f true)) =
        ToLower (EnsureSlash (StripTrailingSlashes f)) := by
    rw [IsPrefixPathNoCase_iff _ _ hS hdN]
    constructor
    · intro h
      obtain ⟨t, ht, hb, hf, _⟩ := RunClipboardOperationWithUI.dst_dir
        (env.PathFileExistsW
          (hist ++ [Call.GetFileAttributesW (c_str (StripTrailingSlashes f))])) D f
      rw [ht] at h ⊢
      exact ciBegins_of_new_name _ D t hb hf hno h
    · intro h
      unfold ciBegins
      rw [h]
  refine ⟨g1, g2, ?_, ?_⟩
  · intro hne
    apply RunClipboardOperationWithUI.item_of_no_guard env D isCopy f hist fl allOk attrs hattrs
      hdir g1
    cases h : IsPrefixPathNoCase (StripTrailingSlashes f)
        (RunClipboardOperationWithUI.dst
          (env.PathFileExistsW
            (hist ++ [Call.GetFileAttributesW (c_str (StripTrailingSlashes f))])) D f true) with
    | false => rfl
    | true => exact absurd (g2.1 h) hne
  · intro he
    exact RunClipboardOperationWithUI.item_of_guard_dst env D isCopy f hist fl allOk attrs hattrs
      hdir (g2.2 he)
theorem exCrowded_candidate (h : List Call) (j : Nat) (h1 : 1 ≤ j) (h2 : j ≤ 9999) :
    PathFileExistsW (exEnvCrowded.PathFileExistsW h)
      ("C:\\s\\".toList ++ "d".toList ++ swprintf_paren j ++ []) = true := by
  unfold PathFileExistsW
  rw [c_str_eq_self]
  · simp only [exEnvCrowded, decide_eq_true_eq, exCrowdedList]
    apply List.mem_cons_of_mem
    rw [List.mem_map]
    refine ⟨j - 1, List.mem_range.2 (by omega), ?_⟩
    rw [show j - 1 + 1 = j by omega, ← swprintf_paren_eq]
    simp
  · intro hm
    simp only [List.append_nil] at hm
    rcases List.mem_append.1 hm with hm | hm
    · exact absurd hm (by decide)
    · exact swprintf_paren_no_NUL j hm

theorem exCrowded_dst (h : List Call) :
    RunClipboardOperationWithUI.dst (exEnvCrowded.PathFileExistsW h) "C:\\s\\".toList
      "C:\\s\\d".toList true = "C:\\s\\d".toList := by
  have hb : RunClipboardOperationWithUI.splitName true
      (RunClipboardOperationWithUI.baseName (StripTrailingSlashes "C:\\s\\d".toList)) =
      ("d".toList, []) := by decide
  have hf : EnsureSlash "C:\\s\\".toList = "C:\\s\\".toList := by decide
  have ht : PathFileExistsW (exEnvCrowded.PathFileExistsW h)
      ("C:\\s\\".toList ++ "d".toList ++ []) = true := by
    have hc : c_str ("C:\\s\\".toList ++ "d".toList ++ []) = "C:\\s\\d".toList := by decide
    unfold PathFileExistsW
    rw [hc]
    simp only [exEnvCrowded, decide_eq_true_eq, exCrowdedList]
    exact List.mem_cons_self _ _
  unfold RunClipboardOperationWithUI.dst
  simp only [hb]
  unfold UniqueName
  simp only [hf, ht, Bool.not_true, Bool.false_eq_true, if_false]
  rw [UniqueName.loop_all_exist _ _ _ _ _ 9999 1
    (fun j hj1 hj2 => exCrowded_candidate h j hj1 (by omega))]
  rfl

/-- C29, counterexample: the directory `C:\s\d` is pasted into its parent `C:\s\`,
which already holds `d`, `d (1)`, ..., `d (9999)`. `EnsureSlash(S)` = `C:\s\d\` is no
prefix of `EnsureSlash(D)` = `C:\s\` and `IsPrefixPathNoCase(S, D)` is false, but
`UniqueName` finds no free name and returns `C:\s\d`, the source itself; the
second test of the guard fires and the item is skipped. -/
theorem self_paste_guard_skips_when_no_free_name :
    ¬ ciBegins (EnsureSlash "C:\\s\\d".toList) (EnsureSlash "C:\\s\\".toList) ∧
      IsPrefixPathNoCase "C:\\s\\d".toList "C:\\s\\".toList = false ∧
      exEnvCrowded.GetFileAttributesW [] "C:\\s\\d".toList = some 0x10 ∧
      RunClipboardOperationWithUI.dst
        (exEnvCrowded.PathFileExistsW [Call.GetFileAttributesW "C:\\s\\d".toList])
        "C:\\s\\".toList "C:\\s\\d".toList true = "C:\\s\\d".toList ∧
      RunClipboardOperationWithUI.item exEnvCrowded "C:\\s\\".toList true "C:\\s\\d".toList []
          {} true =
        { calls := [Call.GetFileAttributesW "C:\\s\\d".toList], flags := {}, allOk := false,
          stop := false } := by
  refine ⟨by unfold ciBegins; decide, by decide, by decide, exCrowded_dst _, ?_⟩
  apply RunClipboardOperationWithUI.item_of_guard_dst exEnvCrowded "C:\\s\\".toList true
    "C:\\s\\d".toList [] {} true 0x10 (by decide) (by decide)
  rw [exCrowded_dst]
  decide

theorem self_paste_guard_fires_iff_case_insensitive_textual_ancestor_witness :
    ¬ ciBegins (EnsureSlash "C:\\s\\d".toList) (EnsureSlash "C:\\s\\dx".toList) ∧
      IsPrefixPathNoCase "C:\\s\\d".toList "C:\\s\\dx".toList = false ∧
      RunClipboardOperationWithUI.item exEnv "C:\\s\\dx".toList true "C:\\s\\d".toList [] {}
          true =
        { calls := [Call.GetFileAttributesW "C:\\s\\d".toList, Call.PumpMessages,
            Call.CreateDirectoryW "C:\\s\\dx\\d\\".toList,
            Call.FindFirstFileW "C:\\s\\d\\*".toList,
            Call.CopyFileExW "C:\\s\\d\\x.bin".toList "C:\\s\\dx\\d\\x.bin".toList,
            Call.CreateDirectoryW "C:\\s\\dx\\d\\sub\\".toList,
            Call.FindFirstFileW "C:\\s\\d\\sub\\*".toList,
            Call.CopyFileExW "C:\\s\\d\\sub\\z.bin".toList "C:\\s\\dx\\d\\sub\\z.bin".toList,
            Call.CopyFileExW "C:\\s\\d\\sub\\link".toList "C:\\s\\dx\\d\\sub\\link".toList,
            Call.PumpMessages],
          flags := {}, allOk := true, stop := false } ∧
      ¬ ciBegins (EnsureSlash "C:\\s\\d".toList) (EnsureSlash "C:\\s\\".toList) ∧
      (RunClipboardOperationWithUI.item exEnvTaken "C:\\s\\".toList true "C:\\s\\d".toList [] {}
          true).calls.take 3 =
        [Call.GetFileAttributesW "C:\\s\\d".toList, Call.PumpMessages,
          Call.CreateDirectoryW "C:\\s\\d (1)\\".toList] :=
  have T := (self_paste_guard_fires_iff_case_insensitive_textual_ancestor exEnv
    "C:\\s\\dx".toList true "C:\\s\\d".toList [] {} true 0x10 (by decide) (by decide)
    (by decide) (by decide)).2 (by unfold ciBegins; decide)
  have U := (self_paste_guard_fires_iff_case_insensitive_textual_ancestor exEnvTaken
    "C:\\s\\".toList true "C:\\s\\d".toList [] {} true 0x10 (by decide) (by decide)
    (by decide) (by decide)).2 (by unfold ciBegins; decide)
  ⟨by unfold ciBegins; decide, T.1, (T.2.2.1 (by decide)).trans (by decide),
    by unfold ciBegins; decide, (congrArg (fun r => r.calls.take 3) (U.2.2.1 (by decide))).trans
      (by decide)⟩

end Browse
